import Mathlib

/-!
mdadm over a JBOD array, with an LFU block cache: a shallow embedding of `mdadm.c` and
`cache.c`.

* Memory reached through a `uint8_t *` is a function from byte index to byte;
  a pointer that may be `NULL` is an `Option`.
* `uint32_t` and `uint8_t` variables are natural numbers, reduced modulo
  `2^32` resp. `2^8` wherever the C arithmetic can wrap.
* `int` variables are integers. The only `int` arithmetic of the two files is the
  increment of the three counters of cache.c; its result is reduced to the `int` range
  (`wrap_int`).
* The globals of the two files are the fields of `CacheState` and `State`;
  every function takes the state and returns the new one.
* `malloc`/`calloc` are taken to succeed.
-/

set_option linter.unusedVariables false

/-! ## Memory -/

/-- One byte of memory (`uint8_t`). -/
abbrev Byte := Fin 256

/-- The bytes found at and after a `uint8_t *`, by index. -/
abbrev Buf := Nat → Byte

/-- The C call `memcpy(dst + doff, src + soff, n)` as the new contents behind `dst`. -/
def memcpy (dst : Buf) (doff : Nat) (src : Buf) (soff : Nat) (n : Nat) : Buf :=
  fun i => if doff ≤ i ∧ i < doff + n then src (soff + (i - doff)) else dst i

/-- Subtraction of `uint32_t` values. -/
def sub32 (a b : Nat) : Nat := (a + 2 ^ 32 - b % 2 ^ 32) % 2 ^ 32

/-- The value an `int` variable holds when the result `x` of an `int` operation is stored
in it: `x` reduced to the range -2147483648 .. 2147483647 in two's complement. (Signed
overflow is undefined in C; the reduction is what the increment of an `int` in memory gives
on the usual targets.) -/
def wrap_int (x : Int) : Int := (x + 2147483648) % 4294967296 - 2147483648

/-! ## The device driver (jbod.h) -/

/-- Modelled from the spec: the macro `JBOD_NUM_DISKS` of jbod.h, which is not among the
sources; the spec gives DISK_COUNT = 16. -/
def JBOD_NUM_DISKS : Nat := 16

/-- Modelled from the spec: the macro `JBOD_NUM_BLOCKS_PER_DISK` of jbod.h, which is not
among the sources; the spec gives BLOCKS_PER_DISK = 256. -/
def JBOD_NUM_BLOCKS_PER_DISK : Nat := 256

/-- Modelled from the spec: the macro `JBOD_BLOCK_SIZE` of jbod.h, which is not among the
sources; the spec gives BLOCK_SIZE = 256. -/
def JBOD_BLOCK_SIZE : Nat := 256

/-- Modelled from the spec: the command enum of jbod.h, which is not among the sources; the
codes are numbered in the order in which the spec lists them (MOUNT, UNMOUNT,
WRITE_PERMISSION, REVOKE_WRITE_PERMISSION, SEEK_TO_DISK, SEEK_TO_BLOCK, READ_BLOCK,
WRITE_BLOCK). -/
def JBOD_MOUNT : Nat := 0

/-- Modelled from the spec: see `JBOD_MOUNT`. -/
def JBOD_UNMOUNT : Nat := 1

/-- Modelled from the spec: see `JBOD_MOUNT`. -/
def JBOD_WRITE_PERMISSION : Nat := 2

/-- Modelled from the spec: see `JBOD_MOUNT`. -/
def JBOD_REVOKE_WRITE_PERMISSION : Nat := 3

/-- Modelled from the spec: see `JBOD_MOUNT`. -/
def JBOD_SEEK_TO_DISK : Nat := 4

/-- Modelled from the spec: see `JBOD_MOUNT`. -/
def JBOD_SEEK_TO_BLOCK : Nat := 5

/-- Modelled from the spec: see `JBOD_MOUNT`. -/
def JBOD_READ_BLOCK : Nat := 6

/-- Modelled from the spec: see `JBOD_MOUNT`. -/
def JBOD_WRITE_BLOCK : Nat := 7

/-- Modelled from the spec: the state of the external DeviceDriver, whose code is not among
the sources. It holds 16 disks of 256 blocks of 256 bytes (`disks disk block byte`) and an
I/O position. The spec does not say where the position stands after a seek-to-disk or after
a block transfer, nor how the driver answers the control commands: `head_after cmd block`
is the block index the driver moves to after command `cmd`, and `control` is the stream of
answers it gives to the control commands still to come. Both are arbitrary, so what is
proved holds for every driver of this shape. -/
structure Jbod where
  disks : Nat → Nat → Buf
  cur_disk : Nat
  cur_block : Nat
  head_after : Nat → Nat → Nat
  control : Nat → Int

/-- Modelled from the spec: `jbod_operation(op, block)` of the external DeviceDriver, whose
code is not among the sources. The word is decoded as the spec lays it out: bits [0:8) block
id, [8:12) disk id, [12:18) command. Seek-to-disk and seek-to-block set the I/O position and
succeed; read-block fills the buffer with the 256 bytes of the block at the position,
write-block stores 256 bytes of the buffer there, and both succeed when the position is on
the array and a buffer is given; a control command returns the next answer of `control`.
The result is the return value (0 on success), the new device state and the memory behind
`block`. -/
def jbod_operation (j : Jbod) (op : Nat) (block : Option Buf) : Int × Jbod × Option Buf :=
  let blockID := op % 256
  let diskID := op / 256 % 16
  let cmd := op / 4096 % 64
  if cmd = JBOD_SEEK_TO_DISK then
    (0, { j with cur_disk := diskID, cur_block := j.head_after cmd j.cur_block }, block)
  else if cmd = JBOD_SEEK_TO_BLOCK then
    (0, { j with cur_block := blockID }, block)
  else if cmd = JBOD_READ_BLOCK then
    match block with
    | some buf =>
      if j.cur_disk < JBOD_NUM_DISKS ∧ j.cur_block < JBOD_NUM_BLOCKS_PER_DISK then
        (0, { j with cur_block := j.head_after cmd j.cur_block },
          some (memcpy buf 0 (j.disks j.cur_disk j.cur_block) 0 JBOD_BLOCK_SIZE))
      else (-1, j, block)
    | none => (-1, j, block)
  else if cmd = JBOD_WRITE_BLOCK then
    match block with
    | some buf =>
      if j.cur_disk < JBOD_NUM_DISKS ∧ j.cur_block < JBOD_NUM_BLOCKS_PER_DISK then
        (0, { j with
                disks := fun d b =>
                  if d = j.cur_disk ∧ b = j.cur_block then
                    memcpy (j.disks d b) 0 buf 0 JBOD_BLOCK_SIZE
                  else j.disks d b,
                cur_block := j.head_after cmd j.cur_block }, block)
      else (-1, j, block)
    | none => (-1, j, block)
  else if cmd = JBOD_MOUNT ∨ cmd = JBOD_UNMOUNT ∨ cmd = JBOD_WRITE_PERMISSION
      ∨ cmd = JBOD_REVOKE_WRITE_PERMISSION then
    (j.control 0, { j with control := fun n => j.control (n + 1) }, block)
  else (-1, j, block)

/-- The device byte at linear address `a`: disk `a / 65536`, block `a % 65536 / 256`,
byte `a % 256`. -/
def dev_byte (disks : Nat → Nat → Buf) (a : Nat) : Byte :=
  disks (a / 65536) (a % 65536 / 256) (a % 256)

/-! ## cache.c -/

/-- Modelled from the spec: `cache_entry_t` of cache.h, which is not among the sources. The
fields are those cache.c uses; the spec's CacheEntry gives their kinds. The access count is
kept in `int` variables by cache.c and is an integer here. -/
structure cache_entry_t where
  valid : Bool
  disk_num : Int
  block_num : Int
  block : Buf
  num_accesses : Int

/-- The static globals of cache.c. `cache` is the pointer (`none` for `NULL`) together with
the entries it points to. -/
structure CacheState where
  cache : Option (Nat → cache_entry_t)
  cache_size : Int
  num_queries : Int
  num_hits : Int

/-- An entry as `calloc` leaves it: all bytes zero. -/
def zero_entry : cache_entry_t :=
  { valid := false, disk_num := 0, block_num := 0, block := fun _ => 0, num_accesses := 0 }

/-- The function `cache_enabled` of cache.c. -/
def cache_enabled (c : CacheState) : Bool :=
  c.cache.isSome && decide (c.cache_size > 0)

/-- The function `cache_create` of cache.c: the return value and the new statics. -/
def cache_create (c : CacheState) (num_entries : Int) : Int × CacheState :=
  if cache_enabled c ∨ num_entries < 2 ∨ num_entries > 4096 then (-1, c)
  else (1, { c with cache := some (fun _ => zero_entry), cache_size := num_entries })

/-- The function `cache_destroy` of cache.c. -/
def cache_destroy (c : CacheState) : Int × CacheState :=
  if !cache_enabled c then (-1, c)
  else (1, { c with cache := none, cache_size := 0 })

/-- The `for` loop of `cache_lookup`, with `n` iterations left at index `i`: the index of
the entry that is hit, or `none` when the loop ends with -1. -/
def cache_lookup_scan (e : Nat → cache_entry_t) (disk_num block_num : Int) :
    Nat → Nat → Option Nat
  | 0, _ => none
  | n + 1, i =>
    if !(e i).valid then none
    else if (e i).disk_num = disk_num ∧ (e i).block_num = block_num then some i
    else cache_lookup_scan e disk_num block_num n (i + 1)

/-- The function `cache_lookup` of cache.c: the return value, the new statics and the memory
behind `buf`. -/
def cache_lookup (c : CacheState) (disk_num block_num : Int) (buf : Option Buf) :
    Int × CacheState × Option Buf :=
  match c.cache, buf with
  | some e, some b =>
    if !cache_enabled c ∨ disk_num > JBOD_NUM_DISKS ∨ disk_num < 0
        ∨ block_num > JBOD_NUM_BLOCKS_PER_DISK ∨ block_num < 0 then (-1, c, buf)
    else
      match cache_lookup_scan e disk_num block_num c.cache_size.toNat 0 with
      | none => (-1, { c with num_queries := wrap_int (c.num_queries + 1) }, buf)
      | some i =>
        (1, { c with
                num_queries := wrap_int (c.num_queries + 1),
                num_hits := wrap_int (c.num_hits + 1),
                cache := some (Function.update e i
                  { e i with num_accesses := wrap_int ((e i).num_accesses + 1) }) },
          some (memcpy b 0 (e i).block 0 JBOD_BLOCK_SIZE))
  | _, _ => (-1, c, buf)

/-- The `for` loop of `cache_update`, with `n` iterations left at index `i`: the index of
the entry that is overwritten, if any. -/
def cache_update_scan (e : Nat → cache_entry_t) (disk_num block_num : Int) :
    Nat → Nat → Option Nat
  | 0, _ => none
  | n + 1, i =>
    if (e i).disk_num = disk_num ∧ (e i).block_num = block_num then some i
    else cache_update_scan e disk_num block_num n (i + 1)

/-- The function `cache_update` of cache.c (`buf` is dereferenced unchecked, so it is not
`NULL`). -/
def cache_update (c : CacheState) (disk_num block_num : Int) (buf : Buf) : CacheState :=
  match c.cache with
  | none => c
  | some e =>
    match cache_update_scan e disk_num block_num c.cache_size.toNat 0 with
    | none => c
    | some i =>
      { c with cache := some (Function.update e i
          { e i with
              block := memcpy (e i).block 0 buf 0 JBOD_BLOCK_SIZE,
              num_accesses := wrap_int ((e i).num_accesses + 1) }) }

/-- The `for` loop of `cache_insert`, with `n` iterations left at index `i` and the current
`index` and `least_accesses`: `none` when the loop returns -1 on a duplicate, otherwise the
value of `index` after the loop. -/
def cache_insert_scan (e : Nat → cache_entry_t) (disk_num block_num : Int) :
    Nat → Nat → Nat → Int → Option Nat
  | 0, _, index, _ => some index
  | n + 1, i, index, least_accesses =>
    if (e i).valid = true ∧ (e i).disk_num = disk_num ∧ (e i).block_num = block_num then none
    else if (e i).valid = false then some i
    else if (e i).num_accesses < least_accesses then
      cache_insert_scan e disk_num block_num n (i + 1) i (e i).num_accesses
    else cache_insert_scan e disk_num block_num n (i + 1) index least_accesses

/-- The function `cache_insert` of cache.c. -/
def cache_insert (c : CacheState) (disk_num block_num : Int) (buf : Option Buf) :
    Int × CacheState :=
  match c.cache, buf with
  | some e, some b =>
    if !cache_enabled c ∨ disk_num > JBOD_NUM_DISKS ∨ disk_num < 0
        ∨ block_num > JBOD_NUM_BLOCKS_PER_DISK ∨ block_num < 0 then (-1, c)
    else
      match cache_insert_scan e disk_num block_num c.cache_size.toNat 0 0
          (e 0).num_accesses with
      | none => (-1, c)
      | some index =>
        (1, { c with cache := some (Function.update e index
                { valid := true, disk_num := disk_num, block_num := block_num,
                  block := memcpy (e index).block 0 b 0 JBOD_BLOCK_SIZE,
                  num_accesses := 1 }) })
  | _, _ => (-1, c)

/-! ## mdadm.c -/

/-- The globals of mdadm.c (`is_mounted`, `is_written`), the device behind `jbod_operation`,
the statics of cache.c, and `malloc_block`: the bytes that the block returned by
`malloc(256)` happens to hold. -/
structure State where
  is_mounted : Int
  is_written : Int
  jbod : Jbod
  cache : CacheState
  malloc_block : Buf

/-- The function `op_creator` of mdadm.c, on `uint32_t` values. -/
def op_creator (blockID diskID cmd reserved : Nat) : Nat :=
  let tempBlockID := blockID &&& 0xff
  let tempDiskID := ((diskID &&& 0xf) <<< 8) % 2 ^ 32
  let tempCMD := ((cmd &&& 0x7f) <<< 12) % 2 ^ 32
  let tempReserved := ((reserved &&& 0x3fff) <<< 18) % 2 ^ 32
  tempBlockID ||| tempDiskID ||| tempCMD ||| tempReserved

/-- The function `mdadm_mount` of mdadm.c. -/
def mdadm_mount (st : State) : Int × State :=
  let cmd := op_creator 0 0 JBOD_MOUNT 0
  if st.is_mounted = 0 then
    let r := jbod_operation st.jbod cmd none
    if r.1 = 0 then (1, { st with jbod := r.2.1, is_mounted := 1 })
    else (-1, { st with jbod := r.2.1 })
  else (-1, st)

/-- The function `mdadm_unmount` of mdadm.c. -/
def mdadm_unmount (st : State) : Int × State :=
  let cmd := op_creator 0 0 JBOD_UNMOUNT 0
  if st.is_mounted = 1 then
    let r := jbod_operation st.jbod cmd none
    if r.1 = 0 then (1, { st with jbod := r.2.1, is_mounted := 0 })
    else (-1, { st with jbod := r.2.1 })
  else (-1, st)

/-- The function `mdadm_write_permission` of mdadm.c. -/
def mdadm_write_permission (st : State) : Int × State :=
  let cmd := op_creator 0 0 JBOD_WRITE_PERMISSION 0
  if st.is_written = 0 then
    let r := jbod_operation st.jbod cmd none
    if r.1 = 0 then (0, { st with jbod := r.2.1, is_written := 1 })
    else (-1, { st with jbod := r.2.1 })
  else (-1, st)

/-- The function `mdadm_revoke_write_permission` of mdadm.c. -/
def mdadm_revoke_write_permission (st : State) : Int × State :=
  let cmd := op_creator 0 0 JBOD_REVOKE_WRITE_PERMISSION 0
  if st.is_written = 1 then
    let r := jbod_operation st.jbod cmd none
    if r.1 = 0 then (0, { st with jbod := r.2.1, is_written := 0 })
    else (-1, { st with jbod := r.2.1 })
  else (-1, st)

/-- The function `getDiskID` of mdadm.c: a `uint32_t` quotient returned as `uint8_t`. -/
def getDiskID (start_addr : Nat) : Nat :=
  (start_addr / (JBOD_BLOCK_SIZE * JBOD_NUM_BLOCKS_PER_DISK)) % 256

/-- The function `getBlockID` of mdadm.c: the product is an `int`, the difference and the
quotient are `uint32_t`, the result is `uint8_t`. -/
def getBlockID (start_addr : Nat) (diskId : Nat) : Nat :=
  (sub32 start_addr (diskId * JBOD_BLOCK_SIZE * JBOD_NUM_BLOCKS_PER_DISK) / JBOD_BLOCK_SIZE) % 256

/-- The two seeks that open every block access of `mdadm_read` and `mdadm_write`:
`JBOD_SEEK_TO_DISK` then `JBOD_SEEK_TO_BLOCK`, results ignored. -/
def seek_disk_block (j : Jbod) (diskId blockId : Nat) : Jbod :=
  let cmd := op_creator blockId diskId JBOD_SEEK_TO_DISK 0
  let j1 := (jbod_operation j cmd none).2.1
  let cmd := op_creator blockId diskId JBOD_SEEK_TO_BLOCK 0
  (jbod_operation j1 cmd none).2.1

/-- The variables of the `while` loop of `mdadm_read`, with the state and the memory behind
`read_buf`; `current_pos` is kept as `current_pos - read_buf`. -/
structure ReadVars where
  st : State
  read_buf : Buf
  read_bytes : Nat
  current_pos : Nat
  diskId : Nat
  blockId : Nat
  offset : Nat
  tempBuffer : Buf

/-- Lines 183-203 of `mdadm_read`: position the device, then get the whole block into
`tempBuffer`, from the cache if it is enabled and has the block, else from the device
(inserting it into the cache if enabled). -/
def mdadm_read_fetch (st : State) (diskId blockId : Nat) (tempBuffer : Buf) : State × Buf :=
  let j := seek_disk_block st.jbod diskId blockId
  if cache_enabled st.cache then
    let l := cache_lookup st.cache diskId blockId (some tempBuffer)
    if l.1 ≠ 1 then
      let cmd := op_creator blockId diskId JBOD_READ_BLOCK 0
      let r := jbod_operation j cmd l.2.2
      let i := cache_insert l.2.1 diskId blockId r.2.2
      ({ st with jbod := r.2.1, cache := i.2 }, r.2.2.getD tempBuffer)
    else ({ st with jbod := j, cache := l.2.1 }, l.2.2.getD tempBuffer)
  else
    let cmd := op_creator blockId diskId JBOD_READ_BLOCK 0
    let r := jbod_operation j cmd (some tempBuffer)
    ({ st with jbod := r.2.1 }, r.2.2.getD tempBuffer)

/-- One iteration of the `while` loop of `mdadm_read` (lines 181-239). -/
def mdadm_read_step (v : ReadVars) : ReadVars :=
  let f := mdadm_read_fetch v.st v.diskId v.blockId v.tempBuffer
  let tempBuffer := f.2
  let c : Buf × Nat × Nat :=
    if v.offset = 0 then
      if v.read_bytes < JBOD_BLOCK_SIZE then
        (memcpy v.read_buf v.current_pos tempBuffer 0 v.read_bytes,
          v.current_pos + v.read_bytes, 0)
      else
        (memcpy v.read_buf v.current_pos tempBuffer 0 JBOD_BLOCK_SIZE,
          v.current_pos + JBOD_BLOCK_SIZE, sub32 v.read_bytes JBOD_BLOCK_SIZE)
    else
      if v.read_bytes < sub32 JBOD_BLOCK_SIZE v.offset then
        (memcpy v.read_buf v.current_pos tempBuffer v.offset v.read_bytes,
          v.current_pos + v.read_bytes, 0)
      else
        (memcpy v.read_buf v.current_pos tempBuffer v.offset (sub32 JBOD_BLOCK_SIZE v.offset),
          v.current_pos + sub32 JBOD_BLOCK_SIZE v.offset,
          sub32 v.read_bytes (sub32 JBOD_BLOCK_SIZE v.offset))
  { st := f.1, read_buf := c.1, read_bytes := c.2.2, current_pos := c.2.1,
    diskId := if v.blockId = 255 then (v.diskId + 1) % 256 else v.diskId,
    blockId := if v.blockId = 255 then 0 else (v.blockId + 1) % 256,
    offset := 0, tempBuffer := tempBuffer }

/-- The `while (read_bytes != 0)` loop of `mdadm_read`, run for at most `fuel` iterations:
`none` if it is still running after them. -/
def mdadm_read_loop : Nat → ReadVars → Option ReadVars
  | 0, v => if v.read_bytes = 0 then some v else none
  | fuel + 1, v => if v.read_bytes = 0 then some v else mdadm_read_loop fuel (mdadm_read_step v)

/-- The function `mdadm_read` of mdadm.c: the return value, the new state and the memory
behind `read_buf`. Every iteration of the loop consumes at least one byte, so `read_len`
iterations are allowed for; `none` would mean the loop runs longer. -/
def mdadm_read (st : State) (start_addr read_len : Nat) (read_buf : Option Buf) :
    Option (Int × State × Option Buf) :=
  if read_len = 0 ∧ read_buf.isNone then some (0, st, read_buf)
  else if st.is_mounted = 0 ∨ start_addr > 1048576 ∨ read_len > 2048
      ∨ (start_addr + read_len) % 2 ^ 32 > 1048576 ∨ read_buf.isNone then some (-1, st, read_buf)
  else
    match read_buf with
    | none => some (-1, st, read_buf)
    | some buf =>
      let diskId := getDiskID start_addr
      let blockId := getBlockID start_addr diskId
      let v : ReadVars :=
        { st := st, read_buf := buf, read_bytes := read_len, current_pos := 0,
          diskId := diskId, blockId := blockId, offset := start_addr % 256,
          tempBuffer := st.malloc_block }
      match mdadm_read_loop read_len v with
      | none => none
      | some w => some ((read_len : Int), w.st, some w.read_buf)

/-- The variables of the `while` loop of `mdadm_write`, with the state; `write_buf` is the
memory behind the `const` pointer. -/
structure WriteVars where
  st : State
  write_buf : Buf
  write_len : Nat
  write_buff_offset : Nat
  diskId : Nat
  blockId : Nat
  offset : Nat
  tempBuffer : Buf

/-- Lines 293-328 of `mdadm_write`: position the device, get the whole block into
`tempBuffer` from the cache if it is enabled and has the block (then `cache_updated` is 1),
else from the device, positioning the device again after the read. -/
def mdadm_write_fetch (st : State) (diskId blockId : Nat) (tempBuffer : Buf) :
    State × Buf × Int :=
  let j := seek_disk_block st.jbod diskId blockId
  if cache_enabled st.cache then
    let l := cache_lookup st.cache diskId blockId (some tempBuffer)
    if l.1 ≠ 1 then
      let cmd := op_creator blockId diskId JBOD_READ_BLOCK 0
      let r := jbod_operation j cmd l.2.2
      ({ st with jbod := seek_disk_block r.2.1 diskId blockId, cache := l.2.1 },
        r.2.2.getD tempBuffer, 0)
    else ({ st with jbod := j, cache := l.2.1 }, l.2.2.getD tempBuffer, 1)
  else
    let cmd := op_creator blockId diskId JBOD_READ_BLOCK 0
    let r := jbod_operation j cmd (some tempBuffer)
    ({ st with jbod := seek_disk_block r.2.1 diskId blockId }, r.2.2.getD tempBuffer, 0)

/-- One iteration of the `while` loop of `mdadm_write` (lines 291-391). `offset` is a
`uint8_t`, so `256 - offset` is an `int` that cannot wrap. -/
def mdadm_write_step (v : WriteVars) : WriteVars :=
  let f := mdadm_write_fetch v.st v.diskId v.blockId v.tempBuffer
  let cache_updated := f.2.2
  let cmd := op_creator v.blockId v.diskId JBOD_WRITE_BLOCK 0
  let c : Buf × Nat × Nat :=
    if v.offset = 0 then
      if v.write_len ≥ 256 then
        (memcpy f.2.1 0 v.write_buf v.write_buff_offset 256,
          sub32 v.write_len 256, (v.write_buff_offset + 256) % 2 ^ 32)
      else
        (memcpy f.2.1 0 v.write_buf v.write_buff_offset v.write_len,
          0, (v.write_buff_offset + v.write_len) % 2 ^ 32)
    else
      if v.write_len ≥ 256 - v.offset then
        (memcpy f.2.1 v.offset v.write_buf v.write_buff_offset (256 - v.offset),
          (sub32 v.write_len 256 + v.offset) % 2 ^ 32,
          sub32 ((v.write_buff_offset + 256) % 2 ^ 32) v.offset)
      else
        (memcpy f.2.1 v.offset v.write_buf 0 v.write_len, 0, v.write_len)
  let tempBuffer := c.1
  let r := jbod_operation f.1.jbod cmd (some tempBuffer)
  let cache :=
    if cache_updated = 1 then cache_update f.1.cache v.diskId v.blockId tempBuffer
    else (cache_insert f.1.cache v.diskId v.blockId (some tempBuffer)).2
  { st := { f.1 with jbod := r.2.1, cache := cache },
    write_buf := v.write_buf, write_len := c.2.1, write_buff_offset := c.2.2,
    diskId := if v.blockId = 255 then (v.diskId + 1) % 256 else v.diskId,
    blockId := if v.blockId = 255 then 0 else (v.blockId + 1) % 256,
    offset := 0, tempBuffer := tempBuffer }

/-- The `while (write_len != 0)` loop of `mdadm_write`, run for at most `fuel` iterations:
`none` if it is still running after them. -/
def mdadm_write_loop : Nat → WriteVars → Option WriteVars
  | 0, v => if v.write_len = 0 then some v else none
  | fuel + 1, v =>
    if v.write_len = 0 then some v else mdadm_write_loop fuel (mdadm_write_step v)

/-- The function `mdadm_write` of mdadm.c: the return value and the new state. Every
iteration of the loop consumes at least one byte, so `write_len` iterations are allowed
for; `none` would mean the loop runs longer. -/
def mdadm_write (st : State) (start_addr write_len : Nat) (write_buf : Option Buf) :
    Option (Int × State) :=
  if write_len = 0 ∧ write_buf.isNone then some (0, st)
  else if st.is_mounted = 0 ∨ st.is_written = 0 ∨ write_len > 2048
      ∨ (start_addr + write_len) % 2 ^ 32 > 1048576 ∨ write_buf.isNone then some (-1, st)
  else
    match write_buf with
    | none => some (-1, st)
    | some buf =>
      let diskId := getDiskID start_addr
      let blockId := getBlockID start_addr diskId
      let v : WriteVars :=
        { st := st, write_buf := buf, write_len := write_len, write_buff_offset := 0,
          diskId := diskId, blockId := blockId, offset := start_addr % 256 % 256,
          tempBuffer := st.malloc_block }
      match mdadm_write_loop write_len v with
      | none => none
      | some w => some ((write_len : Int), w.st)

/-! ## Vocabulary of the properties -/

/-- The valid entries among the first `n` slots form a prefix of them. -/
def ValidPrefix (e : Nat → cache_entry_t) (n : Nat) : Prop :=
  ∀ i j, i < j → j < n → (e j).valid = true → (e i).valid = true

/-- No two valid entries among the first `n` slots have the same (disk, block) key. -/
def KeysUnique (e : Nat → cache_entry_t) (n : Nat) : Prop :=
  ∀ i j, i < n → j < n → (e i).valid = true → (e j).valid = true →
    (e i).disk_num = (e j).disk_num → (e i).block_num = (e j).block_num → i = j

/-- The entries of the cache, if allocated, satisfy `ValidPrefix` and `KeysUnique`. -/
def CacheInv (c : CacheState) : Prop :=
  ∀ e, c.cache = some e →
    ValidPrefix e c.cache_size.toNat ∧ KeysUnique e c.cache_size.toNat

/-- Coherence on a set `P` of device positions (disk, block, byte): every valid entry agrees
with the device block it is keyed by at the positions of that block that lie in `P`. -/
def Coh (P : Nat → Nat → Nat → Prop) (disks : Nat → Nat → Buf) (c : CacheState) : Prop :=
  ∀ e, c.cache = some e → ∀ i, i < c.cache_size.toNat → (e i).valid = true →
    ∀ d b : Nat, (e i).disk_num = (d : Int) → (e i).block_num = (b : Int) →
      ∀ off, off < 256 → P d b off → (e i).block off = disks d b off

/-- Coherence of the whole cache: the payload of every valid entry is the current content
of the device block it is keyed by. -/
def Coherent (st : State) : Prop :=
  Coh (fun _ _ _ => True) st.jbod.disks st.cache

/-- The cache states reachable from a successful `cache_create` by `cache_insert`,
`cache_lookup` and `cache_update` calls with any arguments. -/
inductive CacheReach : CacheState → Prop
  | create (c : CacheState) (n : Int) :
      (cache_create c n).1 = 1 → CacheReach (cache_create c n).2
  | insert (c : CacheState) (d b : Int) (buf : Option Buf) :
      CacheReach c → CacheReach (cache_insert c d b buf).2
  | lookup (c : CacheState) (d b : Int) (buf : Option Buf) :
      CacheReach c → CacheReach (cache_lookup c d b buf).2.1
  | update (c : CacheState) (d b : Int) (buf : Buf) :
      CacheReach c → CacheReach (cache_update c d b buf)

/-- The four control operations of mdadm.c. -/
inductive ControlOp
  | mount
  | unmount
  | grant
  | revoke
  deriving DecidableEq

/-- One control operation: its return value and the new state. -/
def control_step (st : State) : ControlOp → Int × State
  | .mount => mdadm_mount st
  | .unmount => mdadm_unmount st
  | .grant => mdadm_write_permission st
  | .revoke => mdadm_revoke_write_permission st

/-- The state after a sequence of control operations. -/
def run_control (st : State) : List ControlOp → State
  | [] => st
  | op :: ops => run_control (control_step st op).2 ops

/-- Whether, along a sequence of control operations run from `st`, a grant has succeeded
after the most recent successful mount; `acc` is the answer for the operations already
run. -/
def granted_since_mount (st : State) (acc : Bool) : List ControlOp → Bool
  | [] => acc
  | op :: ops =>
    let r := control_step st op
    let acc1 :=
      match op with
      | .mount => if r.1 = 1 then false else acc
      | .grant => if r.1 = 0 then true else acc
      | _ => acc
    granted_since_mount r.2 acc1 ops

/-- Whether, along a sequence of control operations run from `st`, a grant has succeeded
after the most recent successful revoke; `acc` is the answer for the operations already
run. -/
def granted_since_revoke (st : State) (acc : Bool) : List ControlOp → Bool
  | [] => acc
  | op :: ops =>
    let r := control_step st op
    let acc1 :=
      match op with
      | .revoke => if r.1 = 0 then false else acc
      | .grant => if r.1 = 0 then true else acc
      | _ => acc
    granted_since_revoke r.2 acc1 ops

/-- The states reached from a successful `cache_create` through `mdadm_read` and
`mdadm_write` calls with any arguments (and the control operations, which do not touch the
cache), with no direct call of a cache function. -/
inductive Reached : State → Prop
  | create (st : State) (n : Int) :
      (cache_create st.cache n).1 = 1 → Reached { st with cache := (cache_create st.cache n).2 }
  | read (st : State) (a l : Nat) (buf : Option Buf) (r : Int × State × Option Buf) :
      Reached st → mdadm_read st a l buf = some r → Reached r.2.1
  | write (st : State) (a l : Nat) (buf : Option Buf) (r : Int × State) :
      Reached st → mdadm_write st a l buf = some r → Reached r.2
  | control (st : State) (op : ControlOp) :
      Reached st → Reached (control_step st op).2

/-! ## Sample states -/

/-- A device holding zeros, whose head advances by one block after a transfer and goes to
block 0 after a seek-to-disk, and which accepts every control command. -/
def zero_jbod : Jbod :=
  { disks := fun _ _ _ => 0, cur_disk := 0, cur_block := 0,
    head_after := fun cmd b => if cmd = JBOD_SEEK_TO_DISK then 0 else b + 1,
    control := fun _ => 0 }

/-- The state at program start: nothing mounted, no permission, no cache, all counters 0. -/
def init_state : State :=
  { is_mounted := 0, is_written := 0, jbod := zero_jbod,
    cache := { cache := none, cache_size := 0, num_queries := 0, num_hits := 0 },
    malloc_block := fun _ => 0 }

/-- The state after `mdadm_mount` and `mdadm_write_permission` from `init_state`. -/
def ready_state : State :=
  (mdadm_write_permission (mdadm_mount init_state).2).2

/-- The state `ready_state` after `cache_create(2)`. -/
def cached_state : State :=
  { ready_state with cache := (cache_create ready_state.cache 2).2 }

/-- A buffer holding 1, 2, 3, ... -/
def count_buf : Buf := fun i => Fin.ofNat (i + 1)

/-- A buffer holding 9 everywhere. -/
def nines : Buf := fun _ => 9

/-- A buffer holding 7 everywhere. -/
def sevens : Buf := fun _ => 7

/-- The cache after `cache_create(2)` and `cache_insert(0, 0, nines)` from program start. -/
def one_entry_cache : CacheState :=
  (cache_insert (cache_create init_state.cache 2).2 0 0 (some nines)).2

/-- The entries of `one_entry_cache`. -/
def one_entry_entries : Nat → cache_entry_t :=
  Function.update (fun _ => zero_entry) 0
    { valid := true, disk_num := 0, block_num := 0,
      block := memcpy zero_entry.block 0 nines 0 256, num_accesses := 1 }

/-- Entries that are all valid: slot `i` holds block `i` of disk 0 with access count
`3 - i`. -/
def full_entries : Nat → cache_entry_t :=
  fun i => { valid := true, disk_num := 0, block_num := i, block := nines,
             num_accesses := 3 - i }

/-- A full cache of two entries, with access counts 3 and 2. -/
def full_cache : CacheState :=
  { cache := some full_entries, cache_size := 2, num_queries := 0, num_hits := 0 }

/-- The state `cached_state` after the caller has put 256 bytes of 7 into the cache under
the key of disk 0 block 1 with `cache_insert`, while the device block holds zeros. -/
def stale_state : State :=
  { cached_state with cache := (cache_insert cached_state.cache 0 1 (some sevens)).2 }

/-- The state after `mdadm_read(start_addr, read_len, buf)` (the state itself, should the
loop not end). -/
def state_after_read (st : State) (start_addr read_len : Nat) (buf : Buf) : State :=
  match mdadm_read st start_addr read_len (some buf) with
  | some r => r.2.1
  | none => st

/-- The state after `mdadm_write(start_addr, write_len, buf)` (the state itself, should the
loop not end). -/
def state_after_write (st : State) (start_addr write_len : Nat) (buf : Buf) : State :=
  match mdadm_write st start_addr write_len (some buf) with
  | some r => r.2
  | none => st

/-- The state `cached_state` after a one-byte read at the last address, 1,048,575, and then
`mdadm_write(4294967295, 2, nines)`. -/
def wrapped_state : State :=
  state_after_write (state_after_read cached_state 1048575 1 sevens) 4294967295 2 nines

/-! ## Vocabulary of the loop, lifecycle and counter properties -/

/-- Lines 169-176 of `mdadm_read`: the loop variables as they are set up before the `while`
loop, for a request that passed the validation. -/
def mdadm_read_init (st : State) (start_addr read_len : Nat) (buf : Buf) : ReadVars :=
  { st := st, read_buf := buf, read_bytes := read_len, current_pos := 0,
    diskId := getDiskID start_addr,
    blockId := getBlockID start_addr (getDiskID start_addr),
    offset := start_addr % 256, tempBuffer := st.malloc_block }

/-- Lines 280-287 of `mdadm_write`: the loop variables as they are set up before the `while`
loop, for a request that passed the validation. -/
def mdadm_write_init (st : State) (start_addr write_len : Nat) (buf : Buf) : WriteVars :=
  { st := st, write_buf := buf, write_len := write_len, write_buff_offset := 0,
    diskId := getDiskID start_addr,
    blockId := getBlockID start_addr (getDiskID start_addr),
    offset := start_addr % 256 % 256, tempBuffer := st.malloc_block }

/-- The number of blocks that the byte range `[start_addr, start_addr + len)` meets: none
for an empty range, else `ceil((start_addr mod 256 + len) / 256)`. -/
def spanned_blocks (start_addr len : Nat) : Nat :=
  if len = 0 then 0 else (start_addr % 256 + len + 255) / 256

/-- The statics of cache.c at program start: no cache, size 0, counters 0. -/
def init_cache : CacheState :=
  { cache := none, cache_size := 0, num_queries := 0, num_hits := 0 }

/-- The cache states that a program can reach from its start by calls of the five
functions of cache.c, with any arguments. -/
inductive CacheRun : CacheState → Prop
  | start : CacheRun init_cache
  | create (c : CacheState) (n : Int) : CacheRun c → CacheRun (cache_create c n).2
  | destroy (c : CacheState) : CacheRun c → CacheRun (cache_destroy c).2
  | insert (c : CacheState) (d b : Int) (buf : Option Buf) :
      CacheRun c → CacheRun (cache_insert c d b buf).2
  | lookup (c : CacheState) (d b : Int) (buf : Option Buf) :
      CacheRun c → CacheRun (cache_lookup c d b buf).2.1
  | update (c : CacheState) (d b : Int) (buf : Buf) :
      CacheRun c → CacheRun (cache_update c d b buf)

/-- The cache right after `cache_create(2)` at program start. -/
def fresh_cache : CacheState := (cache_create init_cache 2).2

/-- The cache after `cache_create(2)`, one `cache_lookup(0, 0, _)`, `cache_destroy()` and
`cache_create(2)` again, from program start. -/
def recreated_cache : CacheState :=
  (cache_create (cache_destroy (cache_lookup fresh_cache 0 0 (some nines)).2.1).2 2).2

/-- The cache states that a program can reach from its start by calls of the five
functions of cache.c in which no `cache_lookup` is called while `num_queries` is
2147483647 (`INT_MAX`), so that no increment of `num_queries` or `num_hits` overflows. -/
inductive CacheRunNoWrap : CacheState → Prop
  | start : CacheRunNoWrap init_cache
  | create (c : CacheState) (n : Int) : CacheRunNoWrap c → CacheRunNoWrap (cache_create c n).2
  | destroy (c : CacheState) : CacheRunNoWrap c → CacheRunNoWrap (cache_destroy c).2
  | insert (c : CacheState) (d b : Int) (buf : Option Buf) :
      CacheRunNoWrap c → CacheRunNoWrap (cache_insert c d b buf).2
  | lookup (c : CacheState) (d b : Int) (buf : Option Buf) :
      CacheRunNoWrap c → c.num_queries < 2147483647 →
      CacheRunNoWrap (cache_lookup c d b buf).2.1
  | update (c : CacheState) (d b : Int) (buf : Buf) :
      CacheRunNoWrap c → CacheRunNoWrap (cache_update c d b buf)

/-- The cache after `cache_create(2)` at program start with `num_queries` set to `n`: the
state after `n` lookups that miss, see `counted_cache_run`. -/
def counted_cache (n : Int) : CacheState := { fresh_cache with num_queries := n }

/-! ## The command word and the device -/

theorem op_creator_eq (blockID diskID cmd : Nat) :
    op_creator blockID diskID cmd 0
      = blockID % 256 + 256 * (diskID % 16) + 4096 * (cmd % 128) := by
  unfold op_creator
  have h1 : blockID &&& 0xff = blockID % 256 := Nat.and_pow_two_sub_one_eq_mod blockID 8
  have h2 : diskID &&& 0xf = diskID % 16 := Nat.and_pow_two_sub_one_eq_mod diskID 4
  have h3 : cmd &&& 0x7f = cmd % 128 := Nat.and_pow_two_sub_one_eq_mod cmd 7
  have h4 : (0 : Nat) &&& 0x3fff = 0 := by simp
  simp only [h1, h2, h3, h4, Nat.shiftLeft_eq, Nat.zero_mul, Nat.zero_mod, Nat.or_zero]
  have hb : blockID % 256 < 2 ^ 8 := Nat.mod_lt _ (by norm_num)
  have hd : diskID % 16 < 16 := Nat.mod_lt _ (by norm_num)
  have hc : cmd % 128 < 128 := Nat.mod_lt _ (by norm_num)
  have e1 : (diskID % 16 * 2 ^ 8) % 2 ^ 32 = 2 ^ 8 * (diskID % 16) := by omega
  have e2 : (cmd % 128 * 2 ^ 12) % 2 ^ 32 = 2 ^ 12 * (cmd % 128) := by omega
  rw [e1, e2]
  have k1 : blockID % 256 ||| 2 ^ 8 * (diskID % 16)
      = 2 ^ 8 * (diskID % 16) + blockID % 256 := by
    rw [Nat.or_comm, Nat.mul_add_lt_is_or hb]
  rw [k1]
  have hbd : 2 ^ 8 * (diskID % 16) + blockID % 256 < 2 ^ 12 := by omega
  rw [Nat.or_comm, ← Nat.mul_add_lt_is_or hbd]
  omega

theorem op_decode (blockID diskID cmd : Nat) (hc : cmd < 64) :
    op_creator blockID diskID cmd 0 % 256 = blockID % 256 ∧
    op_creator blockID diskID cmd 0 / 256 % 16 = diskID % 16 ∧
    op_creator blockID diskID cmd 0 / 4096 % 64 = cmd := by
  rw [op_creator_eq]; omega

theorem jbod_seek_disk (j : Jbod) (d b : Nat) (blk : Option Buf) :
    jbod_operation j (op_creator b d JBOD_SEEK_TO_DISK 0) blk
      = (0, { j with cur_disk := d % 16,
                     cur_block := j.head_after JBOD_SEEK_TO_DISK j.cur_block }, blk) := by
  obtain ⟨h1, h2, h3⟩ := op_decode b d JBOD_SEEK_TO_DISK (by decide)
  simp only [jbod_operation, h1, h2, h3, if_true]

theorem jbod_seek_block (j : Jbod) (d b : Nat) (blk : Option Buf) :
    jbod_operation j (op_creator b d JBOD_SEEK_TO_BLOCK 0) blk
      = (0, { j with cur_block := b % 256 }, blk) := by
  obtain ⟨h1, h2, h3⟩ := op_decode b d JBOD_SEEK_TO_BLOCK (by decide)
  have hne : ¬ JBOD_SEEK_TO_BLOCK = JBOD_SEEK_TO_DISK := by decide
  simp only [jbod_operation, h1, h2, h3, hne, if_true, if_false]

theorem seek_disk_block_eq (j : Jbod) (d b : Nat) :
    seek_disk_block j d b = { j with cur_disk := d % 16, cur_block := b % 256 } := by
  simp only [seek_disk_block, jbod_seek_disk, jbod_seek_block]

theorem jbod_read_block (j : Jbod) (d b : Nat) (buf : Buf)
    (hd : j.cur_disk < 16) (hb : j.cur_block < 256) :
    jbod_operation j (op_creator b d JBOD_READ_BLOCK 0) (some buf)
      = (0, { j with cur_block := j.head_after JBOD_READ_BLOCK j.cur_block },
          some (memcpy buf 0 (j.disks j.cur_disk j.cur_block) 0 256)) := by
  obtain ⟨h1, h2, h3⟩ := op_decode b d JBOD_READ_BLOCK (by decide)
  have hn1 : ¬ JBOD_READ_BLOCK = JBOD_SEEK_TO_DISK := by decide
  have hn2 : ¬ JBOD_READ_BLOCK = JBOD_SEEK_TO_BLOCK := by decide
  simp only [jbod_operation, h1, h2, h3, hn1, hn2, if_true, if_false, JBOD_NUM_DISKS,
    JBOD_NUM_BLOCKS_PER_DISK, JBOD_BLOCK_SIZE, hd, hb, and_self]

theorem jbod_write_block (j : Jbod) (d b : Nat) (buf : Buf)
    (hd : j.cur_disk < 16) (hb : j.cur_block < 256) :
    jbod_operation j (op_creator b d JBOD_WRITE_BLOCK 0) (some buf)
      = (0, { j with
                disks := fun d1 b1 =>
                  if d1 = j.cur_disk ∧ b1 = j.cur_block then memcpy (j.disks d1 b1) 0 buf 0 256
                  else j.disks d1 b1,
                cur_block := j.head_after JBOD_WRITE_BLOCK j.cur_block }, some buf) := by
  obtain ⟨h1, h2, h3⟩ := op_decode b d JBOD_WRITE_BLOCK (by decide)
  have hn1 : ¬ JBOD_WRITE_BLOCK = JBOD_SEEK_TO_DISK := by decide
  have hn2 : ¬ JBOD_WRITE_BLOCK = JBOD_SEEK_TO_BLOCK := by decide
  have hn3 : ¬ JBOD_WRITE_BLOCK = JBOD_READ_BLOCK := by decide
  simp only [jbod_operation, h1, h2, h3, hn1, hn2, hn3, if_true, if_false, JBOD_NUM_DISKS,
    JBOD_NUM_BLOCKS_PER_DISK, JBOD_BLOCK_SIZE, hd, hb, and_self]

theorem jbod_control (j : Jbod) (cmd : Nat)
    (hc : cmd = JBOD_MOUNT ∨ cmd = JBOD_UNMOUNT ∨ cmd = JBOD_WRITE_PERMISSION
      ∨ cmd = JBOD_REVOKE_WRITE_PERMISSION) :
    jbod_operation j (op_creator 0 0 cmd 0) none
      = (j.control 0, { j with control := fun n => j.control (n + 1) }, none) := by
  have hlt : cmd < 64 := by
    rcases hc with h | h | h | h <;> subst h <;> decide
  obtain ⟨h1, h2, h3⟩ := op_decode 0 0 cmd hlt
  have hn1 : ¬ cmd = JBOD_SEEK_TO_DISK := by
    rcases hc with h | h | h | h <;> subst h <;> decide
  have hn2 : ¬ cmd = JBOD_SEEK_TO_BLOCK := by
    rcases hc with h | h | h | h <;> subst h <;> decide
  have hn3 : ¬ cmd = JBOD_READ_BLOCK := by
    rcases hc with h | h | h | h <;> subst h <;> decide
  have hn4 : ¬ cmd = JBOD_WRITE_BLOCK := by
    rcases hc with h | h | h | h <;> subst h <;> decide
  simp only [jbod_operation, h1, h2, h3, hn1, hn2, hn3, hn4, if_false, hc, if_true]

/-! ## Mount state and permission -/

theorem mdadm_mount_eq (st : State) :
    mdadm_mount st =
      if st.is_mounted = 0 then
        if st.jbod.control 0 = 0 then
          (1, { st with jbod := { st.jbod with control := fun n => st.jbod.control (n + 1) },
                        is_mounted := 1 })
        else (-1, { st with jbod := { st.jbod with control := fun n => st.jbod.control (n + 1) } })
      else (-1, st) := by
  simp only [mdadm_mount, jbod_control st.jbod JBOD_MOUNT (Or.inl rfl)]

theorem mdadm_unmount_eq (st : State) :
    mdadm_unmount st =
      if st.is_mounted = 1 then
        if st.jbod.control 0 = 0 then
          (1, { st with jbod := { st.jbod with control := fun n => st.jbod.control (n + 1) },
                        is_mounted := 0 })
        else (-1, { st with jbod := { st.jbod with control := fun n => st.jbod.control (n + 1) } })
      else (-1, st) := by
  simp only [mdadm_unmount, jbod_control st.jbod JBOD_UNMOUNT (Or.inr (Or.inl rfl))]

theorem mdadm_write_permission_eq (st : State) :
    mdadm_write_permission st =
      if st.is_written = 0 then
        if st.jbod.control 0 = 0 then
          (0, { st with jbod := { st.jbod with control := fun n => st.jbod.control (n + 1) },
                        is_written := 1 })
        else (-1, { st with jbod := { st.jbod with control := fun n => st.jbod.control (n + 1) } })
      else (-1, st) := by
  simp only [mdadm_write_permission,
    jbod_control st.jbod JBOD_WRITE_PERMISSION (Or.inr (Or.inr (Or.inl rfl)))]

theorem mdadm_revoke_write_permission_eq (st : State) :
    mdadm_revoke_write_permission st =
      if st.is_written = 1 then
        if st.jbod.control 0 = 0 then
          (0, { st with jbod := { st.jbod with control := fun n => st.jbod.control (n + 1) },
                        is_written := 0 })
        else (-1, { st with jbod := { st.jbod with control := fun n => st.jbod.control (n + 1) } })
      else (-1, st) := by
  simp only [mdadm_revoke_write_permission,
    jbod_control st.jbod JBOD_REVOKE_WRITE_PERMISSION (Or.inr (Or.inr (Or.inr rfl)))]

theorem control_step_cache (st : State) (op : ControlOp) :
    (control_step st op).2.cache = st.cache := by
  cases op <;>
    simp only [control_step, mdadm_mount_eq, mdadm_unmount_eq, mdadm_write_permission_eq,
      mdadm_revoke_write_permission_eq] <;>
    split_ifs <;> rfl

theorem control_step_disks (st : State) (op : ControlOp) :
    (control_step st op).2.jbod.disks = st.jbod.disks := by
  cases op <;>
    simp only [control_step, mdadm_mount_eq, mdadm_unmount_eq, mdadm_write_permission_eq,
      mdadm_revoke_write_permission_eq] <;>
    split_ifs <;> rfl

/-- The flag `is_written` after a control sequence is 1 or 0 according to whether a grant
has succeeded since the last successful revoke. -/
theorem run_control_is_written (ops : List ControlOp) :
    ∀ (st : State) (acc : Bool), st.is_written = (if acc then 1 else 0) →
      (run_control st ops).is_written
        = (if granted_since_revoke st acc ops then 1 else 0) := by
  induction ops with
  | nil => intro st acc h; simpa [run_control, granted_since_revoke] using h
  | cons op ops ih =>
    intro st acc h
    simp only [run_control, granted_since_revoke]
    apply ih
    cases op <;> cases acc <;>
      simp only [control_step, mdadm_mount_eq, mdadm_unmount_eq, mdadm_write_permission_eq,
        mdadm_revoke_write_permission_eq] <;>
      simp at h <;>
      split_ifs <;> simp_all

theorem mdadm_write_not_permitted (st : State) (start_addr write_len : Nat)
    (write_buf : Option Buf) (hnd : ¬ (write_len = 0 ∧ write_buf = none))
    (h : st.is_mounted = 0 ∨ st.is_written = 0) :
    mdadm_write st start_addr write_len write_buf = some (-1, st) := by
  unfold mdadm_write
  have h1 : ¬ (write_len = 0 ∧ write_buf.isNone = true) := by
    intro ⟨a, b⟩; exact hnd ⟨a, Option.isNone_iff_eq_none.mp b⟩
  rw [if_neg h1, if_pos]
  rcases h with h | h
  · exact Or.inl h
  · exact Or.inr (Or.inl h)

/-- C7. Mount-state machine: each of the four control operations returns -1 and leaves the
state as it is when its flag is already in the target state; returns -1 and leaves both
flags as they are when the driver reports failure; and, when its flag is in the opposite
state and the driver reports success, succeeds, sets its own flag to the target and leaves
the other flag. Hence a mount after a successful mount fails, and an unmount from a state
that is not mounted fails. -/
theorem mount_state_machine (st : State) :
    ((st.is_mounted = 1 → mdadm_mount st = (-1, st)) ∧
     ((jbod_operation st.jbod (op_creator 0 0 JBOD_MOUNT 0) none).1 ≠ 0 →
        (mdadm_mount st).1 = -1 ∧ (mdadm_mount st).2.is_mounted = st.is_mounted ∧
        (mdadm_mount st).2.is_written = st.is_written) ∧
     (st.is_mounted = 0 → (jbod_operation st.jbod (op_creator 0 0 JBOD_MOUNT 0) none).1 = 0 →
        (mdadm_mount st).1 = 1 ∧ (mdadm_mount st).2.is_mounted = 1 ∧
        (mdadm_mount st).2.is_written = st.is_written)) ∧
    ((st.is_mounted = 0 → mdadm_unmount st = (-1, st)) ∧
     ((jbod_operation st.jbod (op_creator 0 0 JBOD_UNMOUNT 0) none).1 ≠ 0 →
        (mdadm_unmount st).1 = -1 ∧ (mdadm_unmount st).2.is_mounted = st.is_mounted ∧
        (mdadm_unmount st).2.is_written = st.is_written) ∧
     (st.is_mounted = 1 → (jbod_operation st.jbod (op_creator 0 0 JBOD_UNMOUNT 0) none).1 = 0 →
        (mdadm_unmount st).1 = 1 ∧ (mdadm_unmount st).2.is_mounted = 0 ∧
        (mdadm_unmount st).2.is_written = st.is_written)) ∧
    ((st.is_written = 1 → mdadm_write_permission st = (-1, st)) ∧
     ((jbod_operation st.jbod (op_creator 0 0 JBOD_WRITE_PERMISSION 0) none).1 ≠ 0 →
        (mdadm_write_permission st).1 = -1 ∧
        (mdadm_write_permission st).2.is_mounted = st.is_mounted ∧
        (mdadm_write_permission st).2.is_written = st.is_written) ∧
     (st.is_written = 0 →
        (jbod_operation st.jbod (op_creator 0 0 JBOD_WRITE_PERMISSION 0) none).1 = 0 →
        (mdadm_write_permission st).1 = 0 ∧ (mdadm_write_permission st).2.is_written = 1 ∧
        (mdadm_write_permission st).2.is_mounted = st.is_mounted)) ∧
    ((st.is_written = 0 → mdadm_revoke_write_permission st = (-1, st)) ∧
     ((jbod_operation st.jbod (op_creator 0 0 JBOD_REVOKE_WRITE_PERMISSION 0) none).1 ≠ 0 →
        (mdadm_revoke_write_permission st).1 = -1 ∧
        (mdadm_revoke_write_permission st).2.is_mounted = st.is_mounted ∧
        (mdadm_revoke_write_permission st).2.is_written = st.is_written) ∧
     (st.is_written = 1 →
        (jbod_operation st.jbod (op_creator 0 0 JBOD_REVOKE_WRITE_PERMISSION 0) none).1 = 0 →
        (mdadm_revoke_write_permission st).1 = 0 ∧
        (mdadm_revoke_write_permission st).2.is_written = 0 ∧
        (mdadm_revoke_write_permission st).2.is_mounted = st.is_mounted)) ∧
    ((mdadm_mount st).1 = 1 → (mdadm_mount (mdadm_mount st).2).1 = -1) ∧
    (st.is_mounted = 0 → (mdadm_unmount st).1 = -1) := by
  simp only [jbod_control st.jbod JBOD_MOUNT (Or.inl rfl),
    jbod_control st.jbod JBOD_UNMOUNT (Or.inr (Or.inl rfl)),
    jbod_control st.jbod JBOD_WRITE_PERMISSION (Or.inr (Or.inr (Or.inl rfl))),
    jbod_control st.jbod JBOD_REVOKE_WRITE_PERMISSION (Or.inr (Or.inr (Or.inr rfl)))]
  refine ⟨⟨?_, ?_, ?_⟩, ⟨?_, ?_, ?_⟩, ⟨?_, ?_, ?_⟩, ⟨?_, ?_, ?_⟩, ?_, ?_⟩
  · intro h; simp [mdadm_mount_eq, h]
  · intro h; rw [mdadm_mount_eq]; split_ifs <;> simp_all
  · intro h h2; simp [mdadm_mount_eq, h, h2]
  · intro h; simp [mdadm_unmount_eq, h]
  · intro h; rw [mdadm_unmount_eq]; split_ifs <;> simp_all
  · intro h h2; simp [mdadm_unmount_eq, h, h2]
  · intro h; simp [mdadm_write_permission_eq, h]
  · intro h; rw [mdadm_write_permission_eq]; split_ifs <;> simp_all
  · intro h h2; simp [mdadm_write_permission_eq, h, h2]
  · intro h; simp [mdadm_revoke_write_permission_eq, h]
  · intro h; rw [mdadm_revoke_write_permission_eq]; split_ifs <;> simp_all
  · intro h h2; simp [mdadm_revoke_write_permission_eq, h, h2]
  · intro h
    rw [mdadm_mount_eq] at h
    split_ifs at h with h1 h2
    · rw [mdadm_mount_eq st, if_pos h1, if_pos h2, mdadm_mount_eq]
      simp
    · simp at h
    · simp at h
  · intro h; simp [mdadm_unmount_eq, h]

/-- C7, at the initial state with a driver that accepts: the mount succeeds and sets only
`is_mounted`, a second mount fails, and an unmount of the initial state fails. -/
theorem mount_state_machine_witness :
    ((mdadm_mount init_state).1 = 1 ∧ (mdadm_mount init_state).2.is_mounted = 1 ∧
      (mdadm_mount init_state).2.is_written = init_state.is_written) ∧
    (mdadm_mount (mdadm_mount init_state).2).1 = -1 ∧
    (mdadm_unmount init_state).1 = -1 :=
  ⟨(mount_state_machine init_state).1.2.2 (by decide) (by decide),
   (mount_state_machine init_state).2.2.2.2.1 (by decide),
   (mount_state_machine init_state).2.2.2.2.2 (by decide)⟩

/-- C6 as stated fails: after mount, grant, unmount, mount (all accepted by the driver) no
grant has succeeded since the most recent successful mount, the array is mounted, and a
one-byte write at address 0 is accepted and returns 1. -/
theorem permission_gating_counterexample :
    granted_since_mount init_state false [.mount, .grant, .unmount, .mount] = false ∧
    (run_control init_state [.mount, .grant, .unmount, .mount]).is_mounted = 1 ∧
    (mdadm_write (run_control init_state [.mount, .grant, .unmount, .mount]) 0 1
      (some nines)).map (fun r => r.1) = some 1 := by
  decide

/-- C6 (amended). Permission gating: for every sequence of control operations run from a
state without write permission (such as the initial state) and every non-degenerate write
request, `mdadm_write` fails, leaving the state as it is, whenever no grant has succeeded
since the most recent successful revoke (or at all, if none was revoked), whether or not the
array is mounted. -/
theorem permission_gating (st : State) (ops : List ControlOp) (start_addr write_len : Nat)
    (write_buf : Option Buf) (h0 : st.is_written = 0)
    (hnd : ¬ (write_len = 0 ∧ write_buf = none))
    (hg : granted_since_revoke st false ops = false) :
    mdadm_write (run_control st ops) start_addr write_len write_buf
      = some (-1, run_control st ops) := by
  apply mdadm_write_not_permitted _ _ _ _ hnd
  right
  rw [run_control_is_written ops st false (by simpa using h0), hg]
  rfl

/-- C6 (amended), at the initial state: after mount, grant, revoke the array is mounted and
a one-byte write fails. -/
theorem permission_gating_witness :
    (run_control init_state [.mount, .grant, .revoke]).is_mounted = 1 ∧
    mdadm_write (run_control init_state [.mount, .grant, .revoke]) 0 1 (some nines)
      = some (-1, run_control init_state [.mount, .grant, .revoke]) :=
  ⟨by decide,
   permission_gating init_state [.mount, .grant, .revoke] 0 1 (some nines) (by decide)
     (by simp) (by decide)⟩

/-- C8. Degenerate request: with length 0 and an absent buffer, `mdadm_read` and
`mdadm_write` return 0 and leave the whole state (mount flags, cache entries and counters,
device) as it is, for every start address and every state. -/
theorem degenerate_request (st : State) (start_addr : Nat) :
    mdadm_read st start_addr 0 none = some (0, st, none) ∧
    mdadm_write st start_addr 0 none = some (0, st) := by
  simp [mdadm_read, mdadm_write]

/-- C5, at the failing input: mounted with write permission, `mdadm_write(4294967295, 2,
buf)` has `start_addr + write_len` above 1,048,576, yet it is accepted, returns 2 and
writes the device bytes at linear addresses 1,048,575 and 0. -/
theorem write_accepts_wrapped_range :
    ready_state.is_mounted = 1 ∧ ready_state.is_written = 1 ∧
    4294967295 + 2 > 1048576 ∧
    dev_byte ready_state.jbod.disks 1048575 = 0 ∧ dev_byte ready_state.jbod.disks 0 = 0 ∧
    (mdadm_write ready_state 4294967295 2 (some nines)).map
      (fun r => (r.1, dev_byte r.2.jbod.disks 1048575, dev_byte r.2.jbod.disks 0))
      = some (2, 9, 9) := by
  decide

/-! ## Termination of the block loops -/

theorem sub32_eq (a b : Nat) (hb : b ≤ a) (ha : a < 2 ^ 32) : sub32 a b = a - b := by
  unfold sub32; omega

theorem mdadm_read_step_read_bytes (v : ReadVars) :
    (mdadm_read_step v).read_bytes =
      if v.offset = 0 then
        if v.read_bytes < 256 then 0 else sub32 v.read_bytes 256
      else
        if v.read_bytes < sub32 256 v.offset then 0
        else sub32 v.read_bytes (sub32 256 v.offset) := by
  simp only [mdadm_read_step, JBOD_BLOCK_SIZE]
  split_ifs <;> rfl

theorem mdadm_read_loop_zero (fuel : Nat) (v : ReadVars) (h : v.read_bytes = 0) :
    mdadm_read_loop fuel v = some v := by
  cases fuel <;> simp [mdadm_read_loop, h]

theorem mdadm_read_loop_succ (fuel : Nat) (v : ReadVars) (h : v.read_bytes ≠ 0) :
    mdadm_read_loop (fuel + 1) v = mdadm_read_loop fuel (mdadm_read_step v) := by
  simp [mdadm_read_loop, h]

/-- The read loop ends within `read_bytes` iterations when `offset` is a byte index. -/
theorem mdadm_read_loop_terminates (fuel : Nat) :
    ∀ v : ReadVars, v.offset < 256 → v.read_bytes ≤ fuel → v.read_bytes < 2 ^ 32 →
      ∃ w, mdadm_read_loop fuel v = some w := by
  induction fuel with
  | zero =>
    intro v _ h _
    exact ⟨v, mdadm_read_loop_zero 0 v (by omega)⟩
  | succ n ih =>
    intro v ho hf hb
    by_cases hz : v.read_bytes = 0
    · exact ⟨v, mdadm_read_loop_zero _ v hz⟩
    · rw [mdadm_read_loop_succ n v hz]
      have hrb := mdadm_read_step_read_bytes v
      apply ih
      · show (0 : Nat) < 256
        norm_num
      · rw [hrb]; unfold sub32; split_ifs <;> omega
      · rw [hrb]; unfold sub32; split_ifs <;> omega

theorem mdadm_write_step_write_len (v : WriteVars) :
    (mdadm_write_step v).write_len =
      if v.offset = 0 then
        if v.write_len ≥ 256 then sub32 v.write_len 256 else 0
      else
        if v.write_len ≥ 256 - v.offset then (sub32 v.write_len 256 + v.offset) % 2 ^ 32
        else 0 := by
  simp only [mdadm_write_step]
  split_ifs <;> rfl

theorem mdadm_write_loop_zero (fuel : Nat) (v : WriteVars) (h : v.write_len = 0) :
    mdadm_write_loop fuel v = some v := by
  cases fuel <;> simp [mdadm_write_loop, h]

theorem mdadm_write_loop_succ (fuel : Nat) (v : WriteVars) (h : v.write_len ≠ 0) :
    mdadm_write_loop (fuel + 1) v = mdadm_write_loop fuel (mdadm_write_step v) := by
  simp [mdadm_write_loop, h]

/-- The write loop ends within `write_len` iterations when `offset` is a byte index. -/
theorem mdadm_write_loop_terminates (fuel : Nat) :
    ∀ v : WriteVars, v.offset < 256 → v.write_len ≤ fuel → v.write_len < 2 ^ 32 →
      ∃ w, mdadm_write_loop fuel v = some w := by
  induction fuel with
  | zero =>
    intro v _ h _
    exact ⟨v, mdadm_write_loop_zero 0 v (by omega)⟩
  | succ n ih =>
    intro v ho hf hb
    by_cases hz : v.write_len = 0
    · exact ⟨v, mdadm_write_loop_zero _ v hz⟩
    · rw [mdadm_write_loop_succ n v hz]
      have hrb := mdadm_write_step_write_len v
      apply ih
      · show (0 : Nat) < 256
        norm_num
      · rw [hrb]; unfold sub32; split_ifs <;> omega
      · rw [hrb]; unfold sub32; split_ifs <;> omega

/-- C4. Read validation is exact: for 32-bit `start_addr` and `read_len` and any buffer,
other than the degenerate request (length 0, buffer absent), `mdadm_read` returns -1 with
the state and the buffer untouched if the array is not mounted, or `start_addr` > 1,048,576,
or `read_len` > 2048, or `start_addr + read_len` (as natural numbers) > 1,048,576, or the
buffer is absent; in every other case it returns `read_len`. -/
theorem read_validation_exact (st : State) (start_addr read_len : Nat)
    (read_buf : Option Buf) (hs : start_addr < 2 ^ 32) (hl : read_len < 2 ^ 32)
    (hnd : ¬ (read_len = 0 ∧ read_buf = none)) :
    ((st.is_mounted = 0 ∨ start_addr > 1048576 ∨ read_len > 2048
        ∨ start_addr + read_len > 1048576 ∨ read_buf = none) →
      mdadm_read st start_addr read_len read_buf = some (-1, st, read_buf)) ∧
    (¬ (st.is_mounted = 0 ∨ start_addr > 1048576 ∨ read_len > 2048
        ∨ start_addr + read_len > 1048576 ∨ read_buf = none) →
      ∃ st1 out, mdadm_read st start_addr read_len read_buf
        = some ((read_len : Int), st1, some out)) := by
  have h1 : ¬ (read_len = 0 ∧ read_buf.isNone = true) := by
    intro ⟨a, b⟩; exact hnd ⟨a, Option.isNone_iff_eq_none.mp b⟩
  constructor
  · intro h
    unfold mdadm_read
    rw [if_neg h1, if_pos]
    rcases h with h | h | h | h | h
    · exact Or.inl h
    · exact Or.inr (Or.inl h)
    · exact Or.inr (Or.inr (Or.inl h))
    · by_cases h2 : start_addr > 1048576
      · exact Or.inr (Or.inl h2)
      · by_cases h3 : read_len > 2048
        · exact Or.inr (Or.inr (Or.inl h3))
        · refine Or.inr (Or.inr (Or.inr (Or.inl ?_)))
          omega
    · exact Or.inr (Or.inr (Or.inr (Or.inr (Option.isNone_iff_eq_none.mpr h))))
  · intro h
    push_neg at h
    obtain ⟨hm, ha, hlen, hsum, hbuf⟩ := h
    obtain ⟨buf, rfl⟩ := Option.ne_none_iff_exists'.mp hbuf
    unfold mdadm_read
    rw [if_neg h1, if_neg]
    · obtain ⟨w, hw⟩ := mdadm_read_loop_terminates read_len
        { st := st, read_buf := buf, read_bytes := read_len, current_pos := 0,
          diskId := getDiskID start_addr,
          blockId := getBlockID start_addr (getDiskID start_addr),
          offset := start_addr % 256, tempBuffer := st.malloc_block }
        (Nat.mod_lt _ (by norm_num)) (le_refl _) hl
      simp only [hw]
      exact ⟨w.st, w.read_buf, rfl⟩
    · simp only [Option.isNone_some, not_or]
      refine ⟨hm, by omega, by omega, by omega, by simp⟩

/-- C4, at a mounted state: a 4-byte read at address 1,048,574 is rejected, state and buffer
untouched, and a 2-byte read there returns 2. -/
theorem read_validation_exact_witness :
    mdadm_read ready_state 1048574 4 (some nines) = some (-1, ready_state, some nines) ∧
    ∃ st1 out, mdadm_read ready_state 1048574 2 (some nines) = some (((2 : Nat) : Int), st1, some out) :=
  ⟨(read_validation_exact ready_state 1048574 4 (some nines) (by norm_num) (by norm_num)
      (by simp)).1 (by simp),
   (read_validation_exact ready_state 1048574 2 (some nines) (by norm_num) (by norm_num)
      (by simp)).2 (by
        have : ready_state.is_mounted ≠ 0 := by decide
        simp [this])⟩

/-! ## The scans of cache.c -/

/-- A hit of the lookup scan is at a valid entry with the key, and every entry scanned
before it is valid with another key. -/
theorem cache_lookup_scan_some (e : Nat → cache_entry_t) (d b : Int) :
    ∀ n i k, cache_lookup_scan e d b n i = some k →
      i ≤ k ∧ k < i + n ∧ (e k).valid = true ∧ (e k).disk_num = d ∧ (e k).block_num = b ∧
      ∀ j, i ≤ j → j < k →
        (e j).valid = true ∧ ¬ ((e j).disk_num = d ∧ (e j).block_num = b) := by
  intro n
  induction n with
  | zero => intro i k h; simp [cache_lookup_scan] at h
  | succ n ih =>
    intro i k h
    simp only [cache_lookup_scan] at h
    split_ifs at h with h1 h2
    · simp only [Option.some.injEq] at h
      subst h
      simp only [Bool.not_eq_true', Bool.not_eq_false] at h1
      exact ⟨le_refl _, by omega, h1, h2.1, h2.2, fun j hj1 hj2 => by omega⟩
    · obtain ⟨a1, a2, a3, a4, a5, a6⟩ := ih (i + 1) k h
      simp only [Bool.not_eq_true', Bool.not_eq_false] at h1
      refine ⟨by omega, by omega, a3, a4, a5, ?_⟩
      intro j hj1 hj2
      by_cases hji : j = i
      · subst hji; exact ⟨h1, h2⟩
      · exact a6 j (by omega) hj2

/-- A miss of the lookup scan: the entries scanned are valid with another key, up to the
first invalid entry or the end. -/
theorem cache_lookup_scan_none (e : Nat → cache_entry_t) (d b : Int) :
    ∀ n i, cache_lookup_scan e d b n i = none →
      ∃ m, i ≤ m ∧ m ≤ i + n ∧
        (∀ j, i ≤ j → j < m →
          (e j).valid = true ∧ ¬ ((e j).disk_num = d ∧ (e j).block_num = b)) ∧
        (m < i + n → (e m).valid = false) := by
  intro n
  induction n with
  | zero =>
    intro i _
    exact ⟨i, le_refl _, le_refl _, fun j h1 h2 => by omega, fun h => by omega⟩
  | succ n ih =>
    intro i h
    simp only [cache_lookup_scan] at h
    split_ifs at h with h1 h2
    · simp only [Bool.not_eq_true', Bool.not_eq_true] at h1
      exact ⟨i, le_refl _, by omega, fun j h1 h2 => by omega, fun _ => by simpa using h1⟩
    · obtain ⟨m, a1, a2, a3, a4⟩ := ih (i + 1) h
      simp only [Bool.not_eq_true', Bool.not_eq_false] at h1
      refine ⟨m, by omega, by omega, ?_, fun hm => a4 (by omega)⟩
      intro j hj1 hj2
      by_cases hji : j = i
      · subst hji; exact ⟨h1, h2⟩
      · exact a3 j (by omega) hj2

/-- The update scan stops at the first entry with the key, valid or not. -/
theorem cache_update_scan_some (e : Nat → cache_entry_t) (d b : Int) :
    ∀ n i k, cache_update_scan e d b n i = some k →
      i ≤ k ∧ k < i + n ∧ (e k).disk_num = d ∧ (e k).block_num = b ∧
      ∀ j, i ≤ j → j < k → ¬ ((e j).disk_num = d ∧ (e j).block_num = b) := by
  intro n
  induction n with
  | zero => intro i k h; simp [cache_update_scan] at h
  | succ n ih =>
    intro i k h
    simp only [cache_update_scan] at h
    split_ifs at h with h2
    · simp only [Option.some.injEq] at h
      subst h
      exact ⟨le_refl _, by omega, h2.1, h2.2, fun j hj1 hj2 => by omega⟩
    · obtain ⟨a1, a2, a4, a5, a6⟩ := ih (i + 1) k h
      refine ⟨by omega, by omega, a4, a5, ?_⟩
      intro j hj1 hj2
      by_cases hji : j = i
      · subst hji; exact h2
      · exact a6 j (by omega) hj2

theorem cache_update_scan_none (e : Nat → cache_entry_t) (d b : Int) :
    ∀ n i, cache_update_scan e d b n i = none →
      ∀ j, i ≤ j → j < i + n → ¬ ((e j).disk_num = d ∧ (e j).block_num = b) := by
  intro n
  induction n with
  | zero => intro i _ j h1 h2; omega
  | succ n ih =>
    intro i h
    simp only [cache_update_scan] at h
    split_ifs at h with h2
    intro j hj1 hj2
    by_cases hji : j = i
    · subst hji; exact h2
    · exact ih (i + 1) h j (by omega) (by omega)

/-- If the entries before `k` do not have the key and entry `k` has it, the update scan
stops at `k`. -/
theorem cache_update_scan_first (e : Nat → cache_entry_t) (d b : Int) (k : Nat)
    (hk : (e k).disk_num = d ∧ (e k).block_num = b) :
    ∀ n i, i ≤ k → k < i + n →
      (∀ j, i ≤ j → j < k → ¬ ((e j).disk_num = d ∧ (e j).block_num = b)) →
      cache_update_scan e d b n i = some k := by
  intro n
  induction n with
  | zero => intro i h1 h2; omega
  | succ n ih =>
    intro i h1 h2 h3
    simp only [cache_update_scan]
    by_cases hik : i = k
    · subst hik; rw [if_pos hk]
    · rw [if_neg (h3 i (le_refl _) (by omega))]
      exact ih (i + 1) (by omega) (by omega) (fun j hj1 hj2 => h3 j (by omega) hj2)

/-- What the insert scan returns, started at index `i` with `n` iterations left and the
running `index`, `least`. On a duplicate (`none`) a valid entry with the key is found after
valid entries with other keys. Otherwise the result is the first invalid entry, found after
valid entries with other keys; or all scanned entries are valid with other keys and the
result is either the incoming `index` (no scanned count is below `least`) or the first
scanned entry whose count is below `least` and minimal among the scanned ones. -/
theorem cache_insert_scan_spec (e : Nat → cache_entry_t) (d b : Int) :
    ∀ n i index least,
      (cache_insert_scan e d b n i index least = none →
        ∃ k, i ≤ k ∧ k < i + n ∧ (e k).valid = true ∧ (e k).disk_num = d ∧
          (e k).block_num = b ∧
          ∀ j, i ≤ j → j < k →
            (e j).valid = true ∧ ¬ ((e j).disk_num = d ∧ (e j).block_num = b)) ∧
      (∀ k, cache_insert_scan e d b n i index least = some k →
        (i ≤ k ∧ k < i + n ∧ (e k).valid = false ∧
          ∀ j, i ≤ j → j < k →
            (e j).valid = true ∧ ¬ ((e j).disk_num = d ∧ (e j).block_num = b)) ∨
        ((∀ j, i ≤ j → j < i + n →
            (e j).valid = true ∧ ¬ ((e j).disk_num = d ∧ (e j).block_num = b)) ∧
          ((k = index ∧ ∀ j, i ≤ j → j < i + n → least ≤ (e j).num_accesses) ∨
           (i ≤ k ∧ k < i + n ∧ (e k).num_accesses < least ∧
             (∀ j, i ≤ j → j < k → (e k).num_accesses < (e j).num_accesses) ∧
             ∀ j, i ≤ j → j < i + n → (e k).num_accesses ≤ (e j).num_accesses)))) := by
  intro n
  induction n with
  | zero =>
    intro i index least
    refine ⟨fun h => by simp [cache_insert_scan] at h, fun k h => ?_⟩
    simp only [cache_insert_scan, Option.some.injEq] at h
    exact Or.inr ⟨fun j h1 h2 => by omega, Or.inl ⟨h.symm, fun j h1 h2 => by omega⟩⟩
  | succ n ih =>
    intro i index least
    simp only [cache_insert_scan]
    by_cases h1 : (e i).valid = true ∧ (e i).disk_num = d ∧ (e i).block_num = b
    · rw [if_pos h1]
      refine ⟨fun _ => ⟨i, le_refl _, by omega, h1.1, h1.2.1, h1.2.2,
        fun j hj1 hj2 => by omega⟩, fun k h => by simp at h⟩
    · rw [if_neg h1]
      by_cases h2 : (e i).valid = false
      · rw [if_pos h2]
        refine ⟨fun h => by simp at h, fun k h => ?_⟩
        simp only [Option.some.injEq] at h
        subst h
        exact Or.inl ⟨le_refl _, by omega, h2, fun j hj1 hj2 => by omega⟩
      · rw [if_neg h2]
        have hv : (e i).valid = true := by simpa using h2
        have hnm : ¬ ((e i).disk_num = d ∧ (e i).block_num = b) := fun h => h1 ⟨hv, h⟩
        by_cases h3 : (e i).num_accesses < least
        · rw [if_pos h3]
          obtain ⟨ihn, ihs⟩ := ih (i + 1) i (e i).num_accesses
          constructor
          · intro h
            obtain ⟨k, a1, a2, a3, a4, a5, a6⟩ := ihn h
            refine ⟨k, by omega, by omega, a3, a4, a5, ?_⟩
            intro j hj1 hj2
            by_cases hji : j = i
            · subst hji; exact ⟨hv, hnm⟩
            · exact a6 j (by omega) hj2
          · intro k h
            rcases ihs k h with ⟨a1, a2, a3, a4⟩ | ⟨a1, a2⟩
            · left
              refine ⟨by omega, by omega, a3, ?_⟩
              intro j hj1 hj2
              by_cases hji : j = i
              · subst hji; exact ⟨hv, hnm⟩
              · exact a4 j (by omega) hj2
            · right
              constructor
              · intro j hj1 hj2
                by_cases hji : j = i
                · subst hji; exact ⟨hv, hnm⟩
                · exact a1 j (by omega) (by omega)
              · right
                rcases a2 with ⟨b1, b2⟩ | ⟨b1, b2, b3, b4, b5⟩
                · subst b1
                  refine ⟨le_refl _, by omega, h3, fun j hj1 hj2 => by omega, ?_⟩
                  intro j hj1 hj2
                  by_cases hji : j = k
                  · subst hji; exact le_refl _
                  · exact b2 j (by omega) (by omega)
                · refine ⟨by omega, by omega, by omega, ?_, ?_⟩
                  · intro j hj1 hj2
                    by_cases hji : j = i
                    · subst hji; exact b3
                    · exact b4 j (by omega) hj2
                  · intro j hj1 hj2
                    by_cases hji : j = i
                    · subst hji; omega
                    · exact b5 j (by omega) (by omega)
        · rw [if_neg h3]
          obtain ⟨ihn, ihs⟩ := ih (i + 1) index least
          constructor
          · intro h
            obtain ⟨k, a1, a2, a3, a4, a5, a6⟩ := ihn h
            refine ⟨k, by omega, by omega, a3, a4, a5, ?_⟩
            intro j hj1 hj2
            by_cases hji : j = i
            · subst hji; exact ⟨hv, hnm⟩
            · exact a6 j (by omega) hj2
          · intro k h
            rcases ihs k h with ⟨a1, a2, a3, a4⟩ | ⟨a1, a2⟩
            · left
              refine ⟨by omega, by omega, a3, ?_⟩
              intro j hj1 hj2
              by_cases hji : j = i
              · subst hji; exact ⟨hv, hnm⟩
              · exact a4 j (by omega) hj2
            · right
              constructor
              · intro j hj1 hj2
                by_cases hji : j = i
                · subst hji; exact ⟨hv, hnm⟩
                · exact a1 j (by omega) (by omega)
              · rcases a2 with ⟨b1, b2⟩ | ⟨b1, b2, b3, b4, b5⟩
                · left
                  refine ⟨b1, ?_⟩
                  intro j hj1 hj2
                  by_cases hji : j = i
                  · subst hji; omega
                  · exact b2 j (by omega) (by omega)
                · right
                  refine ⟨by omega, by omega, b3, ?_, ?_⟩
                  · intro j hj1 hj2
                    by_cases hji : j = i
                    · subst hji; omega
                    · exact b4 j (by omega) hj2
                  · intro j hj1 hj2
                    by_cases hji : j = i
                    · subst hji; omega
                    · exact b5 j (by omega) (by omega)

/-! ## The cache functions in closed form -/

theorem cache_enabled_iff (c : CacheState) :
    cache_enabled c = true ↔ (∃ e, c.cache = some e) ∧ 0 < c.cache_size := by
  unfold cache_enabled
  cases h : c.cache <;> simp

theorem cache_lookup_fail (c : CacheState) (d b : Int) (buf : Option Buf)
    (h : cache_enabled c = false ∨ d > 16 ∨ d < 0 ∨ b > 256 ∨ b < 0 ∨ buf = none) :
    cache_lookup c d b buf = (-1, c, buf) := by
  unfold cache_lookup
  cases hc : c.cache with
  | none => rfl
  | some e =>
    cases buf with
    | none => rfl
    | some bb =>
      simp only [JBOD_NUM_DISKS, JBOD_NUM_BLOCKS_PER_DISK, Nat.cast_ofNat]
      rw [if_pos]
      rcases h with h | h | h | h | h | h
      · left; simp [h]
      · exact Or.inr (Or.inl h)
      · exact Or.inr (Or.inr (Or.inl h))
      · exact Or.inr (Or.inr (Or.inr (Or.inl h)))
      · exact Or.inr (Or.inr (Or.inr (Or.inr h)))
      · simp at h

theorem cache_lookup_eq (c : CacheState) (e : Nat → cache_entry_t) (d b : Int) (buf : Buf)
    (hc : c.cache = some e) (hs : 0 < c.cache_size)
    (hd0 : 0 ≤ d) (hd1 : d ≤ 16) (hb0 : 0 ≤ b) (hb1 : b ≤ 256) :
    cache_lookup c d b (some buf) =
      match cache_lookup_scan e d b c.cache_size.toNat 0 with
      | none => (-1, { c with num_queries := wrap_int (c.num_queries + 1) }, some buf)
      | some i =>
        (1, { c with
                num_queries := wrap_int (c.num_queries + 1),
                num_hits := wrap_int (c.num_hits + 1),
                cache := some (Function.update e i
                  { e i with num_accesses := wrap_int ((e i).num_accesses + 1) }) },
          some (memcpy buf 0 (e i).block 0 256)) := by
  have hen : cache_enabled c = true := (cache_enabled_iff c).mpr ⟨⟨e, hc⟩, hs⟩
  unfold cache_lookup
  rw [hc]
  simp only [JBOD_NUM_DISKS, JBOD_NUM_BLOCKS_PER_DISK, JBOD_BLOCK_SIZE, Nat.cast_ofNat, hen]
  rw [if_neg]
  simp only [Bool.not_true, Bool.false_eq_true, false_or, not_or, not_lt]
  exact ⟨hd1, hd0, hb1, hb0⟩

theorem cache_insert_fail (c : CacheState) (d b : Int) (buf : Option Buf)
    (h : cache_enabled c = false ∨ d > 16 ∨ d < 0 ∨ b > 256 ∨ b < 0 ∨ buf = none) :
    cache_insert c d b buf = (-1, c) := by
  unfold cache_insert
  cases hc : c.cache with
  | none => rfl
  | some e =>
    cases buf with
    | none => rfl
    | some bb =>
      simp only [JBOD_NUM_DISKS, JBOD_NUM_BLOCKS_PER_DISK, Nat.cast_ofNat]
      rw [if_pos]
      rcases h with h | h | h | h | h | h
      · left; simp [h]
      · exact Or.inr (Or.inl h)
      · exact Or.inr (Or.inr (Or.inl h))
      · exact Or.inr (Or.inr (Or.inr (Or.inl h)))
      · exact Or.inr (Or.inr (Or.inr (Or.inr h)))
      · simp at h

theorem cache_insert_eq (c : CacheState) (e : Nat → cache_entry_t) (d b : Int) (buf : Buf)
    (hc : c.cache = some e) (hs : 0 < c.cache_size)
    (hd0 : 0 ≤ d) (hd1 : d ≤ 16) (hb0 : 0 ≤ b) (hb1 : b ≤ 256) :
    cache_insert c d b (some buf) =
      match cache_insert_scan e d b c.cache_size.toNat 0 0 (e 0).num_accesses with
      | none => (-1, c)
      | some index =>
        (1, { c with cache := some (Function.update e index
                { valid := true, disk_num := d, block_num := b,
                  block := memcpy (e index).block 0 buf 0 256,
                  num_accesses := 1 }) }) := by
  have hen : cache_enabled c = true := (cache_enabled_iff c).mpr ⟨⟨e, hc⟩, hs⟩
  unfold cache_insert
  rw [hc]
  simp only [JBOD_NUM_DISKS, JBOD_NUM_BLOCKS_PER_DISK, JBOD_BLOCK_SIZE, Nat.cast_ofNat, hen]
  rw [if_neg]
  simp only [Bool.not_true, Bool.false_eq_true, false_or, not_or, not_lt]
  exact ⟨hd1, hd0, hb1, hb0⟩

/-- Either `cache_insert` changes nothing, or it overwrites one slot `k` with the new valid
entry; then the entries before `k` are valid with other keys, and slot `k` was invalid or
all entries were valid with other keys. -/
theorem cache_insert_cases (c : CacheState) (d b : Int) (buf : Option Buf) :
    cache_insert c d b buf = (-1, c) ∨
    ∃ e bb k, c.cache = some e ∧ buf = some bb ∧ k < c.cache_size.toNat ∧
      cache_insert c d b buf =
        (1, { c with cache := some (Function.update e k
                { valid := true, disk_num := d, block_num := b,
                  block := memcpy (e k).block 0 bb 0 256, num_accesses := 1 }) }) ∧
      (∀ j, j < k → (e j).valid = true ∧ ¬ ((e j).disk_num = d ∧ (e j).block_num = b)) ∧
      ((e k).valid = false ∨
        ∀ j, j < c.cache_size.toNat →
          (e j).valid = true ∧ ¬ ((e j).disk_num = d ∧ (e j).block_num = b)) := by
  by_cases h : cache_enabled c = false ∨ d > 16 ∨ d < 0 ∨ b > 256 ∨ b < 0 ∨ buf = none
  · exact Or.inl (cache_insert_fail c d b buf h)
  · simp only [not_or, not_lt, Bool.not_eq_false, gt_iff_lt] at h
    obtain ⟨hen, hd1, hd0, hb1, hb0, hbuf⟩ := h
    obtain ⟨⟨e, hc⟩, hs⟩ := (cache_enabled_iff c).mp hen
    obtain ⟨bb, rfl⟩ := Option.ne_none_iff_exists'.mp hbuf
    rw [cache_insert_eq c e d b bb hc hs hd0 hd1 hb0 hb1]
    obtain ⟨hn, hsome⟩ := cache_insert_scan_spec e d b c.cache_size.toNat 0 0 (e 0).num_accesses
    cases hscan : cache_insert_scan e d b c.cache_size.toNat 0 0 (e 0).num_accesses with
    | none => exact Or.inl rfl
    | some k =>
      right
      refine ⟨e, bb, k, hc, rfl, ?_, rfl, ?_, ?_⟩
      · rcases hsome k hscan with ⟨a1, a2, a3, a4⟩ | ⟨a1, a2⟩
        · omega
        · rcases a2 with ⟨b1, b2⟩ | ⟨b1, b2, _⟩
          · omega
          · omega
      · rcases hsome k hscan with ⟨a1, a2, a3, a4⟩ | ⟨a1, a2⟩
        · exact fun j hj => a4 j (Nat.zero_le _) hj
        · intro j hj
          have hk : k < c.cache_size.toNat := by
            rcases a2 with ⟨b1, b2⟩ | ⟨b1, b2, _⟩ <;> omega
          exact a1 j (Nat.zero_le _) (by omega)
      · rcases hsome k hscan with ⟨a1, a2, a3, a4⟩ | ⟨a1, a2⟩
        · exact Or.inl a3
        · exact Or.inr (fun j hj => a1 j (Nat.zero_le _) (by omega))

/-- Either `cache_lookup` misses and changes at most `num_queries`, or it hits slot `k`:
a valid entry with the key, after valid entries with other keys. -/
theorem cache_lookup_cases (c : CacheState) (d b : Int) (buf : Option Buf) :
    ((cache_lookup c d b buf).1 = -1 ∧ (cache_lookup c d b buf).2.2 = buf ∧
      (cache_lookup c d b buf).2.1.cache = c.cache ∧
      (cache_lookup c d b buf).2.1.cache_size = c.cache_size) ∨
    ∃ e bb k, c.cache = some e ∧ buf = some bb ∧ k < c.cache_size.toNat ∧
      (e k).valid = true ∧ (e k).disk_num = d ∧ (e k).block_num = b ∧
      (∀ j, j < k → (e j).valid = true ∧ ¬ ((e j).disk_num = d ∧ (e j).block_num = b)) ∧
      cache_lookup c d b buf =
        (1, { c with
                num_queries := wrap_int (c.num_queries + 1),
                num_hits := wrap_int (c.num_hits + 1),
                cache := some (Function.update e k
                  { e k with num_accesses := wrap_int ((e k).num_accesses + 1) }) },
          some (memcpy bb 0 (e k).block 0 256)) := by
  by_cases h : cache_enabled c = false ∨ d > 16 ∨ d < 0 ∨ b > 256 ∨ b < 0 ∨ buf = none
  · left; rw [cache_lookup_fail c d b buf h]; exact ⟨rfl, rfl, rfl, rfl⟩
  · simp only [not_or, not_lt, Bool.not_eq_false, gt_iff_lt] at h
    obtain ⟨hen, hd1, hd0, hb1, hb0, hbuf⟩ := h
    obtain ⟨⟨e, hc⟩, hs⟩ := (cache_enabled_iff c).mp hen
    obtain ⟨bb, rfl⟩ := Option.ne_none_iff_exists'.mp hbuf
    rw [cache_lookup_eq c e d b bb hc hs hd0 hd1 hb0 hb1]
    cases hscan : cache_lookup_scan e d b c.cache_size.toNat 0 with
    | none => left; exact ⟨rfl, rfl, rfl, rfl⟩
    | some k =>
      right
      obtain ⟨a1, a2, a3, a4, a5, a6⟩ := cache_lookup_scan_some e d b _ 0 k hscan
      exact ⟨e, bb, k, hc, rfl, by omega, a3, a4, a5, fun j hj => a6 j (Nat.zero_le _) hj, rfl⟩

/-- Either `cache_update` changes nothing, or it overwrites the payload of the first slot
`k` that carries the key and increments its access count. -/
theorem cache_update_cases (c : CacheState) (d b : Int) (buf : Buf) :
    cache_update c d b buf = c ∨
    ∃ e k, c.cache = some e ∧ k < c.cache_size.toNat ∧
      (e k).disk_num = d ∧ (e k).block_num = b ∧
      (∀ j, j < k → ¬ ((e j).disk_num = d ∧ (e j).block_num = b)) ∧
      cache_update c d b buf =
        { c with cache := some (Function.update e k
            { e k with block := memcpy (e k).block 0 buf 0 256,
                       num_accesses := wrap_int ((e k).num_accesses + 1) }) } := by
  unfold cache_update
  cases hc : c.cache with
  | none => exact Or.inl rfl
  | some e =>
    simp only
    cases hscan : cache_update_scan e d b c.cache_size.toNat 0 with
    | none => exact Or.inl rfl
    | some k =>
      right
      obtain ⟨a1, a2, a4, a5, a6⟩ := cache_update_scan_some e d b _ 0 k hscan
      exact ⟨e, k, rfl, by omega, a4, a5, fun j hj => a6 j (Nat.zero_le _) hj, rfl⟩

/-! ## Invariants of the cache -/

theorem CacheInv_congr (c c1 : CacheState) (e e1 : Nat → cache_entry_t)
    (hc : c.cache = some e) (hc1 : c1.cache = some e1) (hs : c1.cache_size = c.cache_size)
    (h : ∀ i, (e1 i).valid = (e i).valid ∧ (e1 i).disk_num = (e i).disk_num ∧
      (e1 i).block_num = (e i).block_num)
    (hinv : CacheInv c) : CacheInv c1 := by
  intro e2 he2
  rw [hc1] at he2
  simp only [Option.some.injEq] at he2
  subst he2
  obtain ⟨hp, hu⟩ := hinv e hc
  rw [hs]
  constructor
  · intro i j hij hj hv
    rw [(h i).1]
    rw [(h j).1] at hv
    exact hp i j hij hj hv
  · intro i j hi hj hvi hvj hd hb
    rw [(h i).1] at hvi
    rw [(h j).1] at hvj
    rw [(h i).2.1, (h j).2.1] at hd
    rw [(h i).2.2, (h j).2.2] at hb
    exact hu i j hi hj hvi hvj hd hb

theorem cache_lookup_inv (c : CacheState) (d b : Int) (buf : Option Buf)
    (hinv : CacheInv c) : CacheInv (cache_lookup c d b buf).2.1 := by
  rcases cache_lookup_cases c d b buf with ⟨_, _, h3, h4⟩ | ⟨e, bb, k, hc, _, hk, _, _, _, _, heq⟩
  · intro e he
    rw [h3] at he
    rw [h4]
    exact hinv e he
  · rw [heq]
    refine CacheInv_congr c _ e _ hc rfl rfl ?_ hinv
    intro i
    by_cases hik : i = k
    · subst hik; simp
    · simp [Function.update_noteq hik]

theorem cache_update_inv (c : CacheState) (d b : Int) (buf : Buf)
    (hinv : CacheInv c) : CacheInv (cache_update c d b buf) := by
  rcases cache_update_cases c d b buf with h | ⟨e, k, hc, hk, _, _, _, heq⟩
  · rw [h]; exact hinv
  · rw [heq]
    refine CacheInv_congr c _ e _ hc rfl rfl ?_ hinv
    intro i
    by_cases hik : i = k
    · subst hik; simp
    · simp [Function.update_noteq hik]

theorem cache_insert_inv (c : CacheState) (d b : Int) (buf : Option Buf)
    (hinv : CacheInv c) : CacheInv (cache_insert c d b buf).2 := by
  rcases cache_insert_cases c d b buf with h | ⟨e, bb, k, hc, _, hk, heq, hbefore, hat⟩
  · rw [h]; exact hinv
  · rw [heq]
    obtain ⟨hp, hu⟩ := hinv e hc
    intro e2 he2
    simp only [Option.some.injEq] at he2
    subst he2
    constructor
    · intro i j hij hj hv
      by_cases hik : i = k
      · subst hik; simp
      · rw [Function.update_noteq hik]
        by_cases hjk : j = k
        · subst hjk
          exact (hbefore i hij).1
        · rw [Function.update_noteq hjk] at hv
          exact hp i j hij hj hv
    · intro i j hi hj hvi hvj hd hb
      have key : ∀ x, x < c.cache_size.toNat → x ≠ k → (e x).valid = true →
          ¬ ((e x).disk_num = d ∧ (e x).block_num = b) := by
        intro x hx hxk hvx
        rcases hat with hat | hat
        · rcases Nat.lt_or_gt_of_ne hxk with hlt | hgt
          · exact (hbefore x hlt).2
          · have := hp k x hgt hx hvx
            rw [hat] at this
            exact absurd this (by simp)
        · exact (hat x hx).2
      by_cases hik : i = k
      · by_cases hjk : j = k
        · rw [hik, hjk]
        · exfalso
          rw [Function.update_noteq hjk] at hvj hd hb
          rw [hik, Function.update_same] at hd hb
          exact key j hj hjk hvj ⟨hd.symm, hb.symm⟩
      · by_cases hjk : j = k
        · exfalso
          rw [Function.update_noteq hik] at hvi hd hb
          rw [hjk, Function.update_same] at hd hb
          exact key i hi hik hvi ⟨hd, hb⟩
        · rw [Function.update_noteq hik] at hvi hd hb
          rw [Function.update_noteq hjk] at hvj hd hb
          exact hu i j hi hj hvi hvj hd hb

theorem cache_create_inv (c : CacheState) (n : Int) (h : (cache_create c n).1 = 1) :
    CacheInv (cache_create c n).2 := by
  unfold cache_create at h ⊢
  split_ifs at h ⊢ with h1
  · simp at h
  · intro e he
    simp only [Option.some.injEq] at he
    subst he
    constructor
    · intro i j _ _ hv
      simp [zero_entry] at hv
    · intro i j _ _ hv
      simp [zero_entry] at hv

theorem CacheReach_inv (c : CacheState) (hr : CacheReach c) : CacheInv c := by
  induction hr with
  | create c n h => exact cache_create_inv c n h
  | insert c d b buf _ ih => exact cache_insert_inv c d b buf ih
  | lookup c d b buf _ ih => exact cache_lookup_inv c d b buf ih
  | update c d b buf _ ih => exact cache_update_inv c d b buf ih

/-- Under the invariant, an insert of a key that a valid entry already has is refused. -/
theorem cache_insert_duplicate (c : CacheState) (e : Nat → cache_entry_t) (d b : Int)
    (buf : Option Buf) (hinv : CacheInv c) (hc : c.cache = some e)
    (hdup : ∃ i, i < c.cache_size.toNat ∧ (e i).valid = true ∧ (e i).disk_num = d ∧
      (e i).block_num = b) :
    cache_insert c d b buf = (-1, c) := by
  rcases cache_insert_cases c d b buf with h | ⟨e1, bb, k, hc1, _, hk, heq, hbefore, hat⟩
  · exact h
  · exfalso
    rw [hc] at hc1
    simp only [Option.some.injEq] at hc1
    subst hc1
    obtain ⟨i, hi, hv, hd, hb⟩ := hdup
    obtain ⟨hp, _⟩ := hinv e hc
    rcases hat with hat | hat
    · rcases Nat.lt_trichotomy i k with hlt | heq | hgt
      · exact (hbefore i hlt).2 ⟨hd, hb⟩
      · subst heq; rw [hat] at hv; exact absurd hv (by simp)
      · have := hp k i hgt hi hv
        rw [hat] at this
        exact absurd this (by simp)
    · exact (hat i hi).2 ⟨hd, hb⟩

/-- C9. Cache key uniqueness: in every cache state reachable from a successful
`cache_create` by `cache_insert`, `cache_lookup` and `cache_update` calls, no two valid
entries have the same (disk_num, block_num); and a `cache_insert` whose key a valid entry
already has returns -1 and leaves the whole cache state (every entry, the size, the
counters) as it is. -/
theorem cache_key_uniqueness (c : CacheState) (hr : CacheReach c)
    (e : Nat → cache_entry_t) (hc : c.cache = some e) :
    (∀ i j : Nat, (i : Int) < c.cache_size → (j : Int) < c.cache_size →
      (e i).valid = true → (e j).valid = true →
      (e i).disk_num = (e j).disk_num → (e i).block_num = (e j).block_num → i = j) ∧
    (∀ (d b : Int) (buf : Option Buf),
      (∃ i : Nat, (i : Int) < c.cache_size ∧ (e i).valid = true ∧ (e i).disk_num = d ∧
        (e i).block_num = b) →
      cache_insert c d b buf = (-1, c)) := by
  have hinv := CacheReach_inv c hr
  constructor
  · intro i j hi hj
    exact (hinv e hc).2 i j (by omega) (by omega)
  · intro d b buf ⟨i, hi, hv, hd, hb⟩
    exact cache_insert_duplicate c e d b buf hinv hc ⟨i, by omega, hv, hd, hb⟩

/-- C10. LFU eviction: when the cache is enabled and full (every entry valid) and the key,
in range, is not in it, `cache_insert` returns 1 and overwrites exactly the entry at the
lowest index `k` whose access count is the minimum over all entries: that slot is valid,
has the new key, the 256 bytes of the buffer as payload and access count 1; every other
slot, the size and the counters are unchanged. -/
theorem lfu_eviction (c : CacheState) (e : Nat → cache_entry_t) (d b : Int) (buf : Buf)
    (hc : c.cache = some e) (hs : 0 < c.cache_size)
    (hfull : ∀ i : Nat, (i : Int) < c.cache_size → (e i).valid = true)
    (hd : 0 ≤ d ∧ d < 16) (hb : 0 ≤ b ∧ b < 256)
    (habs : ∀ i : Nat, (i : Int) < c.cache_size →
      ¬ ((e i).disk_num = d ∧ (e i).block_num = b)) :
    ∃ (k : Nat) (e1 : Nat → cache_entry_t),
      (k : Int) < c.cache_size ∧
      (∀ j : Nat, (j : Int) < c.cache_size → (e k).num_accesses ≤ (e j).num_accesses) ∧
      (∀ j : Nat, j < k → (e k).num_accesses < (e j).num_accesses) ∧
      cache_insert c d b (some buf) = (1, { c with cache := some e1 }) ∧
      (e1 k).valid = true ∧ (e1 k).disk_num = d ∧ (e1 k).block_num = b ∧
      (∀ off, off < 256 → (e1 k).block off = buf off) ∧ (e1 k).num_accesses = 1 ∧
      ∀ i, i ≠ k → e1 i = e i := by
  rw [cache_insert_eq c e d b buf hc hs hd.1 (by omega) hb.1 (by omega)]
  obtain ⟨hn, hsome⟩ := cache_insert_scan_spec e d b c.cache_size.toNat 0 0 (e 0).num_accesses
  cases hscan : cache_insert_scan e d b c.cache_size.toNat 0 0 (e 0).num_accesses with
  | none =>
    exfalso
    obtain ⟨k, _, hk, _, h1, h2, _⟩ := hn hscan
    exact habs k (by omega) ⟨h1, h2⟩
  | some k =>
    have hk : (k : Int) < c.cache_size ∧
        (∀ j : Nat, (j : Int) < c.cache_size → (e k).num_accesses ≤ (e j).num_accesses) ∧
        (∀ j : Nat, j < k → (e k).num_accesses < (e j).num_accesses) := by
      rcases hsome k hscan with ⟨_, a2, a3, _⟩ | ⟨_, a2⟩
      · exfalso
        have := hfull k (by omega)
        rw [a3] at this
        exact absurd this (by simp)
      · rcases a2 with ⟨b1, b2⟩ | ⟨_, b2, _, b4, b5⟩
        · subst b1
          exact ⟨by omega, fun j hj => b2 j (Nat.zero_le _) (by omega), fun j hj => by omega⟩
        · exact ⟨by omega, fun j hj => b5 j (Nat.zero_le _) (by omega),
            fun j hj => b4 j (Nat.zero_le _) hj⟩
    refine ⟨k, _, hk.1, hk.2.1, hk.2.2, rfl, ?_, ?_, ?_, ?_, ?_, ?_⟩
    · simp
    · simp
    · simp
    · intro off ho
      simp [memcpy, ho]
    · simp
    · intro i hi
      exact Function.update_noteq hi _ _

/-- C9, at the cache holding block (0, 0) after `cache_create(2)`: inserting (0, 0) again
is refused and changes nothing. -/
theorem cache_key_uniqueness_witness :
    cache_insert one_entry_cache 0 0 (some sevens) = (-1, one_entry_cache) :=
  (cache_key_uniqueness one_entry_cache
    (CacheReach.insert _ 0 0 (some nines) (CacheReach.create init_state.cache 2 (by decide)))
    one_entry_entries rfl).2 0 0 (some sevens) ⟨0, by decide, rfl, rfl, rfl⟩

/-- C10, at a full cache of two entries with access counts 3 and 2: inserting block (0, 5)
overwrites one slot, chosen as the claim says. -/
theorem lfu_eviction_witness :
    ∃ (k : Nat) (e1 : Nat → cache_entry_t),
      (k : Int) < full_cache.cache_size ∧
      (∀ j : Nat, (j : Int) < full_cache.cache_size →
        (full_entries k).num_accesses ≤ (full_entries j).num_accesses) ∧
      (∀ j : Nat, j < k → (full_entries k).num_accesses < (full_entries j).num_accesses) ∧
      cache_insert full_cache 0 5 (some sevens) = (1, { full_cache with cache := some e1 }) ∧
      (e1 k).valid = true ∧ (e1 k).disk_num = 0 ∧ (e1 k).block_num = 5 ∧
      (∀ off, off < 256 → (e1 k).block off = sevens off) ∧ (e1 k).num_accesses = 1 ∧
      ∀ i, i ≠ k → e1 i = full_entries i :=
  lfu_eviction full_cache full_entries 0 5 sevens rfl (by decide) (fun _ _ => rfl)
    (by decide) (by decide)
    (fun i hi h => by
      have h2 : ((i : Nat) : Int) = 5 := h.2
      have h3 : (i : Int) < 2 := hi
      omega)

/-! ## Coherence of the cache with the device -/

theorem memcpy_block (dst src : Buf) (off : Nat) (h : off < 256) :
    memcpy dst 0 src 0 256 off = src off := by
  simp [memcpy, h]

theorem Coh_of_disabled (P : Nat → Nat → Nat → Prop) (D : Nat → Nat → Buf) (c : CacheState)
    (h : cache_enabled c = false) : Coh P D c := by
  intro e he i hi
  exfalso
  have : ¬ cache_enabled c = true := by simp [h]
  apply this
  exact (cache_enabled_iff c).mpr ⟨⟨e, he⟩, by omega⟩

theorem Coh_congr (P : Nat → Nat → Nat → Prop) (D : Nat → Nat → Buf) (c c1 : CacheState)
    (e e1 : Nat → cache_entry_t)
    (hc : c.cache = some e) (hc1 : c1.cache = some e1) (hs : c1.cache_size = c.cache_size)
    (h : ∀ i, (e1 i).valid = (e i).valid ∧ (e1 i).disk_num = (e i).disk_num ∧
      (e1 i).block_num = (e i).block_num ∧ (e1 i).block = (e i).block)
    (hcoh : Coh P D c) : Coh P D c1 := by
  intro e2 he2 i hi hv d b hd hb off ho hP
  rw [hc1] at he2
  simp only [Option.some.injEq] at he2
  subst he2
  rw [hs] at hi
  rw [(h i).1] at hv
  rw [(h i).2.1] at hd
  rw [(h i).2.2.1] at hb
  rw [(h i).2.2.2]
  exact hcoh e hc i hi hv d b hd hb off ho hP

theorem cache_lookup_coh (P : Nat → Nat → Nat → Prop) (D : Nat → Nat → Buf)
    (c : CacheState) (d b : Int) (buf : Option Buf) (hcoh : Coh P D c) :
    Coh P D (cache_lookup c d b buf).2.1 := by
  rcases cache_lookup_cases c d b buf with ⟨_, _, h3, h4⟩ | ⟨e, bb, k, hc, _, hk, _, _, _, _, heq⟩
  · intro e he
    rw [h3] at he
    rw [h4]
    exact hcoh e he
  · rw [heq]
    refine Coh_congr P D c _ e _ hc rfl rfl ?_ hcoh
    intro i
    by_cases hik : i = k
    · subst hik; simp
    · simp [Function.update_noteq hik]

/-- Inserting a payload that agrees with the device block of its key keeps coherence. -/
theorem cache_insert_coh (P : Nat → Nat → Nat → Prop) (D : Nat → Nat → Buf)
    (c : CacheState) (dk bk : Int) (bb : Buf)
    (hnew : ∀ d b : Nat, dk = (d : Int) → bk = (b : Int) →
      ∀ off, off < 256 → P d b off → bb off = D d b off)
    (hcoh : Coh P D c) : Coh P D (cache_insert c dk bk (some bb)).2 := by
  rcases cache_insert_cases c dk bk (some bb) with h | ⟨e, bb1, k, hc, hbb, hk, heq, _, _⟩
  · rw [h]; exact hcoh
  · rw [heq]
    simp only [Option.some.injEq] at hbb
    subst hbb
    intro e2 he2 i hi hv d b hd hb off ho hP
    simp only [Option.some.injEq] at he2
    subst he2
    by_cases hik : i = k
    · subst hik
      simp only [Function.update_same] at hd hb ⊢
      rw [memcpy_block _ _ _ ho]
      exact hnew d b hd hb off ho hP
    · rw [Function.update_noteq hik] at hv hd hb ⊢
      exact hcoh e hc i hi hv d b hd hb off ho hP

/-! ## One block access of `mdadm_read` -/

theorem mdadm_read_fetch_inv (st : State) (d b : Nat) (tmp : Buf)
    (hinv : CacheInv st.cache) : CacheInv (mdadm_read_fetch st d b tmp).1.cache := by
  unfold mdadm_read_fetch
  simp only
  split_ifs
  · exact cache_insert_inv _ _ _ _ (cache_lookup_inv _ _ _ _ hinv)
  · exact cache_lookup_inv _ _ _ _ hinv
  · exact hinv

theorem mdadm_read_fetch_frame (st : State) (d b : Nat) (tmp : Buf) :
    (mdadm_read_fetch st d b tmp).1.is_mounted = st.is_mounted ∧
    (mdadm_read_fetch st d b tmp).1.is_written = st.is_written ∧
    (mdadm_read_fetch st d b tmp).1.malloc_block = st.malloc_block := by
  unfold mdadm_read_fetch
  simp only
  split_ifs <;> exact ⟨rfl, rfl, rfl⟩

/-- Lines 183-203 on a block of the array: the device contents stay, coherence stays, and
`tempBuffer` gets the device block wherever the cache is coherent with it. -/
theorem mdadm_read_fetch_spec (st : State) (d b : Nat) (tmp : Buf)
    (hd : d < 16) (hb : b < 256) :
    (mdadm_read_fetch st d b tmp).1.jbod.disks = st.jbod.disks ∧
    ∀ P : Nat → Nat → Nat → Prop, Coh P st.jbod.disks st.cache →
      Coh P st.jbod.disks (mdadm_read_fetch st d b tmp).1.cache ∧
      ∀ off, off < 256 → P d b off →
        (mdadm_read_fetch st d b tmp).2 off = st.jbod.disks d b off := by
  have hseek : seek_disk_block st.jbod d b = { st.jbod with cur_disk := d, cur_block := b } := by
    rw [seek_disk_block_eq, Nat.mod_eq_of_lt hd, Nat.mod_eq_of_lt hb]
  have hread : ∀ buf : Buf,
      jbod_operation { st.jbod with cur_disk := d, cur_block := b }
        (op_creator b d JBOD_READ_BLOCK 0) (some buf)
      = (0, { st.jbod with cur_disk := d,
                           cur_block := st.jbod.head_after JBOD_READ_BLOCK b },
          some (memcpy buf 0 (st.jbod.disks d b) 0 256)) := by
    intro buf
    rw [jbod_read_block _ d b buf hd hb]
  unfold mdadm_read_fetch
  simp only [hseek]
  by_cases hen : cache_enabled st.cache = true
  · rw [if_pos hen]
    rcases cache_lookup_cases st.cache d b (some tmp) with
      ⟨h1, h2, h3, h4⟩ | ⟨e, bb, k, hc, hbb, hk, hv, hkd, hkb, _, heq⟩
    · have hne : (cache_lookup st.cache d b (some tmp)).1 ≠ 1 := by rw [h1]; decide
      rw [if_pos hne, h2, hread]
      refine ⟨rfl, ?_⟩
      intro P hcoh
      simp only [Option.getD_some]
      constructor
      · apply cache_insert_coh
        · intro d1 b1 hd1 hb1 off ho _
          have e1 : d1 = d := by omega
          have e2 : b1 = b := by omega
          subst e1 e2
          exact memcpy_block _ _ _ ho
        · exact cache_lookup_coh P _ _ _ _ _ hcoh
      · intro off ho _
        exact memcpy_block _ _ _ ho
    · simp only [Option.some.injEq] at hbb
      subst hbb
      have hne : ¬ (cache_lookup st.cache d b (some tmp)).1 ≠ 1 := by rw [heq]; simp
      rw [if_neg hne]
      refine ⟨rfl, ?_⟩
      intro P hcoh
      constructor
      · exact cache_lookup_coh P _ _ _ _ _ hcoh
      · intro off ho hP
        rw [heq]
        simp only [Option.getD_some]
        rw [memcpy_block _ _ _ ho]
        exact hcoh e hc k hk hv d b hkd hkb off ho hP
  · rw [if_neg hen, hread]
    refine ⟨rfl, ?_⟩
    intro P hcoh
    simp only [Option.getD_some]
    exact ⟨hcoh, fun off ho _ => memcpy_block _ _ _ ho⟩

theorem memcpy_at (dst : Buf) (doff : Nat) (src : Buf) (soff n i : Nat) (h : i < n) :
    memcpy dst doff src soff n (doff + i) = src (soff + i) := by
  unfold memcpy
  rw [if_pos ⟨by omega, by omega⟩, Nat.add_sub_cancel_left]

theorem memcpy_off (dst : Buf) (doff : Nat) (src : Buf) (soff n j : Nat)
    (h : j < doff ∨ doff + n ≤ j) :
    memcpy dst doff src soff n j = dst j := by
  unfold memcpy
  rw [if_neg (by omega)]

theorem mdadm_read_step_vars (v : ReadVars) (ho : v.offset < 256)
    (hrb : v.read_bytes < 2 ^ 32) :
    (mdadm_read_step v).read_buf
      = memcpy v.read_buf v.current_pos
          (mdadm_read_fetch v.st v.diskId v.blockId v.tempBuffer).2 v.offset
          (min v.read_bytes (256 - v.offset)) ∧
    (mdadm_read_step v).read_bytes = v.read_bytes - min v.read_bytes (256 - v.offset) ∧
    (mdadm_read_step v).current_pos = v.current_pos + min v.read_bytes (256 - v.offset) := by
  have hs : sub32 256 v.offset = 256 - v.offset := sub32_eq _ _ (by omega) (by norm_num)
  by_cases h1 : v.offset = 0
  · by_cases h2 : v.read_bytes < 256
    · have hm : min v.read_bytes (256 - v.offset) = v.read_bytes := by omega
      rw [hm]
      refine ⟨?_, ?_, ?_⟩
      · simp only [mdadm_read_step, JBOD_BLOCK_SIZE, if_pos h1, if_pos h2]
        rw [h1]
      · simp only [mdadm_read_step, JBOD_BLOCK_SIZE, if_pos h1, if_pos h2]
        omega
      · simp only [mdadm_read_step, JBOD_BLOCK_SIZE, if_pos h1, if_pos h2]
    · have hm : min v.read_bytes (256 - v.offset) = 256 := by omega
      rw [hm]
      refine ⟨?_, ?_, ?_⟩
      · simp only [mdadm_read_step, JBOD_BLOCK_SIZE, if_pos h1, if_neg h2]
        rw [h1]
      · simp only [mdadm_read_step, JBOD_BLOCK_SIZE, if_pos h1, if_neg h2]
        rw [sub32_eq _ _ (by omega) hrb]
      · simp only [mdadm_read_step, JBOD_BLOCK_SIZE, if_pos h1, if_neg h2]
  · by_cases h2 : v.read_bytes < 256 - v.offset
    · have hm : min v.read_bytes (256 - v.offset) = v.read_bytes := by omega
      rw [hm]
      refine ⟨?_, ?_, ?_⟩
      · simp only [mdadm_read_step, JBOD_BLOCK_SIZE, if_neg h1, hs, if_pos h2]
      · simp only [mdadm_read_step, JBOD_BLOCK_SIZE, if_neg h1, hs, if_pos h2]
        omega
      · simp only [mdadm_read_step, JBOD_BLOCK_SIZE, if_neg h1, hs, if_pos h2]
    · have hm : min v.read_bytes (256 - v.offset) = 256 - v.offset := by omega
      rw [hm]
      refine ⟨?_, ?_, ?_⟩
      · simp only [mdadm_read_step, JBOD_BLOCK_SIZE, if_neg h1, hs, if_neg h2]
      · simp only [mdadm_read_step, JBOD_BLOCK_SIZE, if_neg h1, hs, if_neg h2]
        rw [sub32_eq _ _ (by omega) hrb]
      · simp only [mdadm_read_step, JBOD_BLOCK_SIZE, if_neg h1, hs, if_neg h2]

theorem mdadm_read_step_inv (v : ReadVars) (hinv : CacheInv v.st.cache) :
    CacheInv (mdadm_read_step v).st.cache :=
  mdadm_read_fetch_inv v.st v.diskId v.blockId v.tempBuffer hinv

theorem mdadm_read_loop_inv (fuel : Nat) :
    ∀ v w : ReadVars, mdadm_read_loop fuel v = some w → CacheInv v.st.cache →
      CacheInv w.st.cache := by
  induction fuel with
  | zero =>
    intro v w h hinv
    simp only [mdadm_read_loop] at h
    split_ifs at h
    simp only [Option.some.injEq] at h
    subst h
    exact hinv
  | succ n ih =>
    intro v w h hinv
    simp only [mdadm_read_loop] at h
    split_ifs at h
    · simp only [Option.some.injEq] at h
      subst h
      exact hinv
    · exact ih _ w h (mdadm_read_step_inv v hinv)

/-- The read loop on a range of the array: it ends, leaves the device contents and the
flags, keeps coherence, and puts into `read_buf`, from `current_pos` on, the device bytes
of the range wherever the cache is coherent with the device; the rest of `read_buf` is
left. -/
theorem mdadm_read_loop_spec (P : Nat → Nat → Nat → Prop) (fuel : Nat) :
    ∀ v : ReadVars,
      v.diskId * 65536 + v.blockId * 256 + v.offset + v.read_bytes ≤ 1048576 →
      v.blockId < 256 → v.offset < 256 → v.read_bytes ≤ fuel →
      Coh P v.st.jbod.disks v.st.cache →
      ∃ w, mdadm_read_loop fuel v = some w ∧
        w.st.jbod.disks = v.st.jbod.disks ∧
        w.st.is_mounted = v.st.is_mounted ∧ w.st.is_written = v.st.is_written ∧
        w.st.malloc_block = v.st.malloc_block ∧
        Coh P v.st.jbod.disks w.st.cache ∧
        (∀ i, i < v.read_bytes →
          P ((v.diskId * 65536 + v.blockId * 256 + v.offset + i) / 65536)
            ((v.diskId * 65536 + v.blockId * 256 + v.offset + i) % 65536 / 256)
            ((v.diskId * 65536 + v.blockId * 256 + v.offset + i) % 256) →
          w.read_buf (v.current_pos + i)
            = dev_byte v.st.jbod.disks
                (v.diskId * 65536 + v.blockId * 256 + v.offset + i)) ∧
        (∀ j, j < v.current_pos ∨ v.current_pos + v.read_bytes ≤ j →
          w.read_buf j = v.read_buf j) := by
  induction fuel with
  | zero =>
    intro v _ _ _ hf hcoh
    refine ⟨v, mdadm_read_loop_zero 0 v (by omega), rfl, rfl, rfl, rfl, hcoh, ?_, ?_⟩
    · intro i hi; omega
    · intro j _; rfl
  | succ n ih =>
    intro v hA hb ho hf hcoh
    by_cases hz : v.read_bytes = 0
    · refine ⟨v, mdadm_read_loop_zero _ v hz, rfl, rfl, rfl, rfl, hcoh, ?_, ?_⟩
      · intro i hi; omega
      · intro j _; rfl
    · rw [mdadm_read_loop_succ n v hz]
      have hd : v.diskId < 16 := by omega
      obtain ⟨hbuf, hrb, hcp⟩ := mdadm_read_step_vars v ho (by omega)
      obtain ⟨hdisks, hfetch⟩ := mdadm_read_fetch_spec v.st v.diskId v.blockId v.tempBuffer hd hb
      obtain ⟨hcoh1, htmp⟩ := hfetch P hcoh
      obtain ⟨hfm, hfw, hfh⟩ := mdadm_read_fetch_frame v.st v.diskId v.blockId v.tempBuffer
      have hst : (mdadm_read_step v).st
          = (mdadm_read_fetch v.st v.diskId v.blockId v.tempBuffer).1 := rfl
      have hoff : (mdadm_read_step v).offset = 0 := rfl
      have hdid : (mdadm_read_step v).diskId
          = if v.blockId = 255 then (v.diskId + 1) % 256 else v.diskId := rfl
      have hbid : (mdadm_read_step v).blockId
          = if v.blockId = 255 then 0 else (v.blockId + 1) % 256 := rfl
      have hpos : (mdadm_read_step v).diskId * 65536 + (mdadm_read_step v).blockId * 256
          = v.diskId * 65536 + v.blockId * 256 + 256 := by
        rw [hdid, hbid]; split_ifs <;> omega
      have hb1 : (mdadm_read_step v).blockId < 256 := by
        rw [hbid]; split_ifs <;> omega
      obtain ⟨w, hw, wd, wm, ww, wh, wcoh, wbytes, wframe⟩ := ih (mdadm_read_step v)
        (by rw [hoff, hrb]; omega) hb1 (by rw [hoff]; norm_num) (by rw [hrb]; omega)
        (by rw [hst, hdisks]; exact hcoh1)
      rw [hst, hdisks] at wd wcoh wbytes
      rw [hst] at wm ww wh
      refine ⟨w, hw, wd, by rw [wm, hfm], by rw [ww, hfw], by rw [wh, hfh], wcoh, ?_, ?_⟩
      · intro i hi hP
        by_cases hin : i < min v.read_bytes (256 - v.offset)
        · have e1 : (v.diskId * 65536 + v.blockId * 256 + v.offset + i) / 65536 = v.diskId := by
            omega
          have e2 : (v.diskId * 65536 + v.blockId * 256 + v.offset + i) % 65536 / 256
              = v.blockId := by omega
          have e3 : (v.diskId * 65536 + v.blockId * 256 + v.offset + i) % 256
              = v.offset + i := by omega
          rw [e1, e2, e3] at hP
          rw [wframe (v.current_pos + i) (Or.inl (by rw [hcp]; omega)), hbuf]
          unfold dev_byte
          rw [e1, e2, e3]
          have hm : memcpy v.read_buf v.current_pos
              (mdadm_read_fetch v.st v.diskId v.blockId v.tempBuffer).2 v.offset
              (min v.read_bytes (256 - v.offset)) (v.current_pos + i)
              = (mdadm_read_fetch v.st v.diskId v.blockId v.tempBuffer).2 (v.offset + i) := by
            rw [memcpy_at _ _ _ _ _ i hin]
          rw [hm]
          exact htmp (v.offset + i) (by omega) hP
        · have hmin : min v.read_bytes (256 - v.offset) = 256 - v.offset := by omega
          have key := wbytes (i - (256 - v.offset)) (by rw [hrb]; omega)
          rw [hoff, hpos, hcp, hmin] at key
          have ea : v.diskId * 65536 + v.blockId * 256 + 256 + 0 + (i - (256 - v.offset))
              = v.diskId * 65536 + v.blockId * 256 + v.offset + i := by omega
          have eb : v.current_pos + (256 - v.offset) + (i - (256 - v.offset))
              = v.current_pos + i := by omega
          rw [ea, eb] at key
          exact key hP
      · intro j hj
        rw [wframe j (by rw [hcp, hrb]; omega), hbuf]
        exact memcpy_off _ _ _ _ _ j (by omega)

/-! ## One block access of `mdadm_write` -/

theorem cache_lookup_miss_scan (c : CacheState) (e : Nat → cache_entry_t) (d b : Int)
    (buf : Buf) (hc : c.cache = some e) (hs : 0 < c.cache_size)
    (hd0 : 0 ≤ d) (hd1 : d ≤ 16) (hb0 : 0 ≤ b) (hb1 : b ≤ 256)
    (hmiss : (cache_lookup c d b (some buf)).1 ≠ 1) :
    cache_lookup_scan e d b c.cache_size.toNat 0 = none := by
  rw [cache_lookup_eq c e d b buf hc hs hd0 hd1 hb0 hb1] at hmiss
  cases hscan : cache_lookup_scan e d b c.cache_size.toNat 0 with
  | none => rfl
  | some k => rw [hscan] at hmiss; simp at hmiss

theorem cache_update_at (c : CacheState) (e : Nat → cache_entry_t) (d b : Int) (buf : Buf)
    (k : Nat) (hc : c.cache = some e) (hk : k < c.cache_size.toNat)
    (hkey : (e k).disk_num = d ∧ (e k).block_num = b)
    (hfirst : ∀ j, j < k → ¬ ((e j).disk_num = d ∧ (e j).block_num = b)) :
    cache_update c d b buf =
      { c with cache := some (Function.update e k
          { e k with block := memcpy (e k).block 0 buf 0 256,
                     num_accesses := wrap_int ((e k).num_accesses + 1) }) } := by
  unfold cache_update
  rw [hc]
  simp only
  rw [cache_update_scan_first e d b k hkey c.cache_size.toNat 0 (Nat.zero_le _) (by omega)
    (fun j _ hj => hfirst j hj)]
  rfl

theorem mdadm_write_fetch_inv (st : State) (d b : Nat) (tmp : Buf)
    (hinv : CacheInv st.cache) : CacheInv (mdadm_write_fetch st d b tmp).1.cache := by
  unfold mdadm_write_fetch
  simp only
  split_ifs
  · exact cache_lookup_inv _ _ _ _ hinv
  · exact cache_lookup_inv _ _ _ _ hinv
  · exact hinv

theorem mdadm_write_step_inv (v : WriteVars) (hinv : CacheInv v.st.cache) :
    CacheInv (mdadm_write_step v).st.cache := by
  have h := mdadm_write_fetch_inv v.st v.diskId v.blockId v.tempBuffer hinv
  unfold mdadm_write_step
  simp only
  split_ifs
  all_goals first
    | exact cache_update_inv _ _ _ _ h
    | exact cache_insert_inv _ _ _ _ h

theorem mdadm_write_loop_inv (fuel : Nat) :
    ∀ v w : WriteVars, mdadm_write_loop fuel v = some w → CacheInv v.st.cache →
      CacheInv w.st.cache := by
  induction fuel with
  | zero =>
    intro v w h hinv
    simp only [mdadm_write_loop] at h
    split_ifs at h
    simp only [Option.some.injEq] at h
    subst h
    exact hinv
  | succ n ih =>
    intro v w h hinv
    simp only [mdadm_write_loop] at h
    split_ifs at h
    · simp only [Option.some.injEq] at h
      subst h
      exact hinv
    · exact ih _ w h (mdadm_write_step_inv v hinv)

/-- Lines 293-328 on a block of the array. The device is left positioned on the block with
its contents as they were, and one of three things happened: the cache is disabled and
`tempBuffer` holds the device block; the cache hit at slot `k` and `tempBuffer` holds its
payload; or the cache missed, its entries are as before, and `tempBuffer` holds the device
block. -/
theorem mdadm_write_fetch_spec (st : State) (d b : Nat) (tmp : Buf)
    (hd : d < 16) (hb : b < 256) :
    (mdadm_write_fetch st d b tmp).1.jbod = { st.jbod with cur_disk := d, cur_block := b } ∧
    (mdadm_write_fetch st d b tmp).1.is_mounted = st.is_mounted ∧
    (mdadm_write_fetch st d b tmp).1.is_written = st.is_written ∧
    (mdadm_write_fetch st d b tmp).1.malloc_block = st.malloc_block ∧
    ((cache_enabled st.cache = false ∧
        (mdadm_write_fetch st d b tmp).1.cache = st.cache ∧
        (mdadm_write_fetch st d b tmp).2.1 = memcpy tmp 0 (st.jbod.disks d b) 0 256 ∧
        (mdadm_write_fetch st d b tmp).2.2 = 0) ∨
     (∃ e k, st.cache.cache = some e ∧ k < st.cache.cache_size.toNat ∧
        (e k).valid = true ∧ (e k).disk_num = (d : Int) ∧ (e k).block_num = (b : Int) ∧
        (∀ j, j < k →
          (e j).valid = true ∧ ¬ ((e j).disk_num = (d : Int) ∧ (e j).block_num = (b : Int))) ∧
        (mdadm_write_fetch st d b tmp).1.cache =
          { st.cache with
              num_queries := wrap_int (st.cache.num_queries + 1),
              num_hits := wrap_int (st.cache.num_hits + 1),
              cache := some (Function.update e k
                { e k with num_accesses := wrap_int ((e k).num_accesses + 1) }) } ∧
        (mdadm_write_fetch st d b tmp).2.1 = memcpy tmp 0 (e k).block 0 256 ∧
        (mdadm_write_fetch st d b tmp).2.2 = 1) ∨
     (∃ e m, st.cache.cache = some e ∧ 0 < st.cache.cache_size ∧
        m ≤ st.cache.cache_size.toNat ∧
        (∀ j, j < m →
          (e j).valid = true ∧ ¬ ((e j).disk_num = (d : Int) ∧ (e j).block_num = (b : Int))) ∧
        (m < st.cache.cache_size.toNat → (e m).valid = false) ∧
        (mdadm_write_fetch st d b tmp).1.cache.cache = some e ∧
        (mdadm_write_fetch st d b tmp).1.cache.cache_size = st.cache.cache_size ∧
        (mdadm_write_fetch st d b tmp).2.1 = memcpy tmp 0 (st.jbod.disks d b) 0 256 ∧
        (mdadm_write_fetch st d b tmp).2.2 = 0)) := by
  have hseek : ∀ j : Jbod, seek_disk_block j d b = { j with cur_disk := d, cur_block := b } := by
    intro j
    rw [seek_disk_block_eq, Nat.mod_eq_of_lt hd, Nat.mod_eq_of_lt hb]
  have hread : ∀ buf : Buf,
      jbod_operation { st.jbod with cur_disk := d, cur_block := b }
        (op_creator b d JBOD_READ_BLOCK 0) (some buf)
      = (0, { st.jbod with cur_disk := d,
                           cur_block := st.jbod.head_after JBOD_READ_BLOCK b },
          some (memcpy buf 0 (st.jbod.disks d b) 0 256)) := by
    intro buf
    rw [jbod_read_block _ d b buf hd hb]
  unfold mdadm_write_fetch
  simp only [hseek st.jbod]
  by_cases hen : cache_enabled st.cache = true
  · rw [if_pos hen]
    obtain ⟨⟨e, hc⟩, hs⟩ := (cache_enabled_iff st.cache).mp hen
    rcases cache_lookup_cases st.cache d b (some tmp) with
      ⟨h1, h2, h3, h4⟩ | ⟨e1, bb, k, hc1, hbb, hk, hv, hkd, hkb, hbefore, heq⟩
    · have hne : (cache_lookup st.cache d b (some tmp)).1 ≠ 1 := by rw [h1]; decide
      rw [if_pos hne, h2, hread, hseek]
      refine ⟨rfl, rfl, rfl, rfl, Or.inr (Or.inr ?_)⟩
      have hscan := cache_lookup_miss_scan st.cache e d b tmp hc hs (by omega) (by omega)
        (by omega) (by omega) hne
      obtain ⟨m, _, hm, hbefore, hat⟩ := cache_lookup_scan_none e d b _ 0 hscan
      refine ⟨e, m, hc, hs, by omega, fun j hj => hbefore j (Nat.zero_le _) hj,
        fun hlt => hat (by omega), by rw [h3, hc], h4, rfl, rfl⟩
    · simp only [Option.some.injEq] at hbb
      subst hbb
      have hne : ¬ (cache_lookup st.cache d b (some tmp)).1 ≠ 1 := by rw [heq]; simp
      rw [if_neg hne]
      refine ⟨rfl, rfl, rfl, rfl, Or.inr (Or.inl ?_)⟩
      refine ⟨e1, k, hc1, hk, hv, hkd, hkb, hbefore, ?_, ?_, rfl⟩
      · rw [heq]
      · rw [heq]; rfl
  · rw [if_neg hen, hread, hseek]
    refine ⟨rfl, rfl, rfl, rfl, Or.inl ⟨by simpa using hen, rfl, rfl, rfl⟩⟩

/-- No valid entry has the key when the lookup scan missed and the valid entries form a
prefix. -/
theorem no_entry_of_miss (e : Nat → cache_entry_t) (n m : Nat) (d b : Int)
    (hp : ValidPrefix e n) (hm : m ≤ n)
    (hbefore : ∀ j, j < m → (e j).valid = true ∧ ¬ ((e j).disk_num = d ∧ (e j).block_num = b))
    (hat : m < n → (e m).valid = false) :
    ∀ i, i < n → (e i).valid = true → ¬ ((e i).disk_num = d ∧ (e i).block_num = b) := by
  intro i hi hv
  by_cases him : i < m
  · exact (hbefore i him).2
  · exfalso
    have hmn : m < n := by omega
    have h1 := hat hmn
    by_cases heq : i = m
    · subst heq; rw [h1] at hv; exact absurd hv (by simp)
    · have := hp m i (by omega) hi hv
      rw [h1] at this
      exact absurd this (by simp)

/-- The cache after one iteration of the write loop on a block of the array: every valid
entry is either the refreshed one (the block's key, the written `tempBuffer` as payload) or
a valid entry from before with its key and payload; under the cache invariant every valid
entry with the block's key holds the written `tempBuffer`. -/
theorem mdadm_write_step_cache (v : WriteVars) (hd : v.diskId < 16) (hb : v.blockId < 256) :
    (mdadm_write_step v).st.cache.cache_size = v.st.cache.cache_size ∧
    ∀ e1, (mdadm_write_step v).st.cache.cache = some e1 →
      ∃ e, v.st.cache.cache = some e ∧
        (∀ i, i < v.st.cache.cache_size.toNat → (e1 i).valid = true →
          ((e1 i).disk_num = (v.diskId : Int) ∧ (e1 i).block_num = (v.blockId : Int) ∧
            ∀ off, off < 256 → (e1 i).block off = (mdadm_write_step v).tempBuffer off) ∨
          ((e i).valid = true ∧ (e1 i).disk_num = (e i).disk_num ∧
            (e1 i).block_num = (e i).block_num ∧ (e1 i).block = (e i).block)) ∧
        (CacheInv v.st.cache →
          ∀ i, i < v.st.cache.cache_size.toNat → (e1 i).valid = true →
            (e1 i).disk_num = (v.diskId : Int) → (e1 i).block_num = (v.blockId : Int) →
            ∀ off, off < 256 → (e1 i).block off = (mdadm_write_step v).tempBuffer off) := by
  have hcache : (mdadm_write_step v).st.cache =
      if (mdadm_write_fetch v.st v.diskId v.blockId v.tempBuffer).2.2 = 1 then
        cache_update (mdadm_write_fetch v.st v.diskId v.blockId v.tempBuffer).1.cache
          v.diskId v.blockId (mdadm_write_step v).tempBuffer
      else
        (cache_insert (mdadm_write_fetch v.st v.diskId v.blockId v.tempBuffer).1.cache
          v.diskId v.blockId (some (mdadm_write_step v).tempBuffer)).2 := rfl
  obtain ⟨_, _, _, _, hcases⟩ :=
    mdadm_write_fetch_spec v.st v.diskId v.blockId v.tempBuffer hd hb
  rcases hcases with ⟨hdis, hfc, _, hcu⟩ |
    ⟨e, k, hc, hk, hv, hkd, hkb, hbefore, hfc, _, hcu⟩ |
    ⟨e, m, hc, hs, hm, hbefore, hat, hfc, hfs, _, hcu⟩
  · -- cache disabled
    rw [hcache, hcu, if_neg (by decide), hfc, cache_insert_fail _ _ _ _ (Or.inl hdis)]
    refine ⟨rfl, ?_⟩
    intro e1 he1
    refine ⟨e1, he1, fun i hi hv => ?_, fun _ i hi hv => ?_⟩
    · exact Or.inr ⟨hv, rfl, rfl, rfl⟩
    · exfalso
      have : ¬ cache_enabled v.st.cache = true := by simp [hdis]
      exact this ((cache_enabled_iff _).mpr ⟨⟨e1, he1⟩, by omega⟩)
  · -- hit at slot k
    rw [hcache, hcu, if_pos rfl, hfc]
    have hupd := cache_update_at
      ({ v.st.cache with
          num_queries := wrap_int (v.st.cache.num_queries + 1),
          num_hits := wrap_int (v.st.cache.num_hits + 1),
          cache := some (Function.update e k
            { e k with num_accesses := wrap_int ((e k).num_accesses + 1) }) } : CacheState)
      (Function.update e k { e k with num_accesses := wrap_int ((e k).num_accesses + 1) })
      (v.diskId : Int) (v.blockId : Int) (mdadm_write_step v).tempBuffer k rfl hk
      (by simp [hkd, hkb])
      (fun j hj => by
        rw [Function.update_noteq (by omega)]
        exact (hbefore j hj).2)
    rw [hupd]
    refine ⟨rfl, ?_⟩
    intro e1 he1
    simp only [Option.some.injEq] at he1
    subst he1
    refine ⟨e, hc, fun i hi hvi => ?_, fun hinv i hi hvi hdi hbi off ho => ?_⟩
    · by_cases hik : i = k
      · subst hik
        left
        simp only [Function.update_same]
        exact ⟨hkd, hkb, fun off ho => memcpy_block _ _ _ ho⟩
      · right
        rw [Function.update_noteq hik, Function.update_noteq hik] at hvi ⊢
        exact ⟨hvi, rfl, rfl, rfl⟩
    · by_cases hik : i = k
      · subst hik
        simp only [Function.update_same]
        exact memcpy_block _ _ _ ho
      · exfalso
        rw [Function.update_noteq hik, Function.update_noteq hik] at hvi hdi hbi
        exact hik ((hinv e hc).2 i k hi hk hvi hv (by rw [hdi, hkd]) (by rw [hbi, hkb]))
  · -- miss
    rw [hcache, hcu, if_neg (by decide)]
    have hsize : (mdadm_write_fetch v.st v.diskId v.blockId v.tempBuffer).1.cache.cache_size.toNat
        = v.st.cache.cache_size.toNat := by rw [hfs]
    rcases cache_insert_cases (mdadm_write_fetch v.st v.diskId v.blockId v.tempBuffer).1.cache
        v.diskId v.blockId (some (mdadm_write_step v).tempBuffer) with
      h | ⟨e2, bb, k, hc2, hbb, hk, heq, _, _⟩
    · rw [h]
      refine ⟨hfs, ?_⟩
      intro e1 he1
      rw [hfc] at he1
      simp only [Option.some.injEq] at he1
      subst he1
      refine ⟨e, hc, fun i hi hvi => Or.inr ⟨hvi, rfl, rfl, rfl⟩,
        fun hinv i hi hvi hdi hbi off ho => ?_⟩
      exfalso
      exact no_entry_of_miss e _ m _ _ (hinv e hc).1 hm hbefore hat i hi hvi ⟨hdi, hbi⟩
    · rw [hfc] at hc2
      simp only [Option.some.injEq] at hc2 hbb
      subst hc2
      rw [heq]
      refine ⟨hfs, ?_⟩
      intro e1 he1
      simp only [Option.some.injEq] at he1
      subst he1
      refine ⟨e, hc, fun i hi hvi => ?_, fun hinv i hi hvi hdi hbi off ho => ?_⟩
      · by_cases hik : i = k
        · subst hik
          left
          simp only [Function.update_same]
          refine ⟨trivial, trivial, fun off ho => ?_⟩
          rw [memcpy_block _ _ _ ho, hbb]
        · right
          rw [Function.update_noteq hik] at hvi ⊢
          exact ⟨hvi, rfl, rfl, rfl⟩
      · by_cases hik : i = k
        · subst hik
          simp only [Function.update_same]
          rw [memcpy_block _ _ _ ho, hbb]
        · exfalso
          rw [Function.update_noteq hik] at hvi hdi hbi
          exact no_entry_of_miss e _ m _ _ (hinv e hc).1 hm hbefore hat i hi hvi ⟨hdi, hbi⟩

theorem mdadm_write_fetch_src (st : State) (d b : Nat) (tmp : Buf)
    (hd : d < 16) (hb : b < 256) (P : Nat → Nat → Nat → Prop)
    (hcoh : Coh P st.jbod.disks st.cache) :
    ∀ off, off < 256 → P d b off →
      (mdadm_write_fetch st d b tmp).2.1 off = st.jbod.disks d b off := by
  obtain ⟨_, _, _, _, hcases⟩ := mdadm_write_fetch_spec st d b tmp hd hb
  intro off ho hP
  rcases hcases with ⟨_, _, hsrc, _⟩ | ⟨e, k, hc, hk, hv, hkd, hkb, _, _, hsrc, _⟩ |
    ⟨e, m, _, _, _, _, _, _, _, hsrc, _⟩
  · rw [hsrc, memcpy_block _ _ _ ho]
  · rw [hsrc, memcpy_block _ _ _ ho]
    exact hcoh e hc k hk hv d b hkd hkb off ho hP
  · rw [hsrc, memcpy_block _ _ _ ho]

theorem mdadm_write_step_vars (v : WriteVars) (ho : v.offset < 256)
    (hwl : v.write_len < 2 ^ 32) (hwo : v.offset ≠ 0 → v.write_buff_offset = 0)
    (hsum : v.write_buff_offset + v.write_len < 2 ^ 32) :
    (mdadm_write_step v).tempBuffer
      = memcpy (mdadm_write_fetch v.st v.diskId v.blockId v.tempBuffer).2.1 v.offset
          v.write_buf v.write_buff_offset (min v.write_len (256 - v.offset)) ∧
    (mdadm_write_step v).write_len = v.write_len - min v.write_len (256 - v.offset) ∧
    (mdadm_write_step v).write_buff_offset
      = v.write_buff_offset + min v.write_len (256 - v.offset) := by
  by_cases h1 : v.offset = 0
  · by_cases h2 : v.write_len ≥ 256
    · have hm : min v.write_len (256 - v.offset) = 256 := by omega
      rw [hm]
      refine ⟨?_, ?_, ?_⟩
      · simp only [mdadm_write_step, if_pos h1, if_pos h2]
        rw [h1]
      · simp only [mdadm_write_step, if_pos h1, if_pos h2]
        rw [sub32_eq _ _ (by omega) hwl]
      · simp only [mdadm_write_step, if_pos h1, if_pos h2]
        omega
    · have hm : min v.write_len (256 - v.offset) = v.write_len := by omega
      rw [hm]
      refine ⟨?_, ?_, ?_⟩
      · simp only [mdadm_write_step, if_pos h1, if_neg h2]
        rw [h1]
      · simp only [mdadm_write_step, if_pos h1, if_neg h2]
        omega
      · simp only [mdadm_write_step, if_pos h1, if_neg h2]
        omega
  · have hwo0 := hwo h1
    by_cases h2 : v.write_len ≥ 256 - v.offset
    · have hm : min v.write_len (256 - v.offset) = 256 - v.offset := by omega
      rw [hm]
      refine ⟨?_, ?_, ?_⟩
      · simp only [mdadm_write_step, if_neg h1, if_pos h2]
      · simp only [mdadm_write_step, if_neg h1, if_pos h2]
        unfold sub32
        omega
      · simp only [mdadm_write_step, if_neg h1, if_pos h2]
        unfold sub32
        omega
    · have hm : min v.write_len (256 - v.offset) = v.write_len := by omega
      rw [hm]
      refine ⟨?_, ?_, ?_⟩
      · simp only [mdadm_write_step, if_neg h1, if_neg h2]
        rw [hwo0]
      · simp only [mdadm_write_step, if_neg h1, if_neg h2]
        omega
      · simp only [mdadm_write_step, if_neg h1, if_neg h2]
        omega

theorem mdadm_write_step_disks (v : WriteVars) (hd : v.diskId < 16) (hb : v.blockId < 256) :
    (mdadm_write_step v).st.jbod.disks =
      fun d1 b1 =>
        if d1 = v.diskId ∧ b1 = v.blockId then
          memcpy (v.st.jbod.disks d1 b1) 0 (mdadm_write_step v).tempBuffer 0 256
        else v.st.jbod.disks d1 b1 := by
  have hj : (mdadm_write_step v).st.jbod =
      (jbod_operation (mdadm_write_fetch v.st v.diskId v.blockId v.tempBuffer).1.jbod
        (op_creator v.blockId v.diskId JBOD_WRITE_BLOCK 0)
        (some (mdadm_write_step v).tempBuffer)).2.1 := rfl
  obtain ⟨hfj, _⟩ := mdadm_write_fetch_spec v.st v.diskId v.blockId v.tempBuffer hd hb
  rw [hj, hfj, jbod_write_block _ _ _ _ hd hb]

theorem mdadm_write_step_frame (v : WriteVars) :
    (mdadm_write_step v).st.is_mounted = v.st.is_mounted ∧
    (mdadm_write_step v).st.is_written = v.st.is_written ∧
    (mdadm_write_step v).st.malloc_block = v.st.malloc_block ∧
    (mdadm_write_step v).write_buf = v.write_buf := by
  have h : ∀ st d b tmp,
      (mdadm_write_fetch st d b tmp).1.is_mounted = st.is_mounted ∧
      (mdadm_write_fetch st d b tmp).1.is_written = st.is_written ∧
      (mdadm_write_fetch st d b tmp).1.malloc_block = st.malloc_block := by
    intro st d b tmp
    unfold mdadm_write_fetch
    simp only
    split_ifs <;> exact ⟨rfl, rfl, rfl⟩
  obtain ⟨h1, h2, h3⟩ := h v.st v.diskId v.blockId v.tempBuffer
  exact ⟨h1, h2, h3, rfl⟩

/-- One iteration of the write loop on a block of the array. The bytes of the block from
`offset` on get the next bytes of `write_buf`; other blocks are left; the other bytes of the
block are left wherever the cache was coherent with the device; coherence is kept outside
the block, and under the cache invariant it is gained on the whole block. -/
theorem mdadm_write_step_spec (v : WriteVars) (hd : v.diskId < 16) (hb : v.blockId < 256)
    (ho : v.offset < 256) (hwl : v.write_len < 2 ^ 32)
    (hwo : v.offset ≠ 0 → v.write_buff_offset = 0)
    (hsum : v.write_buff_offset + v.write_len < 2 ^ 32) :
    (∀ d1 b1, ¬ (d1 = v.diskId ∧ b1 = v.blockId) →
      (mdadm_write_step v).st.jbod.disks d1 b1 = v.st.jbod.disks d1 b1) ∧
    (∀ i, i < min v.write_len (256 - v.offset) →
      (mdadm_write_step v).st.jbod.disks v.diskId v.blockId (v.offset + i)
        = v.write_buf (v.write_buff_offset + i)) ∧
    (∀ P : Nat → Nat → Nat → Prop, Coh P v.st.jbod.disks v.st.cache →
      (∀ off, off < 256 →
        off < v.offset ∨ v.offset + min v.write_len (256 - v.offset) ≤ off →
        P v.diskId v.blockId off →
        (mdadm_write_step v).st.jbod.disks v.diskId v.blockId off
          = v.st.jbod.disks v.diskId v.blockId off) ∧
      Coh (fun d1 b1 o1 => P d1 b1 o1 ∧ ¬ (d1 = v.diskId ∧ b1 = v.blockId))
        (mdadm_write_step v).st.jbod.disks (mdadm_write_step v).st.cache ∧
      (CacheInv v.st.cache →
        Coh (fun d1 b1 o1 => P d1 b1 o1 ∨ (d1 = v.diskId ∧ b1 = v.blockId))
          (mdadm_write_step v).st.jbod.disks (mdadm_write_step v).st.cache)) := by
  obtain ⟨htmp, _, _⟩ := mdadm_write_step_vars v ho hwl hwo hsum
  have hdisks := mdadm_write_step_disks v hd hb
  have hblock : ∀ off, off < 256 →
      (mdadm_write_step v).st.jbod.disks v.diskId v.blockId off
        = (mdadm_write_step v).tempBuffer off := by
    intro off hoff
    rw [hdisks]
    simp only [and_self, if_true]
    exact memcpy_block _ _ _ hoff
  have hother : ∀ d1 b1, ¬ (d1 = v.diskId ∧ b1 = v.blockId) →
      (mdadm_write_step v).st.jbod.disks d1 b1 = v.st.jbod.disks d1 b1 := by
    intro d1 b1 hne
    rw [hdisks]
    simp only [if_neg hne]
  obtain ⟨hsize, hentries⟩ := mdadm_write_step_cache v hd hb
  refine ⟨hother, ?_, ?_⟩
  · intro i hi
    rw [hblock _ (by omega), htmp, memcpy_at _ _ _ _ _ i hi]
  · intro P hcoh
    refine ⟨?_, ?_, ?_⟩
    · intro off hoff hout hP
      rw [hblock _ hoff, htmp, memcpy_off _ _ _ _ _ off hout]
      exact mdadm_write_fetch_src v.st v.diskId v.blockId v.tempBuffer hd hb P hcoh off hoff hP
    · intro e1 he1 i hi hv d1 b1 hd1 hb1 off hoff hP
      obtain ⟨e, hc, hT1, _⟩ := hentries e1 he1
      rw [hsize] at hi
      rcases hT1 i hi hv with ⟨k1, k2, _⟩ | ⟨hv0, k1, k2, k3⟩
      · exfalso
        apply hP.2
        constructor
        · have : (d1 : Int) = (v.diskId : Int) := by rw [← hd1, k1]
          omega
        · have : (b1 : Int) = (v.blockId : Int) := by rw [← hb1, k2]
          omega
      · rw [k3, hother d1 b1 hP.2]
        exact hcoh e hc i hi hv0 d1 b1 (by rw [← k1, hd1]) (by rw [← k2, hb1]) off hoff hP.1
    · intro hinv e1 he1 i hi hv d1 b1 hd1 hb1 off hoff hP
      obtain ⟨e, hc, hT1, hT2⟩ := hentries e1 he1
      rw [hsize] at hi
      by_cases hkey : d1 = v.diskId ∧ b1 = v.blockId
      · obtain ⟨h1, h2⟩ := hkey
        subst h1 h2
        rw [hblock _ hoff]
        exact hT2 hinv i hi hv hd1 hb1 off hoff
      · rcases hT1 i hi hv with ⟨k1, k2, _⟩ | ⟨hv0, k1, k2, k3⟩
        · exfalso
          apply hkey
          constructor
          · have : (d1 : Int) = (v.diskId : Int) := by rw [← hd1, k1]
            omega
          · have : (b1 : Int) = (v.blockId : Int) := by rw [← hb1, k2]
            omega
        · rw [k3, hother d1 b1 hkey]
          have hP1 : P d1 b1 off := by
            rcases hP with h | h
            · exact h
            · exact absurd h hkey
          exact hcoh e hc i hi hv0 d1 b1 (by rw [← k1, hd1]) (by rw [← k2, hb1]) off hoff hP1

theorem Coh_mono (P Q : Nat → Nat → Nat → Prop) (D : Nat → Nat → Buf) (c : CacheState)
    (h : ∀ d b off, off < 256 → Q d b off → P d b off) (hcoh : Coh P D c) : Coh Q D c := by
  intro e he i hi hv d b hd hb1 off ho hQ
  exact hcoh e he i hi hv d b hd hb1 off ho (h d b off ho hQ)

/-- The write loop on a range of the array, started at the linear address
`A = diskId * 65536 + blockId * 256 + offset`. When it ends: the flags are as before; the
device bytes of the range are the bytes of `write_buf`; the blocks that do not meet the
range are as before; a byte outside the range is as before wherever the cache was coherent
with the device; and under the cache invariant the cache is coherent on the range and
wherever it was. -/
theorem mdadm_write_loop_spec (fuel : Nat) :
    ∀ v w : WriteVars, mdadm_write_loop fuel v = some w →
      v.diskId * 65536 + v.blockId * 256 + v.offset + v.write_len ≤ 1048576 →
      v.blockId < 256 → v.offset < 256 →
      (v.offset ≠ 0 → v.write_buff_offset = 0) →
      v.write_buff_offset + v.write_len < 2 ^ 32 →
      w.st.is_mounted = v.st.is_mounted ∧ w.st.is_written = v.st.is_written ∧
      w.st.malloc_block = v.st.malloc_block ∧
      (∀ i, i < v.write_len →
        dev_byte w.st.jbod.disks (v.diskId * 65536 + v.blockId * 256 + v.offset + i)
          = v.write_buf (v.write_buff_offset + i)) ∧
      (∀ d1 b1, b1 < 256 →
        d1 * 65536 + b1 * 256 + 256 ≤ v.diskId * 65536 + v.blockId * 256 + v.offset ∨
          v.diskId * 65536 + v.blockId * 256 + v.offset + v.write_len
            ≤ d1 * 65536 + b1 * 256 →
        w.st.jbod.disks d1 b1 = v.st.jbod.disks d1 b1) ∧
      (∀ P : Nat → Nat → Nat → Prop, Coh P v.st.jbod.disks v.st.cache →
        (∀ d1 b1 o1, b1 < 256 → o1 < 256 →
          d1 * 65536 + b1 * 256 + o1 < v.diskId * 65536 + v.blockId * 256 + v.offset ∨
            v.diskId * 65536 + v.blockId * 256 + v.offset + v.write_len
              ≤ d1 * 65536 + b1 * 256 + o1 →
          P d1 b1 o1 → w.st.jbod.disks d1 b1 o1 = v.st.jbod.disks d1 b1 o1) ∧
        (CacheInv v.st.cache →
          Coh (fun d1 b1 o1 => P d1 b1 o1 ∨
              (b1 < 256 ∧
                v.diskId * 65536 + v.blockId * 256 + v.offset ≤ d1 * 65536 + b1 * 256 + o1 ∧
                d1 * 65536 + b1 * 256 + o1
                  < v.diskId * 65536 + v.blockId * 256 + v.offset + v.write_len))
            w.st.jbod.disks w.st.cache)) := by
  induction fuel with
  | zero =>
    intro v w h hA hb ho hwo hsum
    simp only [mdadm_write_loop] at h
    split_ifs at h with hz
    simp only [Option.some.injEq] at h
    subst h
    refine ⟨rfl, rfl, rfl, fun i hi => by omega, fun _ _ _ _ => rfl, ?_⟩
    intro P hcoh
    refine ⟨fun _ _ _ _ _ _ _ => rfl, fun _ => ?_⟩
    exact Coh_mono P _ _ _ (fun d b off _ hQ => by
      rcases hQ with h | h
      · exact h
      · omega) hcoh
  | succ n ih =>
    intro v w h hA hb ho hwo hsum
    by_cases hz : v.write_len = 0
    · rw [mdadm_write_loop_zero _ v hz] at h
      simp only [Option.some.injEq] at h
      subst h
      refine ⟨rfl, rfl, rfl, fun i hi => by omega, fun _ _ _ _ => rfl, ?_⟩
      intro P hcoh
      refine ⟨fun _ _ _ _ _ _ _ => rfl, fun _ => ?_⟩
      exact Coh_mono P _ _ _ (fun d b off _ hQ => by
        rcases hQ with h | h
        · exact h
        · omega) hcoh
    · rw [mdadm_write_loop_succ n v hz] at h
      have hd : v.diskId < 16 := by omega
      obtain ⟨_, hwl1, hwo1⟩ := mdadm_write_step_vars v ho (by omega) hwo hsum
      obtain ⟨hfm, hfw, hfh, hfb⟩ := mdadm_write_step_frame v
      obtain ⟨hother, hwritten, hP⟩ := mdadm_write_step_spec v hd hb ho (by omega) hwo hsum
      have hoff : (mdadm_write_step v).offset = 0 := rfl
      have hdid : (mdadm_write_step v).diskId
          = if v.blockId = 255 then (v.diskId + 1) % 256 else v.diskId := rfl
      have hbid : (mdadm_write_step v).blockId
          = if v.blockId = 255 then 0 else (v.blockId + 1) % 256 := rfl
      have hpos : (mdadm_write_step v).diskId * 65536 + (mdadm_write_step v).blockId * 256
          = v.diskId * 65536 + v.blockId * 256 + 256 := by
        rw [hdid, hbid]; split_ifs <;> omega
      have hb1 : (mdadm_write_step v).blockId < 256 := by
        rw [hbid]; split_ifs <;> omega
      obtain ⟨m, hm⟩ : ∃ m, m = min v.write_len (256 - v.offset) := ⟨_, rfl⟩
      rw [← hm] at hwl1 hwo1 hwritten hP
      have hm1 : 0 < m := by omega
      have hm2 : m ≤ v.write_len := by omega
      have hm3 : m ≤ 256 - v.offset := by omega
      have hm4 : m = v.write_len ∨ m = 256 - v.offset := by omega
      obtain ⟨wm, ww, wh, wbytes, wblocks, wP⟩ := ih (mdadm_write_step v) w h
        (by rw [hoff, hwl1]; omega) hb1 (by rw [hoff]; norm_num)
        (fun hne => absurd hoff hne) (by rw [hwl1, hwo1]; omega)
      rw [hoff, hpos, hwl1] at wbytes wblocks wP
      rw [hwo1, hfb] at wbytes
      -- the rest of the loop leaves the first block
      have hfirst : w.st.jbod.disks v.diskId v.blockId
          = (mdadm_write_step v).st.jbod.disks v.diskId v.blockId :=
        wblocks v.diskId v.blockId hb (Or.inl (by omega))
      refine ⟨by rw [wm, hfm], by rw [ww, hfw], by rw [wh, hfh], ?_, ?_, ?_⟩
      · intro i hi
        by_cases him : i < m
        · have e1 : (v.diskId * 65536 + v.blockId * 256 + v.offset + i) / 65536 = v.diskId := by
            omega
          have e2 : (v.diskId * 65536 + v.blockId * 256 + v.offset + i) % 65536 / 256
              = v.blockId := by omega
          have e3 : (v.diskId * 65536 + v.blockId * 256 + v.offset + i) % 256
              = v.offset + i := by omega
          unfold dev_byte
          rw [e1, e2, e3, hfirst]
          exact hwritten i him
        · have key := wbytes (i - m) (by omega)
          have ea : v.diskId * 65536 + v.blockId * 256 + 256 + 0 + (i - m)
              = v.diskId * 65536 + v.blockId * 256 + v.offset + i := by omega
          have eb : v.write_buff_offset + m + (i - m) = v.write_buff_offset + i := by omega
          rw [ea, eb] at key
          exact key
      · intro d1 b1 hb1' hout
        rw [wblocks d1 b1 hb1' (by omega)]
        exact hother d1 b1 (by
          intro ⟨h1, h2⟩
          subst h1 h2
          omega)
      · intro P hcoh
        obtain ⟨hkeep, hminus, hplus⟩ := hP P hcoh
        constructor
        · intro d1 b1 o1 hb1' ho1 hout hPx
          by_cases hkey : d1 = v.diskId ∧ b1 = v.blockId
          · obtain ⟨h1, h2⟩ := hkey
            subst h1 h2
            rw [hfirst]
            exact hkeep o1 ho1 (by omega) hPx
          · rw [← hother d1 b1 hkey]
            exact (wP _ hminus).1 d1 b1 o1 hb1' ho1 (by
              rcases hout with h | h
              · left
                have : d1 * 65536 + b1 * 256 ≠ v.diskId * 65536 + v.blockId * 256 := by
                  intro heq
                  apply hkey
                  constructor <;> omega
                omega
              · right; omega) ⟨hPx, hkey⟩
        · intro hinv
          have hinv1 := mdadm_write_step_inv v hinv
          refine Coh_mono _ _ _ _ ?_ ((wP _ (hplus hinv)).2 hinv1)
          intro d1 b1 o1 ho1 hQ
          rcases hQ with h | ⟨hb1', h1, h2⟩
          · exact Or.inl (Or.inl h)
          · by_cases hkey : d1 = v.diskId ∧ b1 = v.blockId
            · exact Or.inl (Or.inr hkey)
            · right
              have : d1 * 65536 + b1 * 256 ≠ v.diskId * 65536 + v.blockId * 256 := by
                intro heq
                apply hkey
                constructor <;> omega
              refine ⟨hb1', by omega, by omega⟩

/-! ## `mdadm_read` and `mdadm_write` on an accepted request -/

theorem addr_split (a : Nat) (h : a ≤ 1048576) :
    getDiskID a = a / 65536 ∧ getBlockID a (getDiskID a) = a % 65536 / 256 := by
  have h1 : getDiskID a = a / 65536 := by
    simp only [getDiskID, JBOD_BLOCK_SIZE, JBOD_NUM_BLOCKS_PER_DISK]
    omega
  refine ⟨h1, ?_⟩
  rw [h1]
  simp only [getBlockID, sub32, JBOD_BLOCK_SIZE, JBOD_NUM_BLOCKS_PER_DISK]
  omega

theorem CacheInv_of_disabled (c : CacheState) (h : cache_enabled c = false) : CacheInv c := by
  intro e he
  have hs : ¬ 0 < c.cache_size := by
    intro hs
    have := (cache_enabled_iff c).mpr ⟨⟨e, he⟩, hs⟩
    rw [h] at this
    exact absurd this (by simp)
  have hn : c.cache_size.toNat = 0 := by omega
  rw [hn]
  exact ⟨fun i j _ hj => by omega, fun i j hi => by omega⟩

theorem mdadm_read_inv (st : State) (a l : Nat) (buf : Option Buf)
    (r : Int × State × Option Buf) (h : mdadm_read st a l buf = some r)
    (hinv : CacheInv st.cache) : CacheInv r.2.1.cache := by
  unfold mdadm_read at h
  split_ifs at h
  · simp only [Option.some.injEq] at h; subst h; exact hinv
  · simp only [Option.some.injEq] at h; subst h; exact hinv
  · cases buf with
    | none => simp only [Option.some.injEq] at h; subst h; exact hinv
    | some b =>
      simp only at h
      split at h
      · simp at h
      · rename_i w hw
        simp only [Option.some.injEq] at h
        subst h
        exact mdadm_read_loop_inv _ _ w hw hinv

theorem mdadm_write_inv (st : State) (a l : Nat) (buf : Option Buf)
    (r : Int × State) (h : mdadm_write st a l buf = some r)
    (hinv : CacheInv st.cache) : CacheInv r.2.cache := by
  unfold mdadm_write at h
  split_ifs at h
  · simp only [Option.some.injEq] at h; subst h; exact hinv
  · simp only [Option.some.injEq] at h; subst h; exact hinv
  · cases buf with
    | none => simp only [Option.some.injEq] at h; subst h; exact hinv
    | some b =>
      simp only at h
      split at h
      · simp at h
      · rename_i w hw
        simp only [Option.some.injEq] at h
        subst h
        exact mdadm_write_loop_inv _ _ w hw hinv

theorem Reached_inv (st : State) (h : Reached st) : CacheInv st.cache := by
  induction h with
  | create st n h => exact cache_create_inv st.cache n h
  | read st a l buf r _ h ih => exact mdadm_read_inv st a l buf r h ih
  | write st a l buf r _ h ih => exact mdadm_write_inv st a l buf r h ih
  | control st op _ ih => rw [control_step_cache]; exact ih

/-- An accepted `mdadm_write`: it returns `write_len`, the device bytes of the range are the
bytes of the buffer, a byte outside the range is as before wherever the cache was coherent
with the device, and under the cache invariant the cache ends coherent on the range. -/
theorem mdadm_write_spec (st : State) (start_addr write_len : Nat) (buf : Buf)
    (hm : st.is_mounted ≠ 0) (hw : st.is_written ≠ 0) (hl : write_len ≤ 2048)
    (hs : start_addr + write_len ≤ 1048576) :
    ∃ st1, mdadm_write st start_addr write_len (some buf) = some ((write_len : Int), st1) ∧
      st1.is_mounted = st.is_mounted ∧ st1.is_written = st.is_written ∧
      st1.malloc_block = st.malloc_block ∧
      (∀ i, i < write_len → dev_byte st1.jbod.disks (start_addr + i) = buf i) ∧
      (∀ P : Nat → Nat → Nat → Prop, Coh P st.jbod.disks st.cache →
        (∀ d1 b1 o1, b1 < 256 → o1 < 256 →
          d1 * 65536 + b1 * 256 + o1 < start_addr ∨
            start_addr + write_len ≤ d1 * 65536 + b1 * 256 + o1 →
          P d1 b1 o1 → st1.jbod.disks d1 b1 o1 = st.jbod.disks d1 b1 o1) ∧
        (CacheInv st.cache →
          CacheInv st1.cache ∧
          Coh (fun d1 b1 o1 => P d1 b1 o1 ∨
              (b1 < 256 ∧ start_addr ≤ d1 * 65536 + b1 * 256 + o1 ∧
                d1 * 65536 + b1 * 256 + o1 < start_addr + write_len))
            st1.jbod.disks st1.cache)) := by
  obtain ⟨hd, hb⟩ := addr_split start_addr (by omega)
  have hA : getDiskID start_addr * 65536 + getBlockID start_addr (getDiskID start_addr) * 256
      + start_addr % 256 % 256 = start_addr := by
    rw [hb, hd]; omega
  obtain ⟨w, hloop⟩ := mdadm_write_loop_terminates write_len
    { st := st, write_buf := buf, write_len := write_len, write_buff_offset := 0,
      diskId := getDiskID start_addr,
      blockId := getBlockID start_addr (getDiskID start_addr),
      offset := start_addr % 256 % 256, tempBuffer := st.malloc_block }
    (by show start_addr % 256 % 256 < 256; omega) (le_refl _)
    (by show write_len < 2 ^ 32; omega)
  obtain ⟨wm, ww, wh, wbytes, _, wP⟩ := mdadm_write_loop_spec write_len _ w hloop
    (by show getDiskID start_addr * 65536 + getBlockID start_addr (getDiskID start_addr) * 256
          + start_addr % 256 % 256 + write_len ≤ 1048576
        rw [hA]; exact hs)
    (by show getBlockID start_addr (getDiskID start_addr) < 256
        rw [hb]; omega)
    (by show start_addr % 256 % 256 < 256; omega)
    (fun _ => rfl)
    (by show 0 + write_len < 2 ^ 32; omega)
  simp only [hA, Nat.zero_add] at wbytes wP
  refine ⟨w.st, ?_, wm, ww, wh, wbytes, ?_⟩
  · unfold mdadm_write
    rw [if_neg (by simp), if_neg (by
      simp only [Option.isNone_some, not_or]
      refine ⟨hm, hw, by omega, by omega, by simp⟩)]
    simp only [hloop]
  · intro P hcoh
    obtain ⟨h1, h2⟩ := wP P hcoh
    refine ⟨h1, fun hinv => ⟨mdadm_write_loop_inv _ _ w hloop hinv, h2 hinv⟩⟩

/-- An accepted `mdadm_read`: it returns `read_len`, leaves the device contents and the
flags, keeps coherence, and the buffer gets the device bytes of the range wherever the
cache is coherent with the device. -/
theorem mdadm_read_spec (st : State) (start_addr read_len : Nat) (buf : Buf)
    (P : Nat → Nat → Nat → Prop)
    (hm : st.is_mounted ≠ 0) (hl : read_len ≤ 2048)
    (hs : start_addr + read_len ≤ 1048576) (hcoh : Coh P st.jbod.disks st.cache) :
    ∃ st1 out, mdadm_read st start_addr read_len (some buf)
        = some ((read_len : Int), st1, some out) ∧
      st1.jbod.disks = st.jbod.disks ∧
      st1.is_mounted = st.is_mounted ∧ st1.is_written = st.is_written ∧
      Coh P st.jbod.disks st1.cache ∧
      (∀ i, i < read_len →
        P ((start_addr + i) / 65536) ((start_addr + i) % 65536 / 256)
          ((start_addr + i) % 256) →
        out i = dev_byte st.jbod.disks (start_addr + i)) ∧
      (∀ j, read_len ≤ j → out j = buf j) := by
  obtain ⟨hd, hb⟩ := addr_split start_addr (by omega)
  have hA : getDiskID start_addr * 65536 + getBlockID start_addr (getDiskID start_addr) * 256
      + start_addr % 256 = start_addr := by
    rw [hb, hd]; omega
  obtain ⟨w, hloop, wd, wm, ww, _, wcoh, wbytes, wframe⟩ :=
    mdadm_read_loop_spec P read_len
      { st := st, read_buf := buf, read_bytes := read_len, current_pos := 0,
        diskId := getDiskID start_addr,
        blockId := getBlockID start_addr (getDiskID start_addr),
        offset := start_addr % 256, tempBuffer := st.malloc_block }
      (by show getDiskID start_addr * 65536
            + getBlockID start_addr (getDiskID start_addr) * 256
            + start_addr % 256 + read_len ≤ 1048576
          rw [hA]; exact hs)
      (by show getBlockID start_addr (getDiskID start_addr) < 256
          rw [hb]; omega)
      (by show start_addr % 256 < 256; omega)
      (le_refl _) hcoh
  simp only [hA, Nat.zero_add] at wbytes wframe
  refine ⟨w.st, w.read_buf, ?_, wd, wm, ww, wcoh, wbytes, ?_⟩
  · unfold mdadm_read
    rw [if_neg (by simp), if_neg (by
      simp only [Option.isNone_some, not_or]
      refine ⟨hm, by omega, by omega, by omega, by simp⟩)]
    simp only [hloop]
  · intro j hj
    exact wframe j (Or.inr hj)

/-! ## The contracts of `mdadm_read` and `mdadm_write` -/

theorem Reached_after_read (st : State) (a l : Nat) (buf : Buf) (h : Reached st) :
    Reached (state_after_read st a l buf) := by
  unfold state_after_read
  split
  · rename_i r hr
    exact Reached.read st a l (some buf) r h hr
  · exact h

theorem Reached_after_write (st : State) (a l : Nat) (buf : Buf) (h : Reached st) :
    Reached (state_after_write st a l buf) := by
  unfold state_after_write
  split
  · rename_i r hr
    exact Reached.write st a l (some buf) r h hr
  · exact h

theorem Reached_cached_state : Reached cached_state :=
  Reached.create ready_state 2 (by decide)

theorem Coherent_cached_state : Coherent cached_state := by
  intro e he i hi hv
  have h : cached_state.cache.cache = some (fun _ => zero_entry) := rfl
  rw [h] at he
  simp only [Option.some.injEq] at he
  subst he
  simp [zero_entry] at hv

/-- C1. Read/write round trip: in every state that is mounted with write permission, with
the cache disabled or enabled and reached only through `mdadm_read`/`mdadm_write` since
`cache_create`, for `len ≤ 2048` and `start_addr + len ≤ 1,048,576`,
`mdadm_write(start_addr, len, buf)` followed by `mdadm_read(start_addr, len, out)` returns
`len` both times and leaves the first `len` bytes of `out` equal to those of `buf`. -/
theorem write_read_round_trip (st : State) (start_addr len : Nat) (buf out0 : Buf)
    (hm : st.is_mounted = 1) (hw : st.is_written = 1)
    (hc : cache_enabled st.cache = false ∨ Reached st)
    (hl : len ≤ 2048) (hs : start_addr + len ≤ 1048576) :
    ∃ st1 st2 out,
      mdadm_write st start_addr len (some buf) = some ((len : Int), st1) ∧
      mdadm_read st1 start_addr len (some out0) = some ((len : Int), st2, some out) ∧
      ∀ i, i < len → out i = buf i := by
  have hinv : CacheInv st.cache := by
    rcases hc with h | h
    · exact CacheInv_of_disabled _ h
    · exact Reached_inv st h
  have hcoh0 : Coh (fun _ _ _ => False) st.jbod.disks st.cache :=
    fun e he i hi hv d b hd hb off ho hP => absurd hP (by simp)
  obtain ⟨st1, hwr, wm, _, _, wbytes, wP⟩ :=
    mdadm_write_spec st start_addr len buf (by rw [hm]; decide) (by rw [hw]; decide) hl hs
  obtain ⟨_, hcoh1⟩ := (wP _ hcoh0).2 hinv
  obtain ⟨st2, out, hrd, _, _, _, _, rbytes, _⟩ :=
    mdadm_read_spec st1 start_addr len out0 _ (by rw [wm, hm]; decide) hl hs hcoh1
  refine ⟨st1, st2, out, hwr, hrd, ?_⟩
  intro i hi
  rw [rbytes i hi (Or.inr ⟨by omega, by omega, by omega⟩)]
  exact wbytes i hi

/-- C1, at a mounted state with write permission and a fresh cache of two entries: 100
bytes written at address 440 are read back. -/
theorem write_read_round_trip_witness :
    ∃ st1 st2 out,
      mdadm_write cached_state 440 100 (some count_buf) = some (((100 : Nat) : Int), st1) ∧
      mdadm_read st1 440 100 (some nines) = some (((100 : Nat) : Int), st2, some out) ∧
      ∀ i, i < 100 → out i = count_buf i :=
  write_read_round_trip cached_state 440 100 count_buf nines (by decide) (by decide)
    (Or.inr Reached_cached_state) (by norm_num) (by norm_num)

/-- C2 as stated fails: in `stale_state` (mounted, write permission, the cache holding 7s
for disk 0 block 1 while the device holds zeros) the 100-byte write at address 440 is
accepted and returns 100, and the device byte at linear address 256 (disk 0 block 1
byte 0), which lies outside [440, 540), changes from 0 to 7. -/
theorem write_is_splice_counterexample :
    stale_state.is_mounted = 1 ∧ stale_state.is_written = 1 ∧
    dev_byte stale_state.jbod.disks 256 = 0 ∧
    (mdadm_write stale_state 440 100 (some count_buf)).map
      (fun r => (r.1, dev_byte r.2.jbod.disks 256)) = some (100, 7) := by
  decide

/-- C2 (amended). Write is a splice on the linear address space: in a state that is mounted
with write permission, whose cache is disabled or holds in every valid entry the current
content of the device block the entry is keyed by, every `mdadm_write(start_addr, len,
buf)` with `len ≤ 2048` and `start_addr + len ≤ 1,048,576` returns `len`, and afterwards the
device byte at linear address `a` is `buf[a - start_addr]` for `a` in
`[start_addr, start_addr + len)` and its previous value for every other `a` below
1,048,576. In particular the write of 100 bytes at address 440 sets bytes [184, 256) of
disk 0 block 1 and bytes [0, 28) of disk 0 block 2 and leaves every other byte of the
array. -/
theorem write_is_splice (st : State) (buf : Buf)
    (hm : st.is_mounted = 1) (hw : st.is_written = 1)
    (hc : cache_enabled st.cache = false ∨ Coherent st) :
    (∀ start_addr len : Nat, len ≤ 2048 → start_addr + len ≤ 1048576 →
      ∃ st1, mdadm_write st start_addr len (some buf) = some ((len : Int), st1) ∧
        ∀ a, a < 1048576 →
          dev_byte st1.jbod.disks a
            = if start_addr ≤ a ∧ a < start_addr + len then buf (a - start_addr)
              else dev_byte st.jbod.disks a) ∧
    (∃ st1, mdadm_write st 440 100 (some buf) = some (100, st1) ∧
      ∀ d b off, d < 16 → b < 256 → off < 256 →
        st1.jbod.disks d b off
          = if d = 0 ∧ b = 1 ∧ 184 ≤ off then buf (off - 184)
            else if d = 0 ∧ b = 2 ∧ off < 28 then buf (off + 72)
            else st.jbod.disks d b off) := by
  have hcoh : Coh (fun _ _ _ => True) st.jbod.disks st.cache := by
    rcases hc with h | h
    · exact Coh_of_disabled _ _ _ h
    · exact h
  have general : ∀ start_addr len : Nat, len ≤ 2048 → start_addr + len ≤ 1048576 →
      ∃ st1, mdadm_write st start_addr len (some buf) = some ((len : Int), st1) ∧
        ∀ a, a < 1048576 →
          dev_byte st1.jbod.disks a
            = if start_addr ≤ a ∧ a < start_addr + len then buf (a - start_addr)
              else dev_byte st.jbod.disks a := by
    intro start_addr len hl hs
    obtain ⟨st1, hwr, _, _, _, wbytes, wP⟩ :=
      mdadm_write_spec st start_addr len buf (by rw [hm]; decide) (by rw [hw]; decide) hl hs
    refine ⟨st1, hwr, ?_⟩
    intro a ha
    by_cases hin : start_addr ≤ a ∧ a < start_addr + len
    · rw [if_pos hin]
      have := wbytes (a - start_addr) (by omega)
      rw [show start_addr + (a - start_addr) = a by omega] at this
      exact this
    · rw [if_neg hin]
      unfold dev_byte
      exact (wP _ hcoh).1 (a / 65536) (a % 65536 / 256) (a % 256) (by omega) (by omega)
        (by omega) trivial
  refine ⟨general, ?_⟩
  obtain ⟨st1, hwr, hbytes⟩ := general 440 100 (by norm_num) (by norm_num)
  refine ⟨st1, hwr, ?_⟩
  intro d b off hd hb ho
  have key := hbytes (d * 65536 + b * 256 + off) (by omega)
  unfold dev_byte at key
  rw [show (d * 65536 + b * 256 + off) / 65536 = d by omega,
    show (d * 65536 + b * 256 + off) % 65536 / 256 = b by omega,
    show (d * 65536 + b * 256 + off) % 256 = off by omega] at key
  rw [key]
  by_cases h1 : d = 0 ∧ b = 1 ∧ 184 ≤ off
  · have c1 : 440 ≤ d * 65536 + b * 256 + off ∧ d * 65536 + b * 256 + off < 440 + 100 := by
      omega
    have e1 : d * 65536 + b * 256 + off - 440 = off - 184 := by omega
    rw [if_pos c1, if_pos h1, e1]
  · rw [if_neg h1]
    by_cases h2 : d = 0 ∧ b = 2 ∧ off < 28
    · have c1 : 440 ≤ d * 65536 + b * 256 + off ∧ d * 65536 + b * 256 + off < 440 + 100 := by
        omega
      have e1 : d * 65536 + b * 256 + off - 440 = off + 72 := by omega
      rw [if_pos c1, if_pos h2, e1]
    · have c1 : ¬ (440 ≤ d * 65536 + b * 256 + off ∧
          d * 65536 + b * 256 + off < 440 + 100) := by
        omega
      rw [if_neg h2, if_neg c1]

/-- C2 (amended), at a mounted state with write permission and a fresh cache: the write of
100 bytes at address 440 returns 100 and changes the device on [440, 540) only. -/
theorem write_is_splice_witness :
    ∃ st1, mdadm_write cached_state 440 100 (some count_buf) = some (((100 : Nat) : Int), st1) ∧
      ∀ a, a < 1048576 →
        dev_byte st1.jbod.disks a
          = if 440 ≤ a ∧ a < 440 + 100 then count_buf (a - 440)
            else dev_byte cached_state.jbod.disks a :=
  (write_is_splice cached_state count_buf (by decide) (by decide)
    (Or.inr Coherent_cached_state)).1 440 100 (by norm_num) (by norm_num)

/-- C3, at the failing input: `wrapped_state` is reached from `cache_create(2)` by
`mdadm_read(1048575, 1, _)` and `mdadm_write(4294967295, 2, nines)`; it is mounted, its
device byte at linear address 1,048,575 is 9, and `mdadm_read(1048575, 1, out)` returns 1
with `out[0] = 0`, the stale byte of the cache entry for disk 15 block 255. -/
theorem read_returns_stale_byte :
    Reached wrapped_state ∧ wrapped_state.is_mounted = 1 ∧
    dev_byte wrapped_state.jbod.disks 1048575 = 9 ∧
    (mdadm_read wrapped_state 1048575 1 (some sevens)).map
      (fun r => (r.1, r.2.2.map (fun out => out 0), dev_byte r.2.1.jbod.disks 1048575))
      = some (1, some 0, 9) :=
  ⟨Reached_after_write _ _ _ _ (Reached_after_read _ _ _ _ Reached_cached_state),
    by decide, by decide, by decide⟩

/-! ## The cache lifecycle, the counters and the id ranges -/

/-- C12. Cache lifecycle: `cache_create(n)` fails (returns -1, state untouched) if and only
if the cache is already enabled or `n < 2` or `n > 4096`, and otherwise returns 1 and leaves
the cache enabled with size `n` and every entry invalid; `cache_destroy` fails (returns -1,
state untouched) if and only if the cache is not enabled, and otherwise returns 1 and
leaves the cache disabled. Hence a create after a successful create fails, a destroy of a
disabled cache fails, and a create with a size in range succeeds after a successful
destroy. -/
theorem cache_lifecycle (c : CacheState) (n m : Int) :
    ((cache_create c n).1 = -1 ↔ (cache_enabled c = true ∨ n < 2 ∨ n > 4096)) ∧
    ((cache_create c n).1 = -1 → (cache_create c n).2 = c) ∧
    ((cache_create c n).1 ≠ -1 →
      (cache_create c n).1 = 1 ∧ cache_enabled (cache_create c n).2 = true ∧
      (cache_create c n).2.cache_size = n ∧
      ∃ e, (cache_create c n).2.cache = some e ∧ ∀ i, (e i).valid = false) ∧
    ((cache_destroy c).1 = -1 ↔ cache_enabled c = false) ∧
    ((cache_destroy c).1 = -1 → (cache_destroy c).2 = c) ∧
    ((cache_destroy c).1 ≠ -1 →
      (cache_destroy c).1 = 1 ∧ cache_enabled (cache_destroy c).2 = false) ∧
    ((cache_create c n).1 = 1 → (cache_create (cache_create c n).2 m).1 = -1) ∧
    (cache_enabled c = false → (cache_destroy c).1 = -1) ∧
    ((cache_destroy c).1 = 1 → 2 ≤ n → n ≤ 4096 →
      (cache_create (cache_destroy c).2 n).1 = 1) := by
  have hcreate : ∀ (c : CacheState) (n : Int),
      ((cache_enabled c = true ∨ n < 2 ∨ n > 4096) → cache_create c n = (-1, c)) ∧
      (¬ (cache_enabled c = true ∨ n < 2 ∨ n > 4096) →
        cache_create c n
          = (1, { c with cache := some (fun _ => zero_entry), cache_size := n })) := by
    intro c n
    unfold cache_create
    constructor
    · intro h; rw [if_pos h]
    · intro h; rw [if_neg h]
  have hdestroy : ∀ c : CacheState,
      (cache_enabled c = false → cache_destroy c = (-1, c)) ∧
      (cache_enabled c = true →
        cache_destroy c = (1, { c with cache := none, cache_size := 0 })) := by
    intro c
    unfold cache_destroy
    constructor
    · intro h; simp [h]
    · intro h; simp [h]
  have hen : ∀ (c : CacheState) (n : Int), ¬ (cache_enabled c = true ∨ n < 2 ∨ n > 4096) →
      cache_enabled (cache_create c n).2 = true := by
    intro c n h
    rw [(hcreate c n).2 h]
    simp only [not_or, not_lt] at h
    exact (cache_enabled_iff _).mpr ⟨⟨_, rfl⟩, by show 0 < n; omega⟩
  have hdis : ∀ c : CacheState, cache_enabled c = true →
      cache_enabled (cache_destroy c).2 = false := by
    intro c h
    rw [(hdestroy c).2 h]
    rfl
  refine ⟨?_, ?_, ?_, ?_, ?_, ?_, ?_, ?_, ?_⟩
  · constructor
    · intro h
      by_contra hc
      rw [(hcreate c n).2 hc] at h
      simp at h
    · intro h
      rw [(hcreate c n).1 h]
  · intro h
    by_cases hc : cache_enabled c = true ∨ n < 2 ∨ n > 4096
    · rw [(hcreate c n).1 hc]
    · rw [(hcreate c n).2 hc] at h
      simp at h
  · intro h
    have hc : ¬ (cache_enabled c = true ∨ n < 2 ∨ n > 4096) := by
      intro hc
      exact h (by rw [(hcreate c n).1 hc])
    refine ⟨by rw [(hcreate c n).2 hc], hen c n hc, by rw [(hcreate c n).2 hc], ?_⟩
    rw [(hcreate c n).2 hc]
    exact ⟨_, rfl, fun i => rfl⟩
  · constructor
    · intro h
      by_contra hc
      have hc1 : cache_enabled c = true := by simpa using hc
      rw [(hdestroy c).2 hc1] at h
      simp at h
    · intro h
      rw [(hdestroy c).1 h]
  · intro h
    by_cases hc : cache_enabled c = true
    · rw [(hdestroy c).2 hc] at h
      simp at h
    · have hc1 : cache_enabled c = false := by simpa using hc
      rw [(hdestroy c).1 hc1]
  · intro h
    have hc : cache_enabled c = true := by
      by_contra hc
      have hc1 : cache_enabled c = false := by simpa using hc
      exact h (by rw [(hdestroy c).1 hc1])
    exact ⟨by rw [(hdestroy c).2 hc], hdis c hc⟩
  · intro h
    have hc : ¬ (cache_enabled c = true ∨ n < 2 ∨ n > 4096) := by
      intro hc
      rw [(hcreate c n).1 hc] at h
      simp at h
    rw [(hcreate _ m).1 (Or.inl (hen c n hc))]
  · intro h
    rw [(hdestroy c).1 h]
  · intro h h1 h2
    have hc : cache_enabled c = true := by
      by_contra hc
      have hc1 : cache_enabled c = false := by simpa using hc
      rw [(hdestroy c).1 hc1] at h
      simp at h
    rw [(hcreate _ n).2 (by
      simp only [not_or, not_lt]
      exact ⟨by simp [hdis c hc], h1, h2⟩)]

/-- C12, at program start: `cache_create(2)` succeeds, a second create then fails, a destroy
before any create fails, and after create and destroy a `cache_create(4096)` succeeds. -/
theorem cache_lifecycle_witness :
    ((cache_create init_cache 2).1 = 1 ∧ cache_enabled (cache_create init_cache 2).2 = true ∧
      (cache_create init_cache 2).2.cache_size = 2 ∧
      ∃ e, (cache_create init_cache 2).2.cache = some e ∧ ∀ i, (e i).valid = false) ∧
    (cache_create (cache_create init_cache 2).2 7).1 = -1 ∧
    (cache_destroy init_cache).1 = -1 ∧
    (cache_create (cache_destroy fresh_cache).2 4096).1 = 1 :=
  ⟨(cache_lifecycle init_cache 2 7).2.2.1 (by decide),
   (cache_lifecycle init_cache 2 7).2.2.2.2.2.2.1 (by decide),
   (cache_lifecycle init_cache 2 7).2.2.2.2.2.2.2.1 (by decide),
   (cache_lifecycle fresh_cache 4096 7).2.2.2.2.2.2.2.2 (by decide) (by decide) (by decide)⟩

/-- C13 as stated fails: from program start, after `cache_create(2)`, one
`cache_lookup(0, 0, _)`, `cache_destroy()` and a second, successful `cache_create(2)`, the
counter of queries is 1, not 0. -/
theorem counters_lifetime_counterexample :
    (cache_destroy (cache_lookup fresh_cache 0 0 (some nines)).2.1).1 = 1 ∧
    (cache_create (cache_destroy (cache_lookup fresh_cache 0 0 (some nines)).2.1).2 2).1 = 1 ∧
    recreated_cache.num_queries = 1 ∧ recreated_cache.num_hits = 0 := by
  decide

/-- C13 (amended). The counters belong to the program run, not to one cache lifetime: they
are zero at program start, and `cache_create`, `cache_destroy`, `cache_insert` and
`cache_update` leave `num_queries` and `num_hits` as they are, whatever their arguments
and result; `cache_destroy` discards the entries only. -/
theorem counters_lifetime (c : CacheState) (n d b : Int) (buf : Option Buf) (p : Buf) :
    (init_cache.num_queries = 0 ∧ init_cache.num_hits = 0) ∧
    ((cache_create c n).2.num_queries = c.num_queries ∧
      (cache_create c n).2.num_hits = c.num_hits) ∧
    ((cache_destroy c).2.num_queries = c.num_queries ∧
      (cache_destroy c).2.num_hits = c.num_hits ∧
      ((cache_destroy c).1 = 1 → (cache_destroy c).2.cache = none)) ∧
    ((cache_insert c d b buf).2.num_queries = c.num_queries ∧
      (cache_insert c d b buf).2.num_hits = c.num_hits) ∧
    ((cache_update c d b p).num_queries = c.num_queries ∧
      (cache_update c d b p).num_hits = c.num_hits) := by
  refine ⟨⟨rfl, rfl⟩, ?_, ?_, ?_, ?_⟩
  · unfold cache_create
    split_ifs <;> exact ⟨rfl, rfl⟩
  · unfold cache_destroy
    split_ifs
    · exact ⟨rfl, rfl, fun h => by simp at h⟩
    · exact ⟨rfl, rfl, fun _ => rfl⟩
  · rcases cache_insert_cases c d b buf with h | ⟨e, bb, k, _, _, _, heq, _, _⟩
    · rw [h]; exact ⟨rfl, rfl⟩
    · rw [heq]; exact ⟨rfl, rfl⟩
  · rcases cache_update_cases c d b p with h | ⟨e, k, _, _, _, _, _, heq⟩
    · rw [h]; exact ⟨rfl, rfl⟩
    · rw [heq]; exact ⟨rfl, rfl⟩

/-- C14, at the failing inputs: on the enabled, empty cache of two entries,
`cache_insert(16, 0, buf)` and `cache_insert(0, 256, buf)` return 1 and make slot 0 valid,
and `cache_lookup(16, 0, buf)` and `cache_lookup(0, 256, buf)` count a query, although disk
16 and block 256 are out of range. -/
theorem id_range_off_by_one :
    cache_enabled fresh_cache = true ∧
    (cache_insert fresh_cache 16 0 (some nines)).1 = 1 ∧
    (cache_insert fresh_cache 16 0 (some nines)).2.cache.map
      (fun e => ((e 0).valid, (e 0).disk_num, (e 0).block_num)) = some (true, 16, 0) ∧
    (cache_insert fresh_cache 0 256 (some nines)).1 = 1 ∧
    (cache_insert fresh_cache 0 256 (some nines)).2.cache.map
      (fun e => ((e 0).valid, (e 0).disk_num, (e 0).block_num)) = some (true, 0, 256) ∧
    fresh_cache.num_queries = 0 ∧
    (cache_lookup fresh_cache 16 0 (some nines)).2.1.num_queries = 1 ∧
    (cache_lookup fresh_cache 0 256 (some nines)).2.1.num_queries = 1 := by
  decide

/-- C15. Address translation: for every linear address `a < 1,048,576`, `getDiskID(a)` is
`a / 65536`, `getBlockID(a, getDiskID(a))` is `(a mod 65536) / 256`, the offset that
`mdadm_read` and `mdadm_write` start their loop with is `a mod 256`; the disk is below 16,
the block below 256, and `disk * 65536 + block * 256 + offset = a`. -/
theorem address_translation (a : Nat) (h : a < 1048576) :
    getDiskID a = a / 65536 ∧
    getBlockID a (getDiskID a) = a % 65536 / 256 ∧
    (∀ st len buf, (mdadm_read_init st a len buf).offset = a % 256 ∧
      (mdadm_read_init st a len buf).diskId = getDiskID a ∧
      (mdadm_read_init st a len buf).blockId = getBlockID a (getDiskID a)) ∧
    (∀ st len buf, (mdadm_write_init st a len buf).offset = a % 256 ∧
      (mdadm_write_init st a len buf).diskId = getDiskID a ∧
      (mdadm_write_init st a len buf).blockId = getBlockID a (getDiskID a)) ∧
    getDiskID a < 16 ∧ getBlockID a (getDiskID a) < 256 ∧ a % 256 < 256 ∧
    getDiskID a * 65536 + getBlockID a (getDiskID a) * 256 + a % 256 = a := by
  obtain ⟨hd, hb⟩ := addr_split a (by omega)
  refine ⟨hd, hb, fun st len buf => ⟨rfl, rfl, rfl⟩, fun st len buf => ⟨?_, rfl, rfl⟩, ?_, ?_,
    ?_, ?_⟩
  · show a % 256 % 256 = a % 256
    omega
  · rw [hd]; omega
  · rw [hb]; omega
  · omega
  · rw [hb, hd]; omega

/-- C15, at address 440: disk 0, block 1, offset 184. -/
theorem address_translation_witness :
    getDiskID 440 = 440 / 65536 ∧
    getBlockID 440 (getDiskID 440) = 440 % 65536 / 256 ∧
    (∀ st len buf, (mdadm_read_init st 440 len buf).offset = 440 % 256 ∧
      (mdadm_read_init st 440 len buf).diskId = getDiskID 440 ∧
      (mdadm_read_init st 440 len buf).blockId = getBlockID 440 (getDiskID 440)) ∧
    (∀ st len buf, (mdadm_write_init st 440 len buf).offset = 440 % 256 ∧
      (mdadm_write_init st 440 len buf).diskId = getDiskID 440 ∧
      (mdadm_write_init st 440 len buf).blockId = getBlockID 440 (getDiskID 440)) ∧
    getDiskID 440 < 16 ∧ getBlockID 440 (getDiskID 440) < 256 ∧ 440 % 256 < 256 ∧
    getDiskID 440 * 65536 + getBlockID 440 (getDiskID 440) * 256 + 440 % 256 = 440 :=
  address_translation 440 (by norm_num)

/-- C16, at the failing input: `op_creator(0, 0, 64, 0)` is 262144, the word with bit 18
set, so its 14 reserved bits [18:32) are not zero (they hold 1), while its command bits
[12:18) hold 0, the low 6 bits of 64. -/
theorem op_creator_sets_reserved_bit :
    op_creator 0 0 64 0 = 262144 ∧ op_creator 0 0 64 0 / 2 ^ 18 % 2 ^ 14 = 1 ∧
    op_creator 0 0 64 0 / 2 ^ 12 % 2 ^ 6 = 0 := by
  decide

/-- C18, at the failing input: in the fresh cache of two entries no entry is valid, yet
`cache_update(0, 0, nines)` overwrites the payload of slot 0 with 9s and raises its access
count from 0 to 1 (the zeroed slot carries disk 0, block 0, and `cache_update` does not
look at `valid`). -/
theorem cache_update_touches_invalid_slot :
    cache_enabled fresh_cache = true ∧
    fresh_cache.cache.map
      (fun e => ((e 0).valid, (e 1).valid, (e 0).block 0, (e 0).num_accesses))
      = some (false, false, 0, 0) ∧
    (cache_update fresh_cache 0 0 nines).cache.map
      (fun e => ((e 0).valid, (e 1).valid, (e 0).block 0, (e 0).num_accesses))
      = some (false, false, 9, 1) := by
  decide

/-- C19, at the failing input: `wrapped_state` is reached from `cache_create(2)` by
`mdadm_read(1048575, 1, _)` and `mdadm_write(4294967295, 2, nines)`; its cache slot 0 is
valid and keyed by disk 15 block 255 with payload byte 255 equal to 0, while byte 255 of
the device block of disk 15 block 255 is 9. -/
theorem cache_incoherent_after_wrapped_write :
    Reached wrapped_state ∧
    wrapped_state.cache.cache.map
      (fun e => ((e 0).valid, (e 0).disk_num, (e 0).block_num, (e 0).block 255))
      = some (true, 15, 255, 0) ∧
    wrapped_state.jbod.disks 15 255 255 = 9 :=
  ⟨Reached_after_write _ _ _ _ (Reached_after_read _ _ _ _ Reached_cached_state),
    by decide, by decide⟩

/-- C13 (amended), at the cache that has counted one query: `cache_destroy` succeeds,
discards the entries and keeps the count, and so does the `cache_create` after it. -/
theorem counters_lifetime_witness :
    (cache_destroy (cache_lookup fresh_cache 0 0 (some nines)).2.1).2.cache = none ∧
    (cache_destroy (cache_lookup fresh_cache 0 0 (some nines)).2.1).2.num_queries
      = (cache_lookup fresh_cache 0 0 (some nines)).2.1.num_queries ∧
    (cache_lookup fresh_cache 0 0 (some nines)).2.1.num_queries = 1 :=
  ⟨(counters_lifetime (cache_lookup fresh_cache 0 0 (some nines)).2.1 2 0 0 none nines).2.2.1.2.2
      (by decide),
   (counters_lifetime (cache_lookup fresh_cache 0 0 (some nines)).2.1 2 0 0 none nines).2.2.1.1,
   by decide⟩

/-! ## Lookup and the valid prefix in reachable cache states -/

theorem CacheReach_enabled (c : CacheState) (hr : CacheReach c) :
    ∃ e, c.cache = some e ∧ 2 ≤ c.cache_size := by
  induction hr with
  | create c n h =>
    unfold cache_create at h ⊢
    split_ifs at h ⊢ with h1
    · simp at h
    · simp only [not_or, not_lt] at h1
      exact ⟨_, rfl, h1.2.1⟩
  | insert c d b buf _ ih =>
    obtain ⟨e, he, hs⟩ := ih
    rcases cache_insert_cases c d b buf with h | ⟨e1, bb, k, _, _, _, heq, _, _⟩
    · rw [h]; exact ⟨e, he, hs⟩
    · rw [heq]; exact ⟨_, rfl, hs⟩
  | lookup c d b buf _ ih =>
    obtain ⟨e, he, hs⟩ := ih
    rcases cache_lookup_cases c d b buf with ⟨_, _, h3, h4⟩ | ⟨e1, bb, k, _, _, _, _, _, _, _, heq⟩
    · rw [h3, h4]; exact ⟨e, he, hs⟩
    · rw [heq]; exact ⟨_, rfl, hs⟩
  | update c d b buf _ ih =>
    obtain ⟨e, he, hs⟩ := ih
    rcases cache_update_cases c d b buf with h | ⟨e1, k, _, _, _, _, _, heq⟩
    · rw [h]; exact ⟨e, he, hs⟩
    · rw [heq]; exact ⟨_, rfl, hs⟩

/-- An `int` below `INT_MAX` is raised by one by an increment. -/
theorem wrap_int_succ (x : Int) (h1 : -2147483648 ≤ x) (h2 : x < 2147483647) :
    wrap_int (x + 1) = x + 1 := by
  unfold wrap_int
  omega

/-- An increment of `INT_MAX` gives `INT_MIN`. -/
theorem wrap_int_max : wrap_int (2147483647 + 1) = -2147483648 := by decide

/-- A lookup increments `num_hits` exactly when it reports a hit, and then it increments
`num_queries` too; otherwise `num_queries` stays or is incremented. -/
theorem cache_lookup_counters (c : CacheState) (d b : Int) (buf : Option Buf) :
    ((cache_lookup c d b buf).2.1.num_hits = wrap_int (c.num_hits + 1) ∧
      (cache_lookup c d b buf).2.1.num_queries = wrap_int (c.num_queries + 1)) ∨
    ((cache_lookup c d b buf).2.1.num_hits = c.num_hits ∧
      ((cache_lookup c d b buf).2.1.num_queries = c.num_queries ∨
        (cache_lookup c d b buf).2.1.num_queries = wrap_int (c.num_queries + 1))) := by
  by_cases h : cache_enabled c = false ∨ d > 16 ∨ d < 0 ∨ b > 256 ∨ b < 0 ∨ buf = none
  · rw [cache_lookup_fail c d b buf h]
    exact Or.inr ⟨rfl, Or.inl rfl⟩
  · simp only [not_or, not_lt, Bool.not_eq_false, gt_iff_lt] at h
    obtain ⟨hen, hd1, hd0, hb1, hb0, hbuf⟩ := h
    obtain ⟨⟨e, hc⟩, hs⟩ := (cache_enabled_iff c).mp hen
    obtain ⟨bb, rfl⟩ := Option.ne_none_iff_exists'.mp hbuf
    rw [cache_lookup_eq c e d b bb hc hs hd0 hd1 hb0 hb1]
    cases cache_lookup_scan e d b c.cache_size.toNat 0 with
    | none => exact Or.inr ⟨rfl, Or.inr rfl⟩
    | some k => exact Or.inl ⟨rfl, rfl⟩

/-- In a run without a lookup at `num_queries = INT_MAX` the two counters stay between 0
and `INT_MAX` and `num_hits` never exceeds `num_queries`. -/
theorem CacheRunNoWrap_counters (c : CacheState) (hr : CacheRunNoWrap c) :
    0 ≤ c.num_hits ∧ c.num_hits ≤ c.num_queries ∧ c.num_queries ≤ 2147483647 := by
  induction hr with
  | start => decide
  | create c n _ ih =>
    unfold cache_create
    split_ifs <;> exact ih
  | destroy c _ ih =>
    unfold cache_destroy
    split_ifs <;> exact ih
  | insert c d b buf _ ih =>
    rcases cache_insert_cases c d b buf with h | ⟨e1, bb, k, _, _, _, heq, _, _⟩
    · rw [h]; exact ih
    · rw [heq]; exact ih
  | lookup c d b buf _ hlt ih =>
    have hq := wrap_int_succ c.num_queries (by omega) hlt
    have hh := wrap_int_succ c.num_hits (by omega) (by omega)
    rcases cache_lookup_counters c d b buf with ⟨h1, h2⟩ | ⟨h1, h2 | h2⟩
    · rw [h1, h2, hq, hh]; omega
    · rw [h1, h2]; exact ih
    · rw [h1, h2, hq]; omega
  | update c d b buf _ ih =>
    rcases cache_update_cases c d b buf with h | ⟨e1, k, _, _, _, _, _, heq⟩
    · rw [h]; exact ih
    · rw [heq]; exact ih

/-- In a run without a lookup at `num_queries = INT_MAX`, a lookup with `num_queries`
below `INT_MAX` keeps `num_hits ≤ num_queries`. -/
theorem CacheRunNoWrap_lookup (c : CacheState) (hr : CacheRunNoWrap c) (d b : Int)
    (buf : Option Buf) (hlt : c.num_queries < 2147483647) :
    (cache_lookup c d b buf).2.1.num_hits ≤ (cache_lookup c d b buf).2.1.num_queries :=
  (CacheRunNoWrap_counters _ (CacheRunNoWrap.lookup c d b buf hr hlt)).2.1

/-- A run without a lookup at `num_queries = INT_MAX` is a run. -/
theorem CacheRunNoWrap_run (c : CacheState) (hr : CacheRunNoWrap c) : CacheRun c := by
  induction hr with
  | start => exact CacheRun.start
  | create c n _ ih => exact CacheRun.create c n ih
  | destroy c _ ih => exact CacheRun.destroy c ih
  | insert c d b buf _ ih => exact CacheRun.insert c d b buf ih
  | lookup c d b buf _ _ ih => exact CacheRun.lookup c d b buf ih
  | update c d b buf _ ih => exact CacheRun.update c d b buf ih

/-- Under the cache invariant, an in-range lookup of the key of a valid entry hits that
entry. -/
theorem cache_lookup_hit_of_entry (c : CacheState) (e : Nat → cache_entry_t) (d b : Int)
    (buf : Buf) (hinv : CacheInv c) (hc : c.cache = some e) (hs : 0 < c.cache_size)
    (hd : 0 ≤ d ∧ d < 16) (hb : 0 ≤ b ∧ b < 256)
    (i : Nat) (hi : i < c.cache_size.toNat) (hv : (e i).valid = true)
    (hkd : (e i).disk_num = d) (hkb : (e i).block_num = b) :
    cache_lookup c d b (some buf) =
      (1, { c with
              num_queries := wrap_int (c.num_queries + 1),
              num_hits := wrap_int (c.num_hits + 1),
              cache := some (Function.update e i
                { e i with num_accesses := wrap_int ((e i).num_accesses + 1) }) },
        some (memcpy buf 0 (e i).block 0 256)) := by
  rw [cache_lookup_eq c e d b buf hc hs hd.1 (by omega) hb.1 (by omega)]
  obtain ⟨hp, hu⟩ := hinv e hc
  cases hscan : cache_lookup_scan e d b c.cache_size.toNat 0 with
  | none =>
    exfalso
    obtain ⟨m, _, hm, hbefore, hat⟩ := cache_lookup_scan_none e d b _ 0 hscan
    exact no_entry_of_miss e _ m d b hp (by omega) (fun j hj => hbefore j (Nat.zero_le _) hj)
      (fun h => hat (by omega)) i hi hv ⟨hkd, hkb⟩
  | some k =>
    obtain ⟨_, hk, hvk, hdk, hbk, _⟩ := cache_lookup_scan_some e d b _ 0 k hscan
    have hik : k = i := hu k i (by omega) hi hvk hv (by rw [hdk, hkd]) (by rw [hbk, hkb])
    subst hik
    rfl

/-- An in-range lookup of a key that no valid entry has counts a query and misses. -/
theorem cache_lookup_miss_of_absent (c : CacheState) (e : Nat → cache_entry_t) (d b : Int)
    (buf : Buf) (hc : c.cache = some e) (hs : 0 < c.cache_size)
    (hd : 0 ≤ d ∧ d < 16) (hb : 0 ≤ b ∧ b < 256)
    (habs : ¬ ∃ i, i < c.cache_size.toNat ∧ (e i).valid = true ∧ (e i).disk_num = d ∧
      (e i).block_num = b) :
    cache_lookup c d b (some buf)
      = (-1, { c with num_queries := wrap_int (c.num_queries + 1) }, some buf) := by
  rw [cache_lookup_eq c e d b buf hc hs hd.1 (by omega) hb.1 (by omega)]
  cases hscan : cache_lookup_scan e d b c.cache_size.toNat 0 with
  | none => rfl
  | some k =>
    exfalso
    obtain ⟨_, hk, hvk, hdk, hbk, _⟩ := cache_lookup_scan_some e d b _ 0 k hscan
    exact habs ⟨k, by omega, hvk, hdk, hbk⟩

/-- A lookup of block (0, 0) in the empty cache of two entries misses and increments
`num_queries`. -/
theorem counted_cache_lookup (n : Int) :
    cache_lookup (counted_cache n) 0 0 (some nines)
      = (-1, counted_cache (wrap_int (n + 1)), some nines) := by
  have hs : 0 < (counted_cache n).cache_size := by
    show (0 : Int) < 2
    decide
  have hv0 : ¬ zero_entry.valid = true := by decide
  rw [cache_lookup_miss_of_absent (counted_cache n) (fun _ => zero_entry) 0 0 nines rfl
    hs (by decide) (by decide) (fun ⟨_, _, hv, _⟩ => hv0 hv)]
  rfl

/-- The cache with `num_queries = n` is reached from program start by `cache_create(2)`
and `n` lookups of block (0, 0), none of them at `num_queries = INT_MAX`. -/
theorem counted_cache_run (n : Nat) (hn : n ≤ 2147483647) :
    CacheRunNoWrap (counted_cache (n : Int)) := by
  induction n with
  | zero => exact CacheRunNoWrap.create init_cache 2 CacheRunNoWrap.start
  | succ k ih =>
    have hk := ih (by omega)
    have hstep := CacheRunNoWrap.lookup (counted_cache (k : Int)) 0 0 (some nines) hk
      (by show (k : Int) < 2147483647; omega)
    rw [counted_cache_lookup, wrap_int_succ (k : Int) (by omega) (by omega)] at hstep
    exact hstep

/-- C11, the statement as written fails at the counters: the cache with
`num_queries = 2147483647` and `num_hits = 0` is reached from program start by
`cache_create(2)` and 2147483647 lookups that miss; there one more lookup of block (0, 0)
misses, returns -1 and leaves `num_queries = -2147483648`, which is not 2147483647 + 1, and
afterwards `num_hits = 0` exceeds `num_queries`, in a state that is reachable from program
start and from `cache_create`. -/
theorem lookup_counters_wrap :
    CacheRun (counted_cache 2147483647) ∧
    CacheReach (counted_cache 2147483647) ∧
    (counted_cache 2147483647).num_hits ≤ (counted_cache 2147483647).num_queries ∧
    (cache_lookup (counted_cache 2147483647) 0 0 (some nines)).1 = -1 ∧
    (cache_lookup (counted_cache 2147483647) 0 0 (some nines)).2.1.num_queries
      = -2147483648 ∧
    (cache_lookup (counted_cache 2147483647) 0 0 (some nines)).2.1.num_queries
      ≠ (counted_cache 2147483647).num_queries + 1 ∧
    CacheRun (cache_lookup (counted_cache 2147483647) 0 0 (some nines)).2.1 ∧
    CacheReach (cache_lookup (counted_cache 2147483647) 0 0 (some nines)).2.1 ∧
    ¬ (cache_lookup (counted_cache 2147483647) 0 0 (some nines)).2.1.num_hits
      ≤ (cache_lookup (counted_cache 2147483647) 0 0 (some nines)).2.1.num_queries := by
  have hrun : CacheRun (counted_cache 2147483647) :=
    CacheRunNoWrap_run _ (counted_cache_run 2147483647 (by decide))
  have hreach : CacheReach (counted_cache 2147483647) :=
    CacheReach.create ({ init_cache with num_queries := 2147483647 } : CacheState) 2
      (by decide)
  refine ⟨hrun, hreach, by decide, ?_, ?_, ?_, CacheRun.lookup _ 0 0 (some nines) hrun,
    CacheReach.lookup _ 0 0 (some nines) hreach, ?_⟩
  · rw [counted_cache_lookup]
  · rw [counted_cache_lookup]
    decide
  · rw [counted_cache_lookup]
    decide
  · rw [counted_cache_lookup]
    decide

/-- C11 (amended). Lookup is correct despite the early exit: in every cache state reachable
from `cache_create` by `cache_insert`, `cache_lookup` and `cache_update` calls, for every
in-range key and present buffer, `cache_lookup` returns 1 if and only if some valid entry
has the key; on a hit it copies that entry's 256-byte payload into the buffer and
increments that entry's access count, `num_hits` and `num_queries` as `int` variables; on a
miss it returns -1 and increments `num_queries` only; nothing else changes. An `int`
increment adds one to a value below 2147483647 and turns 2147483647 into -2147483648. In a
run from program start in which no lookup is made at `num_queries = 2147483647`,
`0 ≤ num_hits ≤ num_queries ≤ 2147483647` holds, and a lookup made at
`num_queries < 2147483647` adds exactly one to `num_queries` and keeps
`num_hits ≤ num_queries`. A lookup right after a successful insert of (d, b, p) hits and
returns the 256 bytes of p. -/
theorem lookup_correct (c : CacheState) (hr : CacheReach c) (e : Nat → cache_entry_t)
    (hc : c.cache = some e) (d b : Int) (buf : Buf)
    (hd : 0 ≤ d ∧ d < 16) (hb : 0 ≤ b ∧ b < 256) :
    ((cache_lookup c d b (some buf)).1 = 1 ↔
      ∃ i : Nat, (i : Int) < c.cache_size ∧ (e i).valid = true ∧ (e i).disk_num = d ∧
        (e i).block_num = b) ∧
    (∀ i : Nat, (i : Int) < c.cache_size → (e i).valid = true → (e i).disk_num = d →
      (e i).block_num = b →
      cache_lookup c d b (some buf) =
        (1, { c with
                num_queries := wrap_int (c.num_queries + 1),
                num_hits := wrap_int (c.num_hits + 1),
                cache := some (Function.update e i
                  { e i with num_accesses := wrap_int ((e i).num_accesses + 1) }) },
          some (memcpy buf 0 (e i).block 0 256)) ∧
      ∀ off, off < 256 → memcpy buf 0 (e i).block 0 256 off = (e i).block off) ∧
    ((¬ ∃ i : Nat, (i : Int) < c.cache_size ∧ (e i).valid = true ∧ (e i).disk_num = d ∧
        (e i).block_num = b) →
      cache_lookup c d b (some buf)
        = (-1, { c with num_queries := wrap_int (c.num_queries + 1) }, some buf)) ∧
    ((∀ x : Int, -2147483648 ≤ x → x < 2147483647 → wrap_int (x + 1) = x + 1) ∧
      wrap_int (2147483647 + 1) = -2147483648) ∧
    (CacheRunNoWrap c →
      (0 ≤ c.num_hits ∧ c.num_hits ≤ c.num_queries ∧ c.num_queries ≤ 2147483647) ∧
      (c.num_queries < 2147483647 →
        (cache_lookup c d b (some buf)).2.1.num_queries = c.num_queries + 1 ∧
        (cache_lookup c d b (some buf)).2.1.num_hits
          ≤ (cache_lookup c d b (some buf)).2.1.num_queries)) ∧
    (∀ p : Buf, (cache_insert c d b (some p)).1 = 1 →
      (cache_lookup (cache_insert c d b (some p)).2 d b (some buf)).1 = 1 ∧
      ∃ out, (cache_lookup (cache_insert c d b (some p)).2 d b (some buf)).2.2 = some out ∧
        ∀ off, off < 256 → out off = p off) := by
  have hinv := CacheReach_inv c hr
  obtain ⟨e0, he0, hs2⟩ := CacheReach_enabled c hr
  have hs : 0 < c.cache_size := by omega
  have hhit : ∀ i : Nat, (i : Int) < c.cache_size → (e i).valid = true → (e i).disk_num = d →
      (e i).block_num = b →
      cache_lookup c d b (some buf) =
        (1, { c with
                num_queries := wrap_int (c.num_queries + 1),
                num_hits := wrap_int (c.num_hits + 1),
                cache := some (Function.update e i
                  { e i with num_accesses := wrap_int ((e i).num_accesses + 1) }) },
          some (memcpy buf 0 (e i).block 0 256)) :=
    fun i hi hv hkd hkb =>
      cache_lookup_hit_of_entry c e d b buf hinv hc hs hd hb i (by omega) hv hkd hkb
  have hmiss : (¬ ∃ i : Nat, (i : Int) < c.cache_size ∧ (e i).valid = true ∧
        (e i).disk_num = d ∧ (e i).block_num = b) →
      cache_lookup c d b (some buf)
        = (-1, { c with num_queries := wrap_int (c.num_queries + 1) }, some buf) := by
    intro habs
    apply cache_lookup_miss_of_absent c e d b buf hc hs hd hb
    intro ⟨i, hi, h⟩
    exact habs ⟨i, by omega, h⟩
  refine ⟨?_, ?_, hmiss, ⟨wrap_int_succ, wrap_int_max⟩, ?_, ?_⟩
  · constructor
    · intro h
      by_contra habs
      rw [hmiss habs] at h
      simp at h
    · intro ⟨i, hi, hv, hkd, hkb⟩
      rw [hhit i hi hv hkd hkb]
  · intro i hi hv hkd hkb
    exact ⟨hhit i hi hv hkd hkb, fun off ho => memcpy_block _ _ _ ho⟩
  · intro hrun
    have hcnt := CacheRunNoWrap_counters c hrun
    refine ⟨hcnt, fun hlt => ⟨?_, CacheRunNoWrap_lookup c hrun d b (some buf) hlt⟩⟩
    have hq := wrap_int_succ c.num_queries (by omega) hlt
    by_cases habs : ∃ i : Nat, (i : Int) < c.cache_size ∧ (e i).valid = true ∧
        (e i).disk_num = d ∧ (e i).block_num = b
    · obtain ⟨i, hi, hv, hkd, hkb⟩ := habs
      rw [hhit i hi hv hkd hkb]
      exact hq
    · rw [hmiss habs]
      exact hq
  · intro p hp
    rcases cache_insert_cases c d b (some p) with h | ⟨e1, bb, k, hc1, hbb, hk, heq, _, _⟩
    · rw [h] at hp
      simp at hp
    · rw [hc] at hc1
      simp only [Option.some.injEq] at hc1 hbb
      subst hc1 hbb
      have hinv1 : CacheInv (cache_insert c d b (some p)).2 := cache_insert_inv c d b _ hinv
      rw [heq] at hinv1 ⊢
      have key := cache_lookup_hit_of_entry
        ({ c with cache := some (Function.update e k
            { valid := true, disk_num := d, block_num := b,
              block := memcpy (e k).block 0 p 0 256, num_accesses := 1 }) } : CacheState)
        _ d b buf hinv1 rfl hs hd hb k hk (by simp) (by simp) (by simp)
      rw [key]
      refine ⟨rfl, _, rfl, ?_⟩
      intro off ho
      rw [memcpy_block _ _ _ ho]
      simp only [Function.update_same]
      exact memcpy_block _ _ _ ho

/-- C11 (amended), at the cache holding block (0, 0) with payload 9s after
`cache_create(2)`: a lookup of (0, 0) returns 1. -/
theorem lookup_correct_witness :
    (cache_lookup one_entry_cache 0 0 (some sevens)).1 = 1 :=
  (lookup_correct one_entry_cache
    (CacheReach.insert _ 0 0 (some nines) (CacheReach.create init_state.cache 2 (by decide)))
    one_entry_entries rfl 0 0 sevens (by decide) (by decide)).1.mpr
    ⟨0, by decide, rfl, rfl, rfl⟩

/-- C17. Valid-prefix invariant: in every cache state reachable from `cache_create` by
`cache_insert`, `cache_lookup` and `cache_update` calls, an invalid slot is followed by
invalid slots only; a successful insert into a cache with an invalid slot fills the first
invalid slot and leaves every other slot and the rest of the state; and `cache_insert`,
`cache_lookup`, `cache_update` and `cache_create` keep the cache allocated and leave every
valid slot valid. -/
theorem valid_prefix_invariant (c : CacheState) (hr : CacheReach c)
    (e : Nat → cache_entry_t) (hc : c.cache = some e) :
    (∀ i j : Nat, i < j → (j : Int) < c.cache_size → (e i).valid = false →
      (e j).valid = false) ∧
    (∀ (d b : Int) (buf : Option Buf), (cache_insert c d b buf).1 = 1 →
      (∃ i : Nat, (i : Int) < c.cache_size ∧ (e i).valid = false) →
      ∃ (k : Nat) (bb : Buf), buf = some bb ∧ (k : Int) < c.cache_size ∧
        (e k).valid = false ∧ (∀ j, j < k → (e j).valid = true) ∧
        (cache_insert c d b buf).2 =
          { c with cache := some (Function.update e k
              { valid := true, disk_num := d, block_num := b,
                block := memcpy (e k).block 0 bb 0 256, num_accesses := 1 }) }) ∧
    (∀ (d b n : Int) (buf : Option Buf) (p : Buf),
      (∃ e1, (cache_insert c d b buf).2.cache = some e1 ∧
        ∀ i, (e i).valid = true → (e1 i).valid = true) ∧
      (∃ e1, (cache_lookup c d b buf).2.1.cache = some e1 ∧
        ∀ i, (e i).valid = true → (e1 i).valid = true) ∧
      (∃ e1, (cache_update c d b p).cache = some e1 ∧
        ∀ i, (e i).valid = true → (e1 i).valid = true) ∧
      (cache_create c n).2 = c) := by
  have hinv := CacheReach_inv c hr
  obtain ⟨e0, he0, hs2⟩ := CacheReach_enabled c hr
  refine ⟨?_, ?_, ?_⟩
  · intro i j hij hj hvi
    by_contra hvj
    have hvj1 : (e j).valid = true := by simpa using hvj
    have := (hinv e hc).1 i j hij (by omega) hvj1
    rw [hvi] at this
    exact absurd this (by simp)
  · intro d b buf hret ⟨i, hi, hvi⟩
    rcases cache_insert_cases c d b buf with h | ⟨e1, bb, k, hc1, hbb, hk, heq, hbefore, hat⟩
    · rw [h] at hret
      simp at hret
    · rw [hc] at hc1
      simp only [Option.some.injEq] at hc1
      subst hc1
      have hkv : (e k).valid = false := by
        rcases hat with h | h
        · exact h
        · have := (h i (by omega)).1
          rw [hvi] at this
          exact absurd this (by simp)
      refine ⟨k, bb, hbb, by omega, hkv, fun j hj => (hbefore j hj).1, ?_⟩
      rw [heq]
  · intro d b n buf p
    refine ⟨?_, ?_, ?_, ?_⟩
    · rcases cache_insert_cases c d b buf with h | ⟨e1, bb, k, hc1, _, _, heq, _, _⟩
      · rw [h]; exact ⟨e, hc, fun i h => h⟩
      · rw [hc] at hc1
        simp only [Option.some.injEq] at hc1
        subst hc1
        rw [heq]
        refine ⟨_, rfl, ?_⟩
        intro i hv
        by_cases hik : i = k
        · subst hik; simp
        · simp only [Function.update_noteq hik]; exact hv
    · rcases cache_lookup_cases c d b buf with
        ⟨_, _, h3, _⟩ | ⟨e1, bb, k, hc1, _, _, _, _, _, _, heq⟩
      · rw [h3]; exact ⟨e, hc, fun i h => h⟩
      · rw [hc] at hc1
        simp only [Option.some.injEq] at hc1
        subst hc1
        rw [heq]
        refine ⟨_, rfl, ?_⟩
        intro i hv
        by_cases hik : i = k
        · subst hik; simpa using hv
        · simp only [Function.update_noteq hik]; exact hv
    · rcases cache_update_cases c d b p with h | ⟨e1, k, hc1, _, _, _, _, heq⟩
      · rw [h]; exact ⟨e, hc, fun i h => h⟩
      · rw [hc] at hc1
        simp only [Option.some.injEq] at hc1
        subst hc1
        rw [heq]
        refine ⟨_, rfl, ?_⟩
        intro i hv
        by_cases hik : i = k
        · subst hik; simpa using hv
        · simp only [Function.update_noteq hik]; exact hv
    · unfold cache_create
      rw [if_pos (Or.inl ((cache_enabled_iff c).mpr ⟨⟨e, hc⟩, by omega⟩))]

/-- C17, at the cache holding block (0, 0) after `cache_create(2)`: slot 1 is invalid, and
the insert of block (0, 1) fills an invalid slot that comes after valid slots only. -/
theorem valid_prefix_invariant_witness :
    ∃ (k : Nat) (bb : Buf), some sevens = some bb ∧ (k : Int) < one_entry_cache.cache_size ∧
      (one_entry_entries k).valid = false ∧
      (∀ j, j < k → (one_entry_entries j).valid = true) ∧
      (cache_insert one_entry_cache 0 1 (some sevens)).2 =
        { one_entry_cache with cache := some (Function.update one_entry_entries k
            { valid := true, disk_num := 0, block_num := 1,
              block := memcpy (one_entry_entries k).block 0 bb 0 256, num_accesses := 1 }) } :=
  (valid_prefix_invariant one_entry_cache
    (CacheReach.insert _ 0 0 (some nines) (CacheReach.create init_state.cache 2 (by decide)))
    one_entry_entries rfl).2.1 0 1 (some sevens) (by decide) ⟨1, by decide, rfl⟩

/-! ## The number of iterations of the block loops -/

theorem mdadm_read_eq_loop (st : State) (start_addr read_len : Nat) (buf : Buf)
    (hm : st.is_mounted ≠ 0) (hl : read_len ≤ 2048) (hs : start_addr + read_len ≤ 1048576) :
    mdadm_read st start_addr read_len (some buf) =
      (mdadm_read_loop read_len (mdadm_read_init st start_addr read_len buf)).map
        (fun w => ((read_len : Int), w.st, some w.read_buf)) := by
  unfold mdadm_read
  rw [if_neg (by simp), if_neg (by
    simp only [Option.isNone_some, not_or]
    refine ⟨hm, by omega, by omega, by omega, by simp⟩)]
  simp only [mdadm_read_init]
  cases mdadm_read_loop read_len _ <;> rfl

theorem mdadm_write_eq_loop (st : State) (start_addr write_len : Nat) (buf : Buf)
    (hm : st.is_mounted ≠ 0) (hw : st.is_written ≠ 0) (hl : write_len ≤ 2048)
    (hs : start_addr + write_len ≤ 1048576) :
    mdadm_write st start_addr write_len (some buf) =
      (mdadm_write_loop write_len (mdadm_write_init st start_addr write_len buf)).map
        (fun w => ((write_len : Int), w.st)) := by
  unfold mdadm_write
  rw [if_neg (by simp), if_neg (by
    simp only [Option.isNone_some, not_or]
    refine ⟨hm, hw, by omega, by omega, by simp⟩)]
  simp only [mdadm_write_init]
  cases mdadm_write_loop write_len _ <;> rfl

/-- If the loop condition holds before each of the first `N` iterations and fails after
them, the read loop runs exactly these `N` iterations. -/
theorem mdadm_read_loop_runs (N : Nat) :
    ∀ (fuel : Nat) (v : ReadVars), N ≤ fuel →
      (∀ i, i < N → (mdadm_read_step^[i] v).read_bytes ≠ 0) →
      (mdadm_read_step^[N] v).read_bytes = 0 →
      mdadm_read_loop fuel v = some (mdadm_read_step^[N] v) := by
  induction N with
  | zero =>
    intro fuel v _ _ h0
    exact mdadm_read_loop_zero fuel v h0
  | succ N ih =>
    intro fuel v hf hne h0
    obtain ⟨f, rfl⟩ : ∃ f, fuel = f + 1 := ⟨fuel - 1, by omega⟩
    rw [mdadm_read_loop_succ f v (hne 0 (by omega))]
    rw [Function.iterate_succ_apply] at h0 ⊢
    apply ih f (mdadm_read_step v) (by omega) _ h0
    intro i hi
    have := hne (i + 1) (by omega)
    rwa [Function.iterate_succ_apply] at this

/-- If the loop condition holds before each of the first `N` iterations and fails after
them, the write loop runs exactly these `N` iterations. -/
theorem mdadm_write_loop_runs (N : Nat) :
    ∀ (fuel : Nat) (v : WriteVars), N ≤ fuel →
      (∀ i, i < N → (mdadm_write_step^[i] v).write_len ≠ 0) →
      (mdadm_write_step^[N] v).write_len = 0 →
      mdadm_write_loop fuel v = some (mdadm_write_step^[N] v) := by
  induction N with
  | zero =>
    intro fuel v _ _ h0
    exact mdadm_write_loop_zero fuel v h0
  | succ N ih =>
    intro fuel v hf hne h0
    obtain ⟨f, rfl⟩ : ∃ f, fuel = f + 1 := ⟨fuel - 1, by omega⟩
    rw [mdadm_write_loop_succ f v (hne 0 (by omega))]
    rw [Function.iterate_succ_apply] at h0 ⊢
    apply ih f (mdadm_write_step v) (by omega) _ h0
    intro i hi
    have := hne (i + 1) (by omega)
    rwa [Function.iterate_succ_apply] at this

theorem counter_after (l off i : Nat) (ho : off < 256) :
    (l - min l (256 * i - off))
        - min (l - min l (256 * i - off)) (256 - (if i = 0 then off else 0))
      = l - min l (256 * (i + 1) - off) := by
  split_ifs <;> omega

theorem consumed_after (l off i : Nat) (ho : off < 256) :
    min l (256 * i - off)
        + min (l - min l (256 * i - off)) (256 - (if i = 0 then off else 0))
      = min l (256 * (i + 1) - off) := by
  split_ifs <;> omega

theorem block_after (d b : Nat) (hb : b < 256) (hd : d < 255) :
    (if b = 255 then (d + 1) % 256 else d) * 256 + (if b = 255 then 0 else (b + 1) % 256)
      = d * 256 + b + 1 ∧
    (if b = 255 then 0 else (b + 1) % 256) < 256 := by
  split_ifs <;> omega

theorem spanned_blocks_spec (s l : Nat) (hl : l ≤ 2048) :
    spanned_blocks s l ≤ 9 ∧ spanned_blocks s l ≤ l ∧
    (l = 0 → spanned_blocks s l = 0) ∧
    (0 < l → 256 * (spanned_blocks s l - 1) < s % 256 + l ∧
      s % 256 + l ≤ 256 * spanned_blocks s l) := by
  unfold spanned_blocks
  split_ifs <;> omega

theorem counter_facts (l off N i : Nat) (ho : off < 256) (hi : i < N) (hl : 0 < l)
    (h1 : 256 * (N - 1) < off + l) :
    l - min l (256 * i - off) ≠ 0 ∧
    l - min l (256 * (i + 1) - off) < l - min l (256 * i - off) := by
  omega

theorem counter_end (l off N : Nat) (h0 : l = 0 → N = 0) (h2 : 0 < l → off + l ≤ 256 * N) :
    l - min l (256 * N - off) = 0 := by
  omega

/-- The loop variables of the read loop after `i` iterations, in closed form: the bytes
left, the offset, and the block index `diskId * 256 + blockId`. -/
theorem mdadm_read_iterate_vars (v : ReadVars) (ho : v.offset < 256) (hb : v.blockId < 256)
    (hl : v.read_bytes ≤ 2048)
    (hA : v.diskId * 65536 + v.blockId * 256 + v.offset + v.read_bytes ≤ 1048576) :
    ∀ i, 256 * i < v.offset + v.read_bytes + 256 →
      (mdadm_read_step^[i] v).read_bytes
        = v.read_bytes - min v.read_bytes (256 * i - v.offset) ∧
      (mdadm_read_step^[i] v).offset = (if i = 0 then v.offset else 0) ∧
      (mdadm_read_step^[i] v).diskId * 256 + (mdadm_read_step^[i] v).blockId
        = v.diskId * 256 + v.blockId + i ∧
      (mdadm_read_step^[i] v).blockId < 256 := by
  intro i
  induction i with
  | zero =>
    intro _
    simp only [Function.iterate_zero, id_eq, if_true]
    exact ⟨by omega, trivial, by omega, hb⟩
  | succ i ih =>
    intro hi
    obtain ⟨h1, h2, h3, h4⟩ := ih (by omega)
    rw [Function.iterate_succ_apply']
    have ho1 : (mdadm_read_step^[i] v).offset < 256 := by
      rw [h2]; split_ifs <;> omega
    have hrb1 : (mdadm_read_step^[i] v).read_bytes < 2 ^ 32 := by
      rw [h1]; omega
    obtain ⟨_, hrb, _⟩ := mdadm_read_step_vars (mdadm_read_step^[i] v) ho1 hrb1
    have hd1 : (mdadm_read_step^[i] v).diskId < 255 := by omega
    obtain ⟨k1, k2⟩ := block_after _ _ h4 hd1
    refine ⟨?_, ?_, ?_, k2⟩
    · rw [hrb, h1, h2]
      exact counter_after _ _ _ ho
    · show (0 : Nat) = if i + 1 = 0 then v.offset else 0
      rw [if_neg (Nat.succ_ne_zero i)]
    · have hpos : (mdadm_read_step (mdadm_read_step^[i] v)).diskId * 256
          + (mdadm_read_step (mdadm_read_step^[i] v)).blockId
          = (mdadm_read_step^[i] v).diskId * 256 + (mdadm_read_step^[i] v).blockId + 1 := k1
      rw [hpos, h3, Nat.add_assoc]

/-- The loop variables of the write loop after `i` iterations, in closed form. -/
theorem mdadm_write_iterate_vars (v : WriteVars) (ho : v.offset < 256) (hb : v.blockId < 256)
    (hwo : v.write_buff_offset = 0) (hl : v.write_len ≤ 2048)
    (hA : v.diskId * 65536 + v.blockId * 256 + v.offset + v.write_len ≤ 1048576) :
    ∀ i, 256 * i < v.offset + v.write_len + 256 →
      (mdadm_write_step^[i] v).write_len
        = v.write_len - min v.write_len (256 * i - v.offset) ∧
      (mdadm_write_step^[i] v).write_buff_offset = min v.write_len (256 * i - v.offset) ∧
      (mdadm_write_step^[i] v).offset = (if i = 0 then v.offset else 0) ∧
      (mdadm_write_step^[i] v).diskId * 256 + (mdadm_write_step^[i] v).blockId
        = v.diskId * 256 + v.blockId + i ∧
      (mdadm_write_step^[i] v).blockId < 256 := by
  intro i
  induction i with
  | zero =>
    intro _
    simp only [Function.iterate_zero, id_eq, if_true]
    exact ⟨by omega, by omega, trivial, by omega, hb⟩
  | succ i ih =>
    intro hi
    obtain ⟨h1, h0, h2, h3, h4⟩ := ih (by omega)
    rw [Function.iterate_succ_apply']
    have ho1 : (mdadm_write_step^[i] v).offset < 256 := by
      rw [h2]; split_ifs <;> omega
    have hwl1 : (mdadm_write_step^[i] v).write_len < 2 ^ 32 := by
      rw [h1]; omega
    have hsum1 : (mdadm_write_step^[i] v).write_buff_offset
        + (mdadm_write_step^[i] v).write_len < 2 ^ 32 := by
      rw [h1, h0]; omega
    obtain ⟨_, hwl, hwo1⟩ := mdadm_write_step_vars (mdadm_write_step^[i] v) ho1 hwl1
      (by
        intro hne
        rw [h2] at hne
        split_ifs at hne with hi0
        · subst hi0
          simpa using hwo
        · exact absurd rfl hne)
      hsum1
    have hd1 : (mdadm_write_step^[i] v).diskId < 255 := by omega
    obtain ⟨k1, k2⟩ := block_after _ _ h4 hd1
    refine ⟨?_, ?_, ?_, ?_, k2⟩
    · rw [hwl, h1, h2]
      exact counter_after _ _ _ ho
    · rw [hwo1, h1, h0, h2]
      exact consumed_after _ _ _ ho
    · show (0 : Nat) = if i + 1 = 0 then v.offset else 0
      rw [if_neg (Nat.succ_ne_zero i)]
    · have hpos : (mdadm_write_step (mdadm_write_step^[i] v)).diskId * 256
          + (mdadm_write_step (mdadm_write_step^[i] v)).blockId
          = (mdadm_write_step^[i] v).diskId * 256 + (mdadm_write_step^[i] v).blockId + 1 := k1
      rw [hpos, h3, Nat.add_assoc]

/-- The read loop started on an accepted range runs exactly `spanned_blocks` iterations,
with the counter and the block position of each as stated. -/
theorem mdadm_read_loop_count (v : ReadVars) (s l : Nat) (hl : l ≤ 2048)
    (hs : s + l ≤ 1048576) (vo : v.offset = s % 256) (vr : v.read_bytes = l)
    (vpos : v.diskId * 256 + v.blockId = s / 256) (vb : v.blockId < 256) :
    mdadm_read_loop l v = some (mdadm_read_step^[spanned_blocks s l] v) ∧
    (mdadm_read_step^[spanned_blocks s l] v).read_bytes = 0 ∧
    ∀ i, i < spanned_blocks s l →
      (mdadm_read_step^[i] v).read_bytes ≠ 0 ∧
      (mdadm_read_step^[i + 1] v).read_bytes < (mdadm_read_step^[i] v).read_bytes ∧
      (mdadm_read_step^[i + 1] v).read_bytes
        = (mdadm_read_step^[i] v).read_bytes
          - min (mdadm_read_step^[i] v).read_bytes (256 - (mdadm_read_step^[i] v).offset) ∧
      (mdadm_read_step^[i] v).diskId * 256 + (mdadm_read_step^[i] v).blockId = s / 256 + i ∧
      (mdadm_read_step^[i] v).blockId < 256 ∧
      (mdadm_read_step^[i] v).diskId < 16 := by
  obtain ⟨hN9, hNl, hN0, hN1⟩ := spanned_blocks_spec s l hl
  obtain ⟨N, hN⟩ : ∃ N, N = spanned_blocks s l := ⟨_, rfl⟩
  rw [← hN] at hN9 hNl hN0 hN1 ⊢
  have ho : v.offset < 256 := by omega
  have hvars := mdadm_read_iterate_vars v ho vb (by omega) (by omega)
  rw [vo, vr, vpos] at hvars
  have hoff : s % 256 < 256 := by omega
  have hzero : (mdadm_read_step^[N] v).read_bytes = 0 := by
    rw [(hvars N (by omega)).1]
    exact counter_end l (s % 256) N hN0 (fun h => (hN1 h).2)
  have hiter : ∀ i, i < N →
      (mdadm_read_step^[i] v).read_bytes ≠ 0 ∧
      (mdadm_read_step^[i + 1] v).read_bytes < (mdadm_read_step^[i] v).read_bytes ∧
      (mdadm_read_step^[i + 1] v).read_bytes
        = (mdadm_read_step^[i] v).read_bytes
          - min (mdadm_read_step^[i] v).read_bytes (256 - (mdadm_read_step^[i] v).offset) ∧
      (mdadm_read_step^[i] v).diskId * 256 + (mdadm_read_step^[i] v).blockId = s / 256 + i ∧
      (mdadm_read_step^[i] v).blockId < 256 ∧
      (mdadm_read_step^[i] v).diskId < 16 := by
    intro i hi
    have hlen : 0 < l := by
      by_contra h
      have := hN0 (by omega)
      omega
    have hb1 := (hN1 hlen).1
    obtain ⟨a1, a2, a3, a4⟩ := hvars i (by omega)
    obtain ⟨b1, _, _, _⟩ := hvars (i + 1) (by omega)
    obtain ⟨c1, c2⟩ := counter_facts l (s % 256) N i hoff hi hlen hb1
    refine ⟨by rw [a1]; exact c1, by rw [a1, b1]; exact c2, ?_, a3, a4, by omega⟩
    rw [a1, b1, a2]
    exact (counter_after l (s % 256) i hoff).symm
  exact ⟨mdadm_read_loop_runs N l v hNl (fun i hi => (hiter i hi).1) hzero, hzero, hiter⟩

/-- The write loop started on an accepted range runs exactly `spanned_blocks` iterations,
with the counter and the block position of each as stated. -/
theorem mdadm_write_loop_count (v : WriteVars) (s l : Nat) (hl : l ≤ 2048)
    (hs : s + l ≤ 1048576) (vo : v.offset = s % 256) (vr : v.write_len = l)
    (vw : v.write_buff_offset = 0)
    (vpos : v.diskId * 256 + v.blockId = s / 256) (vb : v.blockId < 256) :
    mdadm_write_loop l v = some (mdadm_write_step^[spanned_blocks s l] v) ∧
    (mdadm_write_step^[spanned_blocks s l] v).write_len = 0 ∧
    ∀ i, i < spanned_blocks s l →
      (mdadm_write_step^[i] v).write_len ≠ 0 ∧
      (mdadm_write_step^[i + 1] v).write_len < (mdadm_write_step^[i] v).write_len ∧
      (mdadm_write_step^[i + 1] v).write_len
        = (mdadm_write_step^[i] v).write_len
          - min (mdadm_write_step^[i] v).write_len (256 - (mdadm_write_step^[i] v).offset) ∧
      (mdadm_write_step^[i] v).diskId * 256 + (mdadm_write_step^[i] v).blockId
        = s / 256 + i ∧
      (mdadm_write_step^[i] v).blockId < 256 ∧
      (mdadm_write_step^[i] v).diskId < 16 := by
  obtain ⟨hN9, hNl, hN0, hN1⟩ := spanned_blocks_spec s l hl
  obtain ⟨N, hN⟩ : ∃ N, N = spanned_blocks s l := ⟨_, rfl⟩
  rw [← hN] at hN9 hNl hN0 hN1 ⊢
  have ho : v.offset < 256 := by omega
  have hvars := mdadm_write_iterate_vars v ho vb vw (by omega) (by omega)
  rw [vo, vr, vpos] at hvars
  have hoff : s % 256 < 256 := by omega
  have hzero : (mdadm_write_step^[N] v).write_len = 0 := by
    rw [(hvars N (by omega)).1]
    exact counter_end l (s % 256) N hN0 (fun h => (hN1 h).2)
  have hiter : ∀ i, i < N →
      (mdadm_write_step^[i] v).write_len ≠ 0 ∧
      (mdadm_write_step^[i + 1] v).write_len < (mdadm_write_step^[i] v).write_len ∧
      (mdadm_write_step^[i + 1] v).write_len
        = (mdadm_write_step^[i] v).write_len
          - min (mdadm_write_step^[i] v).write_len (256 - (mdadm_write_step^[i] v).offset) ∧
      (mdadm_write_step^[i] v).diskId * 256 + (mdadm_write_step^[i] v).blockId
        = s / 256 + i ∧
      (mdadm_write_step^[i] v).blockId < 256 ∧
      (mdadm_write_step^[i] v).diskId < 16 := by
    intro i hi
    have hlen : 0 < l := by
      by_contra h
      have := hN0 (by omega)
      omega
    have hb1 := (hN1 hlen).1
    obtain ⟨a1, _, a2, a3, a4⟩ := hvars i (by omega)
    obtain ⟨b1, _, _, _, _⟩ := hvars (i + 1) (by omega)
    obtain ⟨c1, c2⟩ := counter_facts l (s % 256) N i hoff hi hlen hb1
    refine ⟨by rw [a1]; exact c1, by rw [a1, b1]; exact c2, ?_, a3, a4, by omega⟩
    rw [a1, b1, a2]
    exact (counter_after l (s % 256) i hoff).symm
  exact ⟨mdadm_write_loop_runs N l v hNl (fun i hi => (hiter i hi).1) hzero, hzero, hiter⟩

/-- C20. The block loops terminate and touch exactly the spanned blocks: for every accepted
request (`len ≤ 2048`, `start_addr + len ≤ 1,048,576`) the `while` loops of `mdadm_read` and
`mdadm_write` run exactly `N` iterations, where `N` is 0 when `len = 0` and
`ceil(((start_addr mod 256) + len) / 256)` otherwise, and `N ≤ 9`: the byte counter is
nonzero before each of the first `N` iterations and zero after them. In iteration `i` the
counter drops by the exact natural-number difference (no wrap below zero), the block
handled has linear block index `start_addr / 256 + i`, and its disk id is below 16. The
functions return `len` with the state the `N` iterations leave. -/
theorem block_loops (st : State) (start_addr len : Nat) (buf : Buf)
    (hl : len ≤ 2048) (hs : start_addr + len ≤ 1048576) :
    (spanned_blocks start_addr len ≤ 9 ∧
      (len = 0 → spanned_blocks start_addr len = 0) ∧
      (0 < len →
        256 * (spanned_blocks start_addr len - 1) < start_addr % 256 + len ∧
        start_addr % 256 + len ≤ 256 * spanned_blocks start_addr len)) ∧
    (mdadm_read_loop len (mdadm_read_init st start_addr len buf)
        = some (mdadm_read_step^[spanned_blocks start_addr len]
            (mdadm_read_init st start_addr len buf)) ∧
      (mdadm_read_step^[spanned_blocks start_addr len]
        (mdadm_read_init st start_addr len buf)).read_bytes = 0 ∧
      (∀ i, i < spanned_blocks start_addr len →
        (mdadm_read_step^[i] (mdadm_read_init st start_addr len buf)).read_bytes ≠ 0 ∧
        (mdadm_read_step^[i + 1] (mdadm_read_init st start_addr len buf)).read_bytes
          < (mdadm_read_step^[i] (mdadm_read_init st start_addr len buf)).read_bytes ∧
        (mdadm_read_step^[i + 1] (mdadm_read_init st start_addr len buf)).read_bytes
          = (mdadm_read_step^[i] (mdadm_read_init st start_addr len buf)).read_bytes
            - min (mdadm_read_step^[i] (mdadm_read_init st start_addr len buf)).read_bytes
                (256 - (mdadm_read_step^[i] (mdadm_read_init st start_addr len buf)).offset) ∧
        (mdadm_read_step^[i] (mdadm_read_init st start_addr len buf)).diskId * 256
          + (mdadm_read_step^[i] (mdadm_read_init st start_addr len buf)).blockId
          = start_addr / 256 + i ∧
        (mdadm_read_step^[i] (mdadm_read_init st start_addr len buf)).blockId < 256 ∧
        (mdadm_read_step^[i] (mdadm_read_init st start_addr len buf)).diskId < 16) ∧
      (st.is_mounted ≠ 0 →
        mdadm_read st start_addr len (some buf)
          = some ((len : Int),
              (mdadm_read_step^[spanned_blocks start_addr len]
                (mdadm_read_init st start_addr len buf)).st,
              some (mdadm_read_step^[spanned_blocks start_addr len]
                (mdadm_read_init st start_addr len buf)).read_buf))) ∧
    (mdadm_write_loop len (mdadm_write_init st start_addr len buf)
        = some (mdadm_write_step^[spanned_blocks start_addr len]
            (mdadm_write_init st start_addr len buf)) ∧
      (mdadm_write_step^[spanned_blocks start_addr len]
        (mdadm_write_init st start_addr len buf)).write_len = 0 ∧
      (∀ i, i < spanned_blocks start_addr len →
        (mdadm_write_step^[i] (mdadm_write_init st start_addr len buf)).write_len ≠ 0 ∧
        (mdadm_write_step^[i + 1] (mdadm_write_init st start_addr len buf)).write_len
          < (mdadm_write_step^[i] (mdadm_write_init st start_addr len buf)).write_len ∧
        (mdadm_write_step^[i + 1] (mdadm_write_init st start_addr len buf)).write_len
          = (mdadm_write_step^[i] (mdadm_write_init st start_addr len buf)).write_len
            - min (mdadm_write_step^[i] (mdadm_write_init st start_addr len buf)).write_len
                (256 - (mdadm_write_step^[i]
                  (mdadm_write_init st start_addr len buf)).offset) ∧
        (mdadm_write_step^[i] (mdadm_write_init st start_addr len buf)).diskId * 256
          + (mdadm_write_step^[i] (mdadm_write_init st start_addr len buf)).blockId
          = start_addr / 256 + i ∧
        (mdadm_write_step^[i] (mdadm_write_init st start_addr len buf)).blockId < 256 ∧
        (mdadm_write_step^[i] (mdadm_write_init st start_addr len buf)).diskId < 16) ∧
      (st.is_mounted ≠ 0 → st.is_written ≠ 0 →
        mdadm_write st start_addr len (some buf)
          = some ((len : Int),
              (mdadm_write_step^[spanned_blocks start_addr len]
                (mdadm_write_init st start_addr len buf)).st))) := by
  obtain ⟨hd, hb⟩ := addr_split start_addr (by omega)
  obtain ⟨hN9, _, hN0, hN1⟩ := spanned_blocks_spec start_addr len hl
  have hpos : start_addr / 65536 * 256 + start_addr % 65536 / 256 = start_addr / 256 := by
    omega
  have hblk : start_addr % 65536 / 256 < 256 := by omega
  refine ⟨⟨hN9, hN0, hN1⟩, ?_, ?_⟩
  · obtain ⟨h1, h2, h3⟩ := mdadm_read_loop_count (mdadm_read_init st start_addr len buf)
      start_addr len hl hs rfl rfl
      (by show getDiskID start_addr * 256 + getBlockID start_addr (getDiskID start_addr)
            = start_addr / 256
          rw [hb, hd]; exact hpos)
      (by show getBlockID start_addr (getDiskID start_addr) < 256
          rw [hb]; exact hblk)
    refine ⟨h1, h2, h3, ?_⟩
    intro hm
    rw [mdadm_read_eq_loop st start_addr len buf hm hl hs, h1]
    rfl
  · obtain ⟨h1, h2, h3⟩ := mdadm_write_loop_count (mdadm_write_init st start_addr len buf)
      start_addr len hl hs
      (by show start_addr % 256 % 256 = start_addr % 256
          omega) rfl rfl
      (by show getDiskID start_addr * 256 + getBlockID start_addr (getDiskID start_addr)
            = start_addr / 256
          rw [hb, hd]; exact hpos)
      (by show getBlockID start_addr (getDiskID start_addr) < 256
          rw [hb]; exact hblk)
    refine ⟨h1, h2, h3, ?_⟩
    intro hm hw
    rw [mdadm_write_eq_loop st start_addr len buf hm hw hl hs, h1]
    rfl

/-- C20, at the 100-byte request at address 440 in a mounted state with write permission:
both loops run exactly two iterations, on blocks 1 and 2 of disk 0, and the functions
return 100. -/
theorem block_loops_witness :
    spanned_blocks 440 100 = 2 ∧
    mdadm_read_loop 100 (mdadm_read_init ready_state 440 100 nines)
      = some (mdadm_read_step^[spanned_blocks 440 100]
          (mdadm_read_init ready_state 440 100 nines)) ∧
    mdadm_write_loop 100 (mdadm_write_init ready_state 440 100 nines)
      = some (mdadm_write_step^[spanned_blocks 440 100]
          (mdadm_write_init ready_state 440 100 nines)) ∧
    mdadm_write ready_state 440 100 (some nines)
      = some (((100 : Nat) : Int),
          (mdadm_write_step^[spanned_blocks 440 100]
            (mdadm_write_init ready_state 440 100 nines)).st) :=
  ⟨by decide,
   (block_loops ready_state 440 100 nines (by norm_num) (by norm_num)).2.1.1,
   (block_loops ready_state 440 100 nines (by norm_num) (by norm_num)).2.2.1,
   (block_loops ready_state 440 100 nines (by norm_num) (by norm_num)).2.2.2.2.2
     (by decide) (by decide)⟩
